import Mathlib

/-!
The file system event processor of fibratus (`internal/etw/processors/fs_windows.go`).

A shallow embedding of `fsProcessor`: the file metadata table (`files`), the
pending-IRP table (`irps`), the stack-walk buckets (`buckets`), the dispatch
function `processEvent`, the three-stage lookup `findFile`, the mapped-view
resolver `getMappedFile` and one sweep of the purger `purge`.

Conventions of the embedding.

* Go maps `map[uint64]V` are partial functions `Nat → Option V`; `m[k] = v` is
  `Function.update m k (some v)` and `delete(m, k)` is `Function.update m k none`.
* `*kevent.Kevent` values are records; the event parameters `Kparams`
  (a Go map keyed by the parameter name) are a partial function on `ParamName`.
* `uint64`/`uint32` values are natural numbers, reduced modulo `2^64`/`2^32`
  where the source arithmetic can wrap.
* `time.Time` is an integer number of nanoseconds.
* A Go panic (raised by the `Must*` parameter accessors) is the outcome
  `Outcome.panicked`.
* Every call made to an external collaborator (handle snapshotter, process
  snapshotter, device mapper, limiter, PE parser, Windows API) is answered by
  the environment `Env` and recorded, in order, in the `calls` log.
-/

namespace Fs

/-! ## Events and parameters -/

/-- Event types (`ktypes`) the processor dispatches on, the file types that reach
the default branch, and one type outside of the file category. -/
inductive Ktype
  | FileRundown
  | MapFileRundown
  | CreateFile
  | StackWalk
  | FileOpEnd
  | ReleaseFile
  | UnmapViewFile
  | MapViewFile
  | DeleteFile
  | CloseFile
  | EnumDirectory
  | ReadFile
  | WriteFile
  | RenameFile
  | SetFileInformation
  | CreateProcess
  deriving DecidableEq, Repr

/-- Event categories (`ktypes.Category`); only `File` is told apart by the processor. -/
inductive Category
  | File
  | Other
  deriving DecidableEq, Repr

/-- Parameter names (`kparams`) read or written by the processor. `Other n` stands for
any further parameter a record may carry. -/
inductive ParamName
  | FilePath
  | FileObject
  | FileKey
  | FileIrpPtr
  | FileExtraInfo
  | NTStatus
  | FileViewSectionType
  | FileViewBase
  | FileOffset
  | FileCreateOptions
  | FileType
  | FileOperation
  | FileDirectory
  | Callstack
  | FileIsDLL
  | FileIsDriver
  | FileIsExecutable
  | FileIsDotnet
  | Other (n : Nat)
  deriving DecidableEq, Repr

/-- Parameter kinds (`kparams.Type`) used when the processor appends a parameter, and
the kinds of the parameters it reads. -/
inductive ParamType
  | Path
  | Status
  | Bool
  | Slice
  | Enum
  | Uint64
  | Uint32
  | Address
  | UnicodeString
  deriving DecidableEq, Repr

/-- Go value held by a parameter (`kparams.Value`), by dynamic type. -/
inductive Value
  | uint64 (v : Nat)
  | uint32 (v : Nat)
  | str (s : String)
  | bool (b : Bool)
  | slice (xs : List Nat)
  deriving DecidableEq, Repr

/-- Enumeration tables handed to `AppendEnum`. -/
inductive EnumTable
  | FileTypes
  | FileCreateDispositions
  deriving DecidableEq, Repr

/-- Event parameter: kind, value and, for enumerations, the table used to render it. -/
structure Kparam where
  Typ : ParamType
  Value : Value
  Enum : Option EnumTable
  deriving DecidableEq, Repr

/-- Parameter bag: Go map from parameter name to parameter. -/
abbrev Kparams := ParamName → Option Kparam

/-- Modelled from the spec: the record of section 3 (`kevent.Kevent` is not among the
sources): type tag, category, process id, timestamp, parameter bag, the
"withhold from downstream" flag `WaitEnqueue` and the stack-correlation id. -/
structure Kevent where
  Typ : Ktype
  Category : Category
  PID : Nat
  Timestamp : Int
  Kparams : Kparams
  WaitEnqueue : Bool
  StackID : Nat

/-- Errors returned by the processor: a parameter accessor that failed, or an error
handed back by a collaborator. -/
inductive Err
  | kparam (name : ParamName)
  | external (code : Nat)
  deriving DecidableEq, Repr

/-- Modelled from the spec: `Kparams.GetUint64` (package `kevent`, not among the sources)
yields the value of a `uint64` parameter and an error when the parameter is missing
or holds another type. -/
def Kparams.GetUint64 (kpars : Kparams) (name : ParamName) : Except Err Nat :=
  match kpars name with
  | some ⟨_, .uint64 v, _⟩ => .ok v
  | _ => .error (.kparam name)

/-- Modelled from the spec: `Kparams.GetUint32`, as `GetUint64` for `uint32` values. -/
def Kparams.GetUint32 (kpars : Kparams) (name : ParamName) : Except Err Nat :=
  match kpars name with
  | some ⟨_, .uint32 v, _⟩ => .ok v
  | _ => .error (.kparam name)

/-- Modelled from the spec: `Kparams.GetSlice`, as `GetUint64` for slice values. -/
def Kparams.GetSlice (kpars : Kparams) (name : ParamName) : Except Err (List Nat) :=
  match kpars name with
  | some ⟨_, .slice xs, _⟩ => .ok xs
  | _ => .error (.kparam name)

/-- Modelled from the spec: `Kparams.TryGetAddress` falls back to the empty value `0`
when the parameter cannot be read. -/
def Kparams.TryGetAddress (kpars : Kparams) (name : ParamName) : Nat :=
  match kpars.GetUint64 name with
  | .ok v => v
  | .error _ => 0

/-- The method `Kevent.AppendParam(name, typ, value)`: `kpars[name] = NewKparam(...)`. -/
def Kevent.AppendParam (e : Kevent) (name : ParamName) (typ : ParamType) (value : Value) :
    Kevent :=
  { e with Kparams := Function.update e.Kparams name (some ⟨typ, value, none⟩) }

/-- The method `Kevent.AppendEnum(name, value, table)`: a `uint32` parameter of kind `Enum`. -/
def Kevent.AppendEnum (e : Kevent) (name : ParamName) (value : Nat) (table : EnumTable) :
    Kevent :=
  { e with Kparams := Function.update e.Kparams name (some ⟨.Enum, .uint32 value, some table⟩) }

def Kevent.IsStackWalk (e : Kevent) : Bool := e.Typ == .StackWalk
def Kevent.IsMapViewFile (e : Kevent) : Bool := e.Typ == .MapViewFile
def Kevent.IsCloseFile (e : Kevent) : Bool := e.Typ == .CloseFile
def Kevent.IsDeleteFile (e : Kevent) : Bool := e.Typ == .DeleteFile
def Kevent.IsEnumDirectory (e : Kevent) : Bool := e.Typ == .EnumDirectory

/-! ## File metadata -/

/-- Modelled from the spec: the file types of section 3 (`fs.FileType` is not among the
sources). -/
inductive FileType
  | Unknown
  | Regular
  | Directory
  | Pipe
  | Disk
  | Mailslot
  | Console
  | Other
  deriving DecidableEq, Repr

/-- Modelled from the spec: the numeric code `uint32(fileinfo.Typ)`; the codes follow the
order in which section 3 lists the file types. -/
def FileType.toUint32 : FileType → Nat
  | .Unknown => 0
  | .Regular => 1
  | .Directory => 2
  | .Pipe => 3
  | .Disk => 4
  | .Mailslot => 5
  | .Console => 6
  | .Other => 7

/-- The struct `FileInfo`: file information obtained from event state. -/
structure FileInfo where
  Name : String
  Typ : FileType
  deriving DecidableEq, Repr

/-- Handle returned by the handle snapshotter (`htypes.Handle`): type name and object name. -/
structure Handle where
  Typ : String
  Name : String
  deriving DecidableEq, Repr

/-- Modelled from the spec: the handle type `handle.File` that makes a snapshot hit count. -/
def handleFile : String := "File"

/-- The constant `windows.FILE_MAXIMUM_DISPOSITION` of the Windows SDK. -/
def FILE_MAXIMUM_DISPOSITION : Nat := 5

/-- Result of `parseImageFileCharacteristics`. -/
structure Characteristics where
  isDLL : Bool
  isDriver : Bool
  isExe : Bool
  isDotnet : Bool
  deriving DecidableEq, Repr

/-! ## Collaborators -/

/-- Process state handed back by the process snapshotter: `FindMmap(addr)` yields the
backing file of the mapping at `addr`, if any. -/
structure PS where
  FindMmap : Nat → Option String

/-- The answers of the external collaborators and the constants that are not among the
sources. Each field is what the named call returns. -/
structure Env where
  /-- The function `fs.GetFileType(name, opts)`. -/
  GetFileType : String → Nat → FileType
  /-- The method `Kparam.String()`, used by `GetParamAsString`. -/
  ParamString : Kparam → String
  /-- The constants `va.SectionPagefile` and `va.SectionPhysical`. -/
  SectionPagefile : Nat
  SectionPhysical : Nat
  /-- The method `hsnap.FindByObject(object)`; `none` when `ok` is false. -/
  FindByObject : Nat → Option Handle
  /-- The method `psnap.Find(pid)`; `none` when `ok` is false. -/
  Find : Nat → Option PS
  /-- The method `psnap.AddMmap(e)`; `none` when no error is returned. -/
  AddMmap : Kevent → Option Err
  /-- The method `psnap.RemoveMmap(pid, addr)`. -/
  RemoveMmap : Nat → Nat → Option Err
  /-- The call `windows.OpenProcess(PROCESS_QUERY_INFORMATION, false, pid)`; `none` on error. -/
  OpenProcess : Nat → Option Nat
  /-- The call `sys.GetMappedFile(process, addr)`. -/
  GetMappedFile : Nat → Nat → String
  /-- The method `devMapper.Convert(path)`. -/
  Convert : String → String
  /-- The function `kevent.IsCurrentProcDropped(pid)`. -/
  IsCurrentProcDropped : Nat → Bool
  /-- The methods `Kevent.IsCreateDisposition()` and `Kevent.IsSuccess()`. -/
  IsCreateDisposition : Kevent → Bool
  IsSuccess : Kevent → Bool
  /-- The answer of `f.lim.Allow()` at this call. -/
  Allow : Bool
  /-- The function `parseImageFileCharacteristics(path)`; `none` on error. -/
  parseImageFileCharacteristics : String → Option Characteristics

/-- Calls made to the collaborators, as recorded in the log. -/
inductive Call
  | FindByObject (object : Nat)
  | Find (pid : Nat)
  | FindMmap (addr : Nat)
  | AddMmap (e : Kevent)
  | RemoveMmap (pid addr : Nat)
  | OpenProcess (pid : Nat)
  | GetMappedFile (process addr : Nat)
  | Convert (path : String)
  | Close (process : Nat)
  | AddPath (path : String)
  | Allow
  | parseImageFileCharacteristics (path : String)

/-- The method `Kevent.GetParamAsString(name)`: the rendering of the parameter, or the empty
string when the record does not carry it. -/
def Kevent.GetParamAsString (env : Env) (e : Kevent) (name : ParamName) : String :=
  match e.Kparams name with
  | some kpar => env.ParamString kpar
  | none => ""

/-! ## Processor state -/

/-- The package-level `expvar` counters. -/
structure Counters where
  totalRundownFiles : Int
  totalMapRundownFiles : Int
  fileObjectMisses : Int
  fileObjectHandleHits : Int
  fileReleaseCount : Int
  fsFileCharacteristicsRateLimits : Int
  deriving DecidableEq, Repr

/-- The two options of `config.Kstream` read by the processor. -/
structure Config where
  EnableHandleKevents : Bool
  StackEnrichment : Bool
  deriving DecidableEq, Repr

/-- The struct `fsProcessor` together with the counters it publishes and the log of the
calls it made to its collaborators. -/
structure fsProcessor where
  /-- files stores the file metadata indexed by file object -/
  files : Nat → Option FileInfo
  /-- irps contains a mapping between the IRP and CreateFile events -/
  irps : Nat → Option Kevent
  /-- buckets stores stack walk events per stack id -/
  buckets : Nat → Option (List Kevent)
  config : Config
  vars : Counters
  calls : List Call

/-- The maps built by `newFsProcessor`: all three tables empty. -/
def newFsProcessor (config : Config) : fsProcessor :=
  { files := fun _ => none
    irps := fun _ => none
    buckets := fun _ => none
    config := config
    vars := ⟨0, 0, 0, 0, 0, 0⟩
    calls := [] }

/-- Record a call to a collaborator. -/
def fsProcessor.call (f : fsProcessor) (c : Call) : fsProcessor :=
  { f with calls := f.calls ++ [c] }

/-- What a call of `processEvent` does: it returns `(evt, err)` (a nil `evt` is `none`)
in a new state, or it panics in the state reached so far. -/
inductive Outcome
  | returned (evt : Option Kevent) (err : Option Err) (f : fsProcessor)
  | panicked (f : fsProcessor)

/-- State in which a call ended. -/
def Outcome.state : Outcome → fsProcessor
  | .returned _ _ f => f
  | .panicked f => f

/-- Record handed back by a call, if any. -/
def Outcome.evt : Outcome → Option Kevent
  | .returned evt _ _ => evt
  | .panicked _ => none

/-! ## Operations -/

/-- The method `fsProcessor.getFileInfo` (lines 118-120). -/
def getFileInfo (env : Env) (name : String) (opts : Nat) : FileInfo :=
  { Name := name, Typ := env.GetFileType name opts }

/-- The method `fsProcessor.findFile` (lines 336-356): file key, then file object, then
the handle snapshotter. -/
def findFile (env : Env) (f : fsProcessor) (fileKey fileObject : Nat) :
    Option FileInfo × fsProcessor :=
  match f.files fileKey with
  | some fileinfo => (some fileinfo, f)
  | none =>
    match f.files fileObject with
    | some fileinfo => (some fileinfo, f)
    | none =>
      -- look in the system handles for file objects
      let f1 := f.call (.FindByObject fileObject)
      match env.FindByObject fileObject with
      | none => (none, f1)
      | some file =>
        if file.Typ = handleFile then
          (some { Name := file.Name, Typ := env.GetFileType file.Name 0 },
            { f1 with vars := { f1.vars with
                fileObjectHandleHits := f1.vars.fileObjectHandleHits + 1 } })
        else (none, f1)

/-- The method `fsProcessor.getMappedFile` (lines 358-365). -/
def getMappedFile (env : Env) (f : fsProcessor) (pid addr : Nat) : String × fsProcessor :=
  let f1 := f.call (.OpenProcess pid)
  match env.OpenProcess pid with
  | none => ("", f1)
  | some process =>
    let ntpath := env.GetMappedFile process addr
    let f2 := ((f1.call (.GetMappedFile process addr)).call (.Convert ntpath)).call
      (.Close process)
    (env.Convert ntpath, f2)

/-- The mapped-file block shared by the `MapFileRundown` case (lines 147-153) and the
default case (lines 297-303): when the section is neither pagefile nor physical,
resolve the mapped file and append it as `file_path`. A failing `Must*` accessor
panics in the state given as the error. -/
def appendMappedFile (env : Env) (f : fsProcessor) (e : Kevent) :
    Except fsProcessor (Kevent × fsProcessor) :=
  match e.Kparams.GetUint32 .FileViewSectionType with
  | .error _ => .error f
  | .ok sec =>
    let isMapped := sec ≠ env.SectionPagefile ∧ sec ≠ env.SectionPhysical
    if isMapped then
      let f1 := { f with vars := { f.vars with
        totalMapRundownFiles := f.vars.totalMapRundownFiles + 1 } }
      match e.Kparams.GetUint64 .FileViewBase with
      | .error _ => .error f1
      | .ok base =>
        match e.Kparams.GetUint64 .FileOffset with
        | .error _ => .error f1
        | .ok offset =>
          let addr := (base + offset) % 2 ^ 64
          let r := getMappedFile env f1 e.PID addr
          .ok (e.AppendParam .FilePath .Path (.str r.1), r.2)
    else .ok (e, f)

/-- Lines 232-244 of the `FileOpEnd` case: with stack enrichment on, pop the last
stack walk of the bucket of `ev.StackID()` and attach its callstack to `ev`. -/
def attachCallstack (f : fsProcessor) (ev : Kevent) : Except fsProcessor (Kevent × fsProcessor) :=
  if f.config.StackEnrichment then
    let id := ev.StackID
    match f.buckets id with
    | none => .ok (ev, f)
    | some q =>
      match q.getLast? with
      | none => .ok (ev, f)
      | some s =>
        let f1 := { f with buckets := Function.update f.buckets id (some q.dropLast) }
        match s.Kparams.GetSlice .Callstack with
        | .error _ => .error f1
        | .ok callstack => .ok (ev.AppendParam .Callstack .Slice (.slice callstack), f1)
  else .ok (ev, f)

/-- Lines 246-263 of the `FileOpEnd` case: parse PE data for created files, under the
rate limiter, and append the four characteristics. -/
def appendCharacteristics (env : Env) (f : fsProcessor) (ev : Kevent) : Outcome :=
  if env.IsCreateDisposition ev && env.IsSuccess ev then
    let f1 := f.call .Allow
    if !env.Allow then
      .returned (some ev) none { f1 with vars := { f1.vars with
        fsFileCharacteristicsRateLimits := f1.vars.fsFileCharacteristicsRateLimits + 1 } }
    else
      let path := ev.GetParamAsString env .FilePath
      let f2 := f1.call (.parseImageFileCharacteristics path)
      match env.parseImageFileCharacteristics path with
      | none => .returned (some ev) none f2
      | some c =>
        let ev1 := ev.AppendParam .FileIsDLL .Bool (.bool c.isDLL)
        let ev2 := ev1.AppendParam .FileIsDriver .Bool (.bool c.isDriver)
        let ev3 := ev2.AppendParam .FileIsExecutable .Bool (.bool c.isExe)
        let ev4 := ev3.AppendParam .FileIsDotnet .Bool (.bool c.isDotnet)
        .returned (some ev4) none f2
  else .returned (some ev) none f

/-- Lines 194-263 of the `FileOpEnd` case: the pending CreateFile `ev` found under `irp`
is completed with the status and disposition of the `FileOpEnd`. -/
def completeCreateFile (env : Env) (f : fsProcessor) (irp dispo status : Nat) (ev : Kevent) :
    Outcome :=
  let f1 := { f with irps := Function.update f.irps irp none }
  -- reset the wait status to allow passage of this event to the aggregator queue
  let ev1 := { ev with WaitEnqueue := false }
  match ev1.Kparams.GetUint64 .FileObject with
  | .error _ => .panicked f1
  | .ok fileObject =>
    -- reuse the existing file information if the file object is already present
    let found : Except fsProcessor (FileInfo × fsProcessor) :=
      match f1.files fileObject with
      | some fileinfo => .ok (fileinfo, f1)
      | none =>
        match ev1.Kparams.GetUint32 .FileCreateOptions with
        | .error _ => .error f1
        | .ok opts =>
          let opts1 := opts &&& 0xFFFFFF
          let filepath := ev1.GetParamAsString env .FilePath
          let fileinfo := getFileInfo env filepath opts1
          .ok (fileinfo, { f1 with files := Function.update f1.files fileObject (some fileinfo) })
    match found with
    | .error fp => .panicked fp
    | .ok (fileinfo, f2) =>
      let f3 := if f2.config.EnableHandleKevents then
          f2.call (.AddPath (ev1.GetParamAsString env .FilePath))
        else f2
      let ev2 := ev1.AppendParam .NTStatus .Status (.uint32 status)
      let ev3 := if fileinfo.Typ ≠ .Unknown then
          ev2.AppendEnum .FileType fileinfo.Typ.toUint32 .FileTypes
        else ev2
      let ev4 := ev3.AppendEnum .FileOperation (dispo % 2 ^ 32) .FileCreateDispositions
      match attachCallstack f3 ev4 with
      | .error fp => .panicked fp
      | .ok (ev5, f4) => appendCharacteristics env f4 ev5

/-- The method `fsProcessor.processEvent` (lines 122-334). -/
def processEvent (env : Env) (f : fsProcessor) (e : Kevent) : Outcome :=
  match e.Typ with
  | .FileRundown =>
    -- store the file info in internal state to augment the rest of file events
    let filepath := e.GetParamAsString env .FilePath
    match e.Kparams.GetUint64 .FileObject with
    | .error err => .returned none (some err) f
    | .ok fileObject =>
      match f.files fileObject with
      | none =>
        .returned (some e) none { f with
          vars := { f.vars with totalRundownFiles := f.vars.totalRundownFiles + 1 }
          files := Function.update f.files fileObject
            (some { Name := filepath, Typ := env.GetFileType filepath 0 }) }
      | some _ => .returned (some e) none f
  | .MapFileRundown =>
    match e.Kparams.GetUint64 .FileKey with
    | .error _ => .panicked f
    | .ok fileKey =>
      match f.files fileKey with
      | some fileinfo =>
        let f1 := { f with vars := { f.vars with
          totalMapRundownFiles := f.vars.totalMapRundownFiles + 1 } }
        let e1 := e.AppendParam .FilePath .Path (.str fileinfo.Name)
        .returned (some e1) (env.AddMmap e1) (f1.call (.AddMmap e1))
      | none =>
        match appendMappedFile env f e with
        | .error fp => .panicked fp
        | .ok (e1, f1) => .returned (some e1) (env.AddMmap e1) (f1.call (.AddMmap e1))
  | .CreateFile =>
    -- defer the processing of the CreateFile event until the matching FileOpEnd event
    match e.Kparams.GetUint64 .FileIrpPtr with
    | .error _ => .panicked f
    | .ok irp =>
      let e1 := { e with WaitEnqueue := true }
      .returned (some e1) none { f with irps := Function.update f.irps irp (some e1) }
  | .StackWalk =>
    if !env.IsCurrentProcDropped e.PID then
      -- append the event to the bucket indexed by stack id
      let id := e.StackID
      match f.buckets id with
      | none => .returned (some e) none { f with buckets := Function.update f.buckets id (some [e]) }
      | some q =>
        .returned (some e) none { f with buckets := Function.update f.buckets id (some (q ++ [e])) }
    else .returned (some e) none f
  | .FileOpEnd =>
    -- get the CreateFile pending event by IRP identifier and the create disposition
    match e.Kparams.GetUint64 .FileIrpPtr with
    | .error _ => .panicked f
    | .ok irp =>
      match e.Kparams.GetUint64 .FileExtraInfo with
      | .error _ => .panicked f
      | .ok dispo =>
        match e.Kparams.GetUint32 .NTStatus with
        | .error _ => .panicked f
        | .ok status =>
          if dispo > FILE_MAXIMUM_DISPOSITION then .returned (some e) none f
          else
            match f.irps irp with
            | none => .returned (some e) none f
            | some ev => completeCreateFile env f irp dispo status ev
  | .ReleaseFile =>
    let f1 := { f with vars := { f.vars with fileReleaseCount := f.vars.fileReleaseCount + 1 } }
    -- delete file metadata by file object address
    match e.Kparams.GetUint64 .FileObject with
    | .error _ => .panicked f1
    | .ok fileObject =>
      .returned (some e) none { f1 with files := Function.update f1.files fileObject none }
  | .UnmapViewFile =>
    let f1 := f.call (.Find e.PID)
    let addr := e.Kparams.TryGetAddress .FileViewBase
    let r : Kevent × fsProcessor :=
      match env.Find e.PID with
      | some proc =>
        let f2 := f1.call (.FindMmap addr)
        match proc.FindMmap addr with
        | some file => (e.AppendParam .FilePath .Path (.str file), f2)
        | none => (e, f2)
      | none => (e, f1)
    let f3 := { r.2 with vars := { r.2.vars with
      totalMapRundownFiles := r.2.vars.totalMapRundownFiles + (-1) } }
    .returned (some r.1) (env.RemoveMmap e.PID addr) (f3.call (.RemoveMmap e.PID addr))
  | _ =>
    match e.Kparams.GetUint64 .FileKey with
    | .error _ => .panicked f
    | .ok fileKey =>
      let object : Except Err Nat :=
        if !e.IsMapViewFile then e.Kparams.GetUint64 .FileObject else .ok 0
      match object with
      | .error _ => .panicked f
      | .ok fileObject =>
        -- by file key, then by file object, then in the file handles
        let r := findFile env f fileKey fileObject
        let fileinfo := r.1
        -- try to resolve mapped file name if not found in internal state
        let mapped : Except fsProcessor (Kevent × fsProcessor) :=
          if fileinfo.isNone && e.IsMapViewFile then appendMappedFile env r.2 e
          else .ok (e, r.2)
        match mapped with
        | .error fp => .panicked fp
        | .ok (e1, f1) =>
          -- ignore object misses that are produced by CloseFile
          let f2 := if fileinfo.isNone && !e1.IsCloseFile then
              { f1 with vars := { f1.vars with
                fileObjectMisses := f1.vars.fileObjectMisses + 1 } }
            else f1
          let f3 := if e1.IsDeleteFile then
              { f2 with files := Function.update f2.files fileObject none }
            else f2
          if e1.IsEnumDirectory then
            match fileinfo with
            | some fi => .returned (some (e1.AppendParam .FileDirectory .Path (.str fi.Name))) none f3
            | none => .returned (some e1) none f3
          else
            let e2 :=
              match fileinfo with
              | some fi =>
                let e3 := if fi.Typ ≠ .Unknown then
                    e1.AppendEnum .FileType fi.Typ.toUint32 .FileTypes
                  else e1
                e3.AppendParam .FilePath .Path (.str fi.Name)
              | none => e1
            if e2.IsMapViewFile then
              .returned (some e2) (env.AddMmap e2) (f3.call (.AddMmap e2))
            else .returned (some e2) none f3

/-- The method `fsProcessor.ProcessEvent` (lines 107-113): file events and stack walks go
through `processEvent`; every other event is handed back with `next = true`. -/
def ProcessEvent (env : Env) (f : fsProcessor) (e : Kevent) : Outcome × Bool :=
  if e.Category = .File ∨ e.IsStackWalk then (processEvent env f e, false)
  else (.returned (some e) none f, true)

/-! ## Purger -/

/-- The test `time.Since(evt.Timestamp) > time.Second*30` at time `now` (nanoseconds). -/
def expired (now : Int) (evt : Kevent) : Bool :=
  decide (now - evt.Timestamp > 30 * 1000000000)

/-- One iteration `i` of the inner loop of `purge` (lines 375-379) over the ranged slice
`q` of some bucket. The state is the backing array of `q` (as long as `q`, whose
length the `range` fixed before the loop) and the current value of `f.buckets[id]`.
`evt` is read from the backing array; when it is expired, `append(q[:i], q[i+1:]...)`
moves the elements after `i` one place down in the backing array, leaving its last
slot as it was, and the bucket becomes the first `len(q)-1` slots. -/
def purgeIter (now : Int) (st : List Kevent × List Kevent) (i : Nat) :
    List Kevent × List Kevent :=
  match st.1[i]? with
  | none => st
  | some evt =>
    if expired now evt then
      let arr := st.1.take i ++ st.1.drop (i + 1) ++ st.1.drop (st.1.length - 1)
      (arr, arr.take (st.1.length - 1))
    else st

/-- The inner loop of `purge` over one bucket `q`: the value of `f.buckets[id]` after
`for i, evt := range q`. -/
def purgeBucket (now : Int) (q : List Kevent) : List Kevent :=
  ((List.range q.length).foldl (purgeIter now) (q, q)).2

/-- One sweep of the purger (lines 371-382, the body run at every tick) at time `now`. -/
def purge (now : Int) (f : fsProcessor) : fsProcessor :=
  { f with buckets := fun id => (f.buckets id).map (purgeBucket now) }

/-! ## Runs -/

/-- Process records in order, each with the answers the collaborators give at that time.
The list holds the outcome of every call made; a panic ends the run. -/
def run (f : fsProcessor) : List (Env × Kevent) → List Outcome
  | [] => []
  | step :: rest =>
    match processEvent step.1 f step.2 with
    | .returned evt err f1 => .returned evt err f1 :: run f1 rest
    | .panicked fp => [.panicked fp]

/-! ## Vocabulary of the statements -/

/-- State in which a helper of `processEvent` ended, whether it panicked or not. -/
def stateOf {α : Type} : Except fsProcessor (α × fsProcessor) → fsProcessor
  | .ok r => r.2
  | .error fp => fp

/-- The three tables and the configuration agree. -/
def fsProcessor.sameTables (a b : fsProcessor) : Prop :=
  a.files = b.files ∧ a.irps = b.irps ∧ a.buckets = b.buckets ∧ a.config = b.config

/-- The record carries a `callstack` slice, as every StackWalk record does. -/
def Kevent.hasCallstack (s : Kevent) : Bool :=
  match s.Kparams.GetSlice .Callstack with
  | .ok _ => true
  | .error _ => false

/-- Every stack walk stored in the buckets carries its callstack. -/
def BucketsWellFormed (f : fsProcessor) : Prop :=
  ∀ id q s, f.buckets id = some q → s ∈ q → s.hasCallstack = true

/-- The four PE parameters. -/
def peNames : List ParamName :=
  [.FileIsDLL, .FileIsDriver, .FileIsExecutable, .FileIsDotnet]

/-- The parameters a completed CreateFile may gain: status, file type, disposition,
callstack and the four PE parameters. -/
def enrichNames : List ParamName :=
  [.NTStatus, .FileType, .FileOperation, .Callstack, .FileIsDLL, .FileIsDriver,
    .FileIsExecutable, .FileIsDotnet]

/-- The records `a` and `b` agree on every field and on every parameter not named in `ns`. -/
def Kevent.sameExcept (ns : List ParamName) (a b : Kevent) : Prop :=
  a.Typ = b.Typ ∧ a.Category = b.Category ∧ a.PID = b.PID ∧ a.Timestamp = b.Timestamp ∧
  a.StackID = b.StackID ∧ a.WaitEnqueue = b.WaitEnqueue ∧
  ∀ n, n ∉ ns → a.Kparams n = b.Kparams n

/-- Event types handled by the default branch of `processEvent`. -/
def Ktype.isDefault : Ktype → Bool
  | .FileRundown => false
  | .MapFileRundown => false
  | .CreateFile => false
  | .StackWalk => false
  | .FileOpEnd => false
  | .ReleaseFile => false
  | .UnmapViewFile => false
  | _ => true

/-! ## Sample inputs -/

/-- Parameter bag holding the listed parameters. -/
def Kparams.ofList (l : List (ParamName × Kparam)) : Kparams := fun n => l.lookup n

/-- A `uint64` parameter. -/
def u64 (v : Nat) : Kparam := ⟨.Uint64, .uint64 v, none⟩

/-- A `uint32` parameter. -/
def u32 (v : Nat) : Kparam := ⟨.Uint32, .uint32 v, none⟩

/-- A path parameter. -/
def path (s : String) : Kparam := ⟨.Path, .str s, none⟩

/-- A file record of the given type with the listed parameters. -/
def fileEvent (typ : Ktype) (stackID : Nat) (ts : Int) (l : List (ParamName × Kparam)) :
    Kevent :=
  { Typ := typ, Category := .File, PID := 4242, Timestamp := ts, Kparams := Kparams.ofList l,
    WaitEnqueue := false, StackID := stackID }

/-- Collaborators that resolve nothing (the mocks of the consumer test): no handle is
found, no process can be opened, the limiter allows, the PE parser fails. -/
def quietEnv : Env :=
  { GetFileType := fun name _ => if name = "" then .Unknown else .Regular
    ParamString := fun kpar => match kpar.Value with
      | .str s => s
      | _ => ""
    SectionPagefile := 0
    SectionPhysical := 1
    FindByObject := fun _ => none
    Find := fun _ => some ⟨fun _ => none⟩
    AddMmap := fun _ => none
    RemoveMmap := fun _ _ => none
    OpenProcess := fun _ => none
    GetMappedFile := fun _ _ => ""
    Convert := fun s => s
    IsCurrentProcDropped := fun _ => false
    IsCreateDisposition := fun _ => false
    IsSuccess := fun _ => true
    Allow := true
    parseImageFileCharacteristics := fun _ => none }

/-- Both options on. -/
def configOn : Config := ⟨true, true⟩

/-- CreateFile of scenario 2: IRP 0x100, file object 0xB, create options 1, stack id 7. -/
def sampleCreateFile : Kevent :=
  fileEvent .CreateFile 7 1000
    [(.FileIrpPtr, u64 0x100), (.FileObject, u64 0xB), (.FilePath, path "x.exe"),
      (.FileCreateOptions, u32 1)]

/-- The record `sampleCreateFile` as it is held back. -/
def sampleHeld : Kevent := { sampleCreateFile with WaitEnqueue := true }

/-- FileOpEnd of scenario 2: IRP 0x100, disposition CREATE (2), status 0. -/
def sampleFileOpEnd : Kevent :=
  fileEvent .FileOpEnd 0 2000
    [(.FileIrpPtr, u64 0x100), (.FileExtraInfo, u64 2), (.NTStatus, u32 0)]

/-- FileOpEnd of scenario 3: IRP 0xDEAD, disposition OPEN (1), status 0. -/
def unmatchedFileOpEnd : Kevent :=
  fileEvent .FileOpEnd 0 2000
    [(.FileIrpPtr, u64 0xDEAD), (.FileExtraInfo, u64 1), (.NTStatus, u32 0)]

/-- FileOpEnd with IRP 0x100 and the disposition 6, above the maximum. -/
def malformedFileOpEnd : Kevent :=
  fileEvent .FileOpEnd 0 2000
    [(.FileIrpPtr, u64 0x100), (.FileExtraInfo, u64 6), (.NTStatus, u32 0)]

/-- State with `sampleCreateFile` pending under IRP 0x100, reached from the empty tables. -/
def pendingState : fsProcessor :=
  (processEvent quietEnv (newFsProcessor configOn) sampleCreateFile).state

/-- File metadata table with an entry under key 1 and another under key 2. -/
def twoFiles : fsProcessor :=
  { newFsProcessor configOn with
    files := fun k => if k = 1 then some ⟨"by-key", .Regular⟩
      else if k = 2 then some ⟨"by-object", .Directory⟩ else none }

/-! ## Further vocabulary and sample inputs -/

/-- The record is a FileOpEnd carrying IRP `i`, a disposition within range and a status. -/
def Kevent.isFileOpEndFor (e : Kevent) (i : Nat) : Prop :=
  e.Typ = .FileOpEnd ∧ e.Kparams.GetUint64 .FileIrpPtr = .ok i ∧
  (∃ dispo, e.Kparams.GetUint64 .FileExtraInfo = .ok dispo ∧
    dispo ≤ FILE_MAXIMUM_DISPOSITION) ∧
  ∃ status, e.Kparams.GetUint32 .NTStatus = .ok status

/-- The record is a CreateFile with stack id `d` carrying `file_object` and
`create_options`. -/
def Kevent.isCreateFileWithStack (r : Kevent) (d : Nat) : Prop :=
  r.Typ = .CreateFile ∧ r.StackID = d ∧ (∃ o, r.Kparams.GetUint64 .FileObject = .ok o) ∧
  ∃ opts, r.Kparams.GetUint32 .FileCreateOptions = .ok opts

/-- The record is a StackWalk with stack id `d` and callstack `cs`. -/
def Kevent.isStackWalkOf (s : Kevent) (d : Nat) (cs : List Nat) : Prop :=
  s.Typ = .StackWalk ∧ s.StackID = d ∧ s.Kparams.GetSlice .Callstack = .ok cs

/-- Calls made by the mapped-view resolver `getMappedFile`. -/
def Call.isResolver : Call → Bool
  | .OpenProcess _ => true
  | .GetMappedFile _ _ => true
  | .Convert _ => true
  | .Close _ => true
  | _ => false

/-- FileRundown of a file object whose address is 0. -/
def zeroRundown : Kevent :=
  fileEvent .FileRundown 0 500 [(.FileObject, u64 0), (.FilePath, path "zero.txt")]

/-- State reached from the empty tables by `zeroRundown`: key 0 is in the table. -/
def zeroState : fsProcessor :=
  (processEvent quietEnv (newFsProcessor configOn) zeroRundown).state

/-- MapViewFile of scenario 5: pagefile-backed section, file key 7 seen in no rundown. -/
def pagefileView : Kevent :=
  fileEvent .MapViewFile 0 3000
    [(.FileKey, u64 7), (.FileViewSectionType, u32 quietEnv.SectionPagefile),
      (.FileViewBase, u64 0x7FF000), (.FileOffset, u64 0)]

/-- MapFileRundown with the parameters of `pagefileView`. -/
def pagefileMapRundown : Kevent :=
  fileEvent .MapFileRundown 0 3000
    [(.FileKey, u64 7), (.FileViewSectionType, u32 quietEnv.SectionPagefile),
      (.FileViewBase, u64 0x7FF000), (.FileOffset, u64 0)]

/-- A slice parameter holding return addresses. -/
def addrs (xs : List Nat) : Kparam := ⟨.Slice, .slice xs, none⟩

/-- StackWalk sample with stack id 7 and the callstack of scenario 2. -/
def walkA : Kevent := fileEvent .StackWalk 7 1100 [(.Callstack, addrs [0x1000, 0x2000])]

/-- A later StackWalk sample with stack id 7. -/
def walkB : Kevent := fileEvent .StackWalk 7 1200 [(.Callstack, addrs [0x3000])]

/-- CreateFile with stack id 7, the given IRP and file object. -/
def createWith (irp object : Nat) : Kevent :=
  fileEvent .CreateFile 7 1000
    [(.FileIrpPtr, u64 irp), (.FileObject, u64 object), (.FilePath, path "x.exe"),
      (.FileCreateOptions, u32 1)]

/-- FileOpEnd with the given IRP, disposition CREATE (2) and status 0. -/
def opEndFor (irp : Nat) : Kevent :=
  fileEvent .FileOpEnd 0 2000 [(.FileIrpPtr, u64 irp), (.FileExtraInfo, u64 2), (.NTStatus, u32 0)]

/-- Three CreateFile records pending under the IRPs 0x100, 0x101 and 0x102. -/
def threePending : fsProcessor :=
  { newFsProcessor configOn with
    irps := fun i => if i = 0x100 then some { createWith 0x100 0xB with WaitEnqueue := true }
      else if i = 0x101 then some { createWith 0x101 0xC with WaitEnqueue := true }
      else if i = 0x102 then some { createWith 0x102 0xD with WaitEnqueue := true }
      else none }

/-- Two StackWalk samples with stack id 1, both stamped at time 0. -/
def staleA : Kevent := fileEvent .StackWalk 1 0 [(.Callstack, addrs [0x1000])]

def staleB : Kevent := fileEvent .StackWalk 1 0 [(.Callstack, addrs [0x2000])]

/-- State reached from the empty tables by the samples `staleA` then `staleB`. -/
def staleState : fsProcessor :=
  (processEvent quietEnv (processEvent quietEnv (newFsProcessor configOn) staleA).state
    staleB).state

/-- Collaborators as in `quietEnv`, with a handle snapshotter that knows the file object
0xB as a File handle. -/
def handleEnv : Env :=
  { quietEnv with
    FindByObject := fun object => if object = 0xB then some ⟨"File", "x.exe"⟩ else none }

/-- FileRundown of scenario 1: file object 0xA. -/
def rundownA : Kevent :=
  fileEvent .FileRundown 0 500 [(.FileObject, u64 0xA), (.FilePath, path "a.txt")]

/-- State reached from the empty tables by `rundownA`. -/
def rundownState : fsProcessor :=
  (processEvent quietEnv (newFsProcessor configOn) rundownA).state

/-- ReleaseFile of file object 0xA. -/
def releaseA : Kevent := fileEvent .ReleaseFile 0 600 [(.FileObject, u64 0xA)]

/-- CloseFile of file object 0xA, with a file key seen in no rundown. -/
def closeA : Kevent :=
  fileEvent .CloseFile 0 700 [(.FileKey, u64 0x77), (.FileObject, u64 0xA)]

/-- The buckets are as before, or the last sample of one bucket was popped. -/
def poppedFrom (a b : fsProcessor) : Prop :=
  a.buckets = b.buckets ∨
  ∃ id q, b.buckets id = some q ∧ a.buckets = Function.update b.buckets id (some q.dropLast)

/-- Process records in order as `run` does and give the state reached, if no call
panicked. -/
def runTo (f : fsProcessor) : List (Env × Kevent) → Option fsProcessor
  | [] => some f
  | step :: rest =>
    match processEvent step.1 f step.2 with
    | .returned _ _ f1 => runTo f1 rest
    | .panicked _ => none

/-- The record is a ReleaseFile or a DeleteFile carrying the file object `o`. -/
def Kevent.removes (e : Kevent) (o : Nat) : Prop :=
  (e.Typ = .ReleaseFile ∨ e.Typ = .DeleteFile) ∧ e.Kparams.GetUint64 .FileObject = .ok o

/-- The enrichment of the default branch (lines 321-326): with a resolved file info the
record gets `file_type`, when the type is known, and `file_path`. -/
def Kevent.withFileInfo (e : Kevent) : Option FileInfo → Kevent
  | some fi =>
    (if fi.Typ ≠ .Unknown then e.AppendEnum .FileType fi.Typ.toUint32 .FileTypes
      else e).AppendParam .FilePath .Path (.str fi.Name)
  | none => e

/-- The entry under `o` is as before, or it was inserted where there was none. -/
def keptOrInserted (a b : fsProcessor) (o : Nat) : Prop :=
  a.files o = b.files o ∨ b.files o = none

/-- The parameters a completed CreateFile may gain before the PE stage. -/
def stageNames : List ParamName := [.NTStatus, .FileType, .FileOperation, .Callstack]

/-- The record carries the four PE parameters with the values of `c`. -/
def Kevent.hasCharacteristics (ev : Kevent) (c : Characteristics) : Prop :=
  ev.Kparams .FileIsDLL = some ⟨.Bool, .bool c.isDLL, none⟩ ∧
  ev.Kparams .FileIsDriver = some ⟨.Bool, .bool c.isDriver, none⟩ ∧
  ev.Kparams .FileIsExecutable = some ⟨.Bool, .bool c.isExe, none⟩ ∧
  ev.Kparams .FileIsDotnet = some ⟨.Bool, .bool c.isDotnet, none⟩

/-- The FileOpEnd `e`, carrying IRP `i`, a disposition `dispo` within range and the NT
status `status`, meets in the state `f`, whose stored stack walks are well formed, the
pending CreateFile `r` with file object `o`. -/
def Matched (f : fsProcessor) (e r : Kevent) (i dispo status o : Nat) : Prop :=
  e.Typ = .FileOpEnd ∧ e.Kparams.GetUint64 .FileIrpPtr = .ok i ∧
  e.Kparams.GetUint64 .FileExtraInfo = .ok dispo ∧ e.Kparams.GetUint32 .NTStatus = .ok status ∧
  dispo ≤ FILE_MAXIMUM_DISPOSITION ∧ f.irps i = some r ∧ r.Typ = .CreateFile ∧
  r.Kparams.GetUint64 .FileObject = .ok o ∧ BucketsWellFormed f

/-- The calls a matched FileOpEnd makes before the PE stage: the device-path resolver is
told the path when handle events are enabled. -/
def addPathCalls (env : Env) (f : fsProcessor) (r : Kevent) : List Call :=
  if f.config.EnableHandleKevents = true then
    [Call.AddPath (r.GetParamAsString env .FilePath)] else []

/-- CreateFile record that carries no IRP pointer. -/
def bareCreateFile : Kevent :=
  fileEvent .CreateFile 7 1000 [(.FileObject, u64 0xB), (.FilePath, path "x.exe")]

/-- FileRundown record that carries no file object. -/
def bareRundown : Kevent := fileEvent .FileRundown 0 500 [(.FilePath, path "a.txt")]

/-- Every counter of `a` is at most the same counter of `b`. -/
def Counters.le (a b : Counters) : Prop :=
  a.totalRundownFiles ≤ b.totalRundownFiles ∧
  a.totalMapRundownFiles ≤ b.totalMapRundownFiles ∧
  a.fileObjectMisses ≤ b.fileObjectMisses ∧
  a.fileObjectHandleHits ≤ b.fileObjectHandleHits ∧
  a.fileReleaseCount ≤ b.fileReleaseCount ∧
  a.fsFileCharacteristicsRateLimits ≤ b.fsFileCharacteristicsRateLimits

/-- UnmapViewFile of the view at 0x7FF000. -/
def unmapView : Kevent := fileEvent .UnmapViewFile 0 4000 [(.FileViewBase, u64 0x7FF000)]

/-- The call is the limiter's `Allow`. -/
def Call.isAllow : Call → Bool
  | .Allow => true
  | _ => false

/-- The record carries at least one of the four PE parameters. -/
def Kevent.carriesPE (ev : Kevent) : Bool :=
  peNames.any fun n => (ev.Kparams n).isSome

/-- No pending CreateFile carries a PE parameter. -/
def NoPendingPE (f : fsProcessor) : Prop :=
  ∀ i r, f.irps i = some r → r.carriesPE = false

/-- The call of `processEvent` that led from `f` to the outcome `o` asked the limiter. -/
def Outcome.consulted (f : fsProcessor) (o : Outcome) : Bool :=
  (o.state.calls.drop f.calls.length).any Call.isAllow

/-- Modelled from the spec: the token bucket of section 4.4 (the limiter of
`golang.org/x/time/rate` is not among the sources). `tokens` counts billionths of a
permit as of the time `last`, in nanoseconds since the limiter was made. -/
structure Limiter where
  tokens : Nat
  last : Nat
  deriving DecidableEq, Repr

/-- Billionths in one permit, and nanoseconds in one second. -/
def Limiter.unit : Nat := 1000000000

/-- Modelled from the spec: burst capacity, 40 permits. -/
def Limiter.burst : Nat := 40 * Limiter.unit

/-- Modelled from the spec: sustained rate, 30 permits per second, that is 30 billionths
of a permit per nanosecond. -/
def Limiter.rate : Nat := 30

/-- Modelled from the spec: the bucket starts full, `rate.NewLimiter(30, 40)`. -/
def Limiter.full : Limiter := ⟨Limiter.burst, 0⟩

/-- Modelled from the spec: the content of the bucket at time `now`, refilled at the
sustained rate since `last` and capped at the burst capacity. -/
def Limiter.tokensAt (l : Limiter) (now : Nat) : Nat :=
  min Limiter.burst (l.tokens + Limiter.rate * (now - l.last))

/-- Modelled from the spec: `allow() → bool` at time `now`: a permit is taken when the
bucket holds one. -/
def Limiter.Allow (l : Limiter) (now : Nat) : Bool × Limiter :=
  let t := l.tokensAt now
  if Limiter.unit ≤ t then (true, ⟨t - Limiter.unit, now⟩) else (false, ⟨t, now⟩)

/-- Process timed records in order with the limiter `lim` behind `f.lim.Allow()`: the
answer of `Allow` at the time of the call is handed to `processEvent`, and the limiter
moves on when the call log shows that it was asked. A panic ends the run. -/
def limitedRun (lim : Limiter) (f : fsProcessor) : List (Nat × Env × Kevent) → List Outcome
  | [] => []
  | step :: rest =>
    let a := lim.Allow step.1
    let o := processEvent { step.2.1 with Allow := a.1 } f step.2.2
    let lim1 := if o.consulted f then a.2 else lim
    match o with
    | .returned _ _ f1 => o :: limitedRun lim1 f1 rest
    | .panicked _ => [o]

/-- The outcome hands back a record that carries a PE parameter. -/
def Outcome.carriesPE (o : Outcome) : Bool :=
  match o.evt with
  | some ev => ev.carriesPE
  | none => false

/-- Number of outcomes whose record carries a PE parameter. -/
def countPE (outs : List Outcome) : Nat := outs.countP Outcome.carriesPE

/-- Collaborators as in `quietEnv`, with a disposition test that holds for CreateFile
records whose disposition is CREATE (2), a status test that holds for status 0, and a
PE parser that recognises an executable. -/
def peEnv : Env :=
  { quietEnv with
    IsCreateDisposition := fun ev =>
      ev.Typ == .CreateFile && (match ev.Kparams.GetUint32 .FileOperation with
        | .ok v => v == 2
        | .error _ => false)
    IsSuccess := fun ev =>
      match ev.Kparams.GetUint32 .NTStatus with
      | .ok v => v == 0
      | .error _ => true
    parseImageFileCharacteristics := fun _ => some ⟨false, false, true, false⟩ }

/-- Both options off. -/
def configOff : Config := ⟨false, false⟩

/-- Thirty-two CreateFile records pending under the IRPs 0x100 to 0x11F. -/
def manyPending : fsProcessor :=
  { newFsProcessor configOff with
    irps := fun i => if 0x100 ≤ i ∧ i < 0x120 then
        some { createWith i (0x1000 + i) with WaitEnqueue := true }
      else none }

/-- One completion at time 0, then thirty-one completions one nanosecond later. -/
def smallBurst : List (Nat × Env × Kevent) :=
  (0, peEnv, opEndFor 0x100) ::
    (List.range 31).map fun k => (1, peEnv, opEndFor (0x101 + k))

/-- Collaborators as in `peEnv`, with a limiter that denies. -/
def denyEnv : Env := { peEnv with Allow := false }

/-- The state `pendingState` with an entry for the file object 0xB already in the file
metadata table. -/
def knownState : fsProcessor :=
  { pendingState with files := fun k => if k = 0xB then some ⟨"old", .Directory⟩ else none }

/-- DeleteFile of file object 0xA, with a file key seen in no rundown. -/
def deleteA : Kevent :=
  fileEvent .DeleteFile 0 800 [(.FileKey, u64 0x77), (.FileObject, u64 0xA)]

/-- Thirty-two completions, all at time 0. -/
def sameInstant : List (Nat × Env × Kevent) :=
  (List.range 32).map fun k => (0, peEnv, opEndFor (0x100 + k))

/-- CreateFile records pending under the IRPs 0x100 to 0x17F. -/
def morePending : fsProcessor :=
  { newFsProcessor configOff with
    irps := fun i => if 0x100 ≤ i ∧ i < 0x180 then
        some { createWith i (0x1000 + i) with WaitEnqueue := true }
      else none }

/-- Forty-one completions at time 0, then, two seconds later, thirty-two completions at
the same instant. -/
def drainingBurst : List (Nat × Env × Kevent) :=
  ((List.range 41).map fun k => (0, peEnv, opEndFor (0x100 + k))) ++
    (List.range 32).map fun k => (2 * Limiter.unit, peEnv, opEndFor (0x130 + k))

/-- EnumDirectory of the directory object 0xA, with a file key seen in no rundown. -/
def enumA : Kevent :=
  fileEvent .EnumDirectory 0 900 [(.FileKey, u64 0x77), (.FileObject, u64 0xA)]

/-- StackWalk sample with stack id 1 stamped at 20 s. -/
def freshB : Kevent := fileEvent .StackWalk 1 20000000000 [(.Callstack, addrs [0x2000])]

/-- State reached from the empty tables by the samples `staleA` then `freshB`. -/
def mixedState : fsProcessor :=
  (processEvent quietEnv (processEvent quietEnv (newFsProcessor configOn) staleA).state
    freshB).state

/-- Two more StackWalk samples with stack id 1 stamped at time 0. -/
def staleC : Kevent := fileEvent .StackWalk 1 0 [(.Callstack, addrs [0x3000])]

def staleD : Kevent := fileEvent .StackWalk 1 0 [(.Callstack, addrs [0x4000])]

/-- State reached from the empty tables by the samples `staleA`, `staleB`, `staleC` and
`staleD`. -/
def staleFour : fsProcessor :=
  (processEvent quietEnv (processEvent quietEnv staleState staleC).state staleD).state

/-- Every record of the pending-IRP table has its withhold flag set, is a CreateFile
record and is stored under the IRP pointer of its own parameters. -/
def PendingWithheld (f : fsProcessor) : Prop :=
  ∀ i r, f.irps i = some r →
    r.WaitEnqueue = true ∧ r.Kparams.GetUint64 .FileIrpPtr = .ok i ∧ r.Typ = .CreateFile

/-- The states the correlator goes through when it starts from the empty tables and
processes the records `steps`: the initial state and the state after every call. -/
def statesOf (config : Config) (steps : List (Env × Kevent)) : List fsProcessor :=
  newFsProcessor config :: (run (newFsProcessor config) steps).map Outcome.state

/-- Two CreateFile records, then the completion of the first one. -/
def twoCreates : List (Env × Kevent) :=
  [(quietEnv, createWith 0x100 0xB), (quietEnv, createWith 0x101 0xC),
    (quietEnv, opEndFor 0x100)]

/-- State reached from the empty tables by the first two records of `twoCreates`. -/
def twoPending : fsProcessor :=
  (processEvent quietEnv (processEvent quietEnv (newFsProcessor configOn)
    (createWith 0x100 0xB)).state (createWith 0x101 0xC)).state

/-! ## Lemmas on the helpers of `processEvent` -/

theorem appendCharacteristics_spec (env : Env) (f : fsProcessor) (ev : Kevent) :
    ∃ ev1 f1, appendCharacteristics env f ev = .returned (some ev1) none f1 ∧
      f1.files = f.files ∧ f1.irps = f.irps ∧ f1.buckets = f.buckets ∧ f1.config = f.config ∧
      Kevent.sameExcept peNames ev1 ev := by
  unfold appendCharacteristics
  split
  · split
    · exact ⟨_, _, rfl, rfl, rfl, rfl, rfl, rfl, rfl, rfl, rfl, rfl, rfl, fun _ _ => rfl⟩
    · dsimp only
      split
      · exact ⟨_, _, rfl, rfl, rfl, rfl, rfl, rfl, rfl, rfl, rfl, rfl, rfl, fun _ _ => rfl⟩
      · refine ⟨_, _, rfl, rfl, rfl, rfl, rfl, rfl, rfl, rfl, rfl, rfl, rfl, ?_⟩
        intro n hn
        simp [peNames] at hn
        simp [Kevent.AppendParam, Function.update_apply, hn]
  · exact ⟨_, _, rfl, rfl, rfl, rfl, rfl, rfl, rfl, rfl, rfl, rfl, rfl, fun _ _ => rfl⟩

theorem attachCallstack_off (f : fsProcessor) (ev : Kevent)
    (h : f.config.StackEnrichment = false ∨ f.buckets ev.StackID = none ∨
      f.buckets ev.StackID = some []) :
    attachCallstack f ev = .ok (ev, f) := by
  unfold attachCallstack
  rcases h with h | h | h
  · simp [h]
  · simp [h]
  · simp [h]

theorem attachCallstack_pop (f : fsProcessor) (ev : Kevent) (q : List Kevent) (s : Kevent)
    (cs : List Nat) (hSE : f.config.StackEnrichment = true)
    (hq : f.buckets ev.StackID = some (q ++ [s]))
    (hs : s.Kparams.GetSlice .Callstack = .ok cs) :
    attachCallstack f ev = .ok (ev.AppendParam .Callstack .Slice (.slice cs),
      { f with buckets := Function.update f.buckets ev.StackID (some q) }) := by
  unfold attachCallstack
  simp [hSE, hq, hs]

/-- Either nothing is popped, or the last sample of the bucket is. -/
theorem attachCallstack_cases (f : fsProcessor) (ev : Kevent) :
    (f.config.StackEnrichment = false ∨ f.buckets ev.StackID = none ∨
      f.buckets ev.StackID = some []) ∨
    (f.config.StackEnrichment = true ∧ ∃ q s, f.buckets ev.StackID = some (q ++ [s])) := by
  cases hSE : f.config.StackEnrichment
  · exact Or.inl (Or.inl rfl)
  · cases hq : f.buckets ev.StackID with
    | none => exact Or.inl (Or.inr (Or.inl rfl))
    | some q =>
      rcases List.eq_nil_or_concat q with h | ⟨l, s, h⟩
      · subst h; exact Or.inl (Or.inr (Or.inr rfl))
      · subst h; exact Or.inr ⟨rfl, l, s, by simp⟩

theorem Kevent.sameExcept_trans {ns ms ks : List ParamName} {a b c : Kevent}
    (hab : Kevent.sameExcept ns a b) (hbc : Kevent.sameExcept ms b c)
    (hk : ∀ n, n ∉ ks → n ∉ ns ∧ n ∉ ms) : Kevent.sameExcept ks a c := by
  obtain ⟨a1, a2, a3, a4, a5, a6, a7⟩ := hab
  obtain ⟨b1, b2, b3, b4, b5, b6, b7⟩ := hbc
  exact ⟨a1.trans b1, a2.trans b2, a3.trans b3, a4.trans b4, a5.trans b5, a6.trans b6,
    fun n hn => (a7 n (hk n hn).1).trans (b7 n (hk n hn).2)⟩

theorem Kevent.sameExcept_append (e : Kevent) (name : ParamName) (typ : ParamType)
    (value : Value) : Kevent.sameExcept [name] (e.AppendParam name typ value) e := by
  refine ⟨rfl, rfl, rfl, rfl, rfl, rfl, ?_⟩
  intro n hn
  simp at hn
  simp [Kevent.AppendParam, Function.update_apply, hn]

theorem completeCreateFile_spec (env : Env) (f : fsProcessor) (i dispo status : Nat)
    (r : Kevent) (o : Nat)
    (hO : r.Kparams.GetUint64 .FileObject = .ok o)
    (hC : f.files o = none → ∃ opts, r.Kparams.GetUint32 .FileCreateOptions = .ok opts)
    (hW : ∀ q s, f.config.StackEnrichment = true → f.buckets r.StackID = some (q ++ [s]) →
      ∃ cs, s.Kparams.GetSlice .Callstack = .ok cs) :
    ∃ ev f1, completeCreateFile env f i dispo status r = .returned (some ev) none f1 ∧
      f1.irps = Function.update f.irps i none ∧ f1.config = f.config ∧
      Kevent.sameExcept enrichNames ev { r with WaitEnqueue := false } ∧
      ev.Kparams .NTStatus = some ⟨.Status, .uint32 status, none⟩ ∧
      ev.Kparams .FileOperation =
        some ⟨.Enum, .uint32 (dispo % 2 ^ 32), some .FileCreateDispositions⟩ ∧
      (∀ fi, f.files o = some fi → f1.files = f.files) ∧
      (∀ opts, f.files o = none → r.Kparams.GetUint32 .FileCreateOptions = .ok opts →
        f1.files = Function.update f.files o
          (some (getFileInfo env (r.GetParamAsString env .FilePath) (opts &&& 0xFFFFFF)))) ∧
      ((f.config.StackEnrichment = false ∨ f.buckets r.StackID = none ∨
          f.buckets r.StackID = some []) →
        ev.Kparams .Callstack = r.Kparams .Callstack ∧ f1.buckets = f.buckets) ∧
      (∀ q s cs, f.config.StackEnrichment = true → f.buckets r.StackID = some (q ++ [s]) →
        s.Kparams.GetSlice .Callstack = .ok cs →
        ev.Kparams .Callstack = some ⟨.Slice, .slice cs, none⟩ ∧
        f1.buckets = Function.update f.buckets r.StackID (some q)) := by
  unfold completeCreateFile
  simp only [hO]
  have key : ∀ (fi : FileInfo) (f2 : fsProcessor), f2.irps = Function.update f.irps i none →
      f2.config = f.config → f2.buckets = f.buckets →
      ∃ ev f1, (match attachCallstack
            (if f2.config.EnableHandleKevents = true then
              f2.call (.AddPath (Kevent.GetParamAsString env { r with WaitEnqueue := false } .FilePath))
            else f2)
            ((if fi.Typ ≠ .Unknown then
              (Kevent.AppendParam { r with WaitEnqueue := false } .NTStatus .Status
                (.uint32 status)).AppendEnum .FileType fi.Typ.toUint32 .FileTypes
            else Kevent.AppendParam { r with WaitEnqueue := false } .NTStatus .Status
                (.uint32 status)).AppendEnum .FileOperation (dispo % 2 ^ 32)
                .FileCreateDispositions) with
          | .error fp => Outcome.panicked fp
          | .ok (ev5, f4) => appendCharacteristics env f4 ev5) = .returned (some ev) none f1 ∧
        f1.irps = Function.update f.irps i none ∧ f1.config = f.config ∧
        Kevent.sameExcept enrichNames ev { r with WaitEnqueue := false } ∧
        ev.Kparams .NTStatus = some ⟨.Status, .uint32 status, none⟩ ∧
        ev.Kparams .FileOperation =
          some ⟨.Enum, .uint32 (dispo % 2 ^ 32), some .FileCreateDispositions⟩ ∧
        f1.files = f2.files ∧
        ((f.config.StackEnrichment = false ∨ f.buckets r.StackID = none ∨
            f.buckets r.StackID = some []) →
          ev.Kparams .Callstack = r.Kparams .Callstack ∧ f1.buckets = f.buckets) ∧
        (∀ q s cs, f.config.StackEnrichment = true → f.buckets r.StackID = some (q ++ [s]) →
          s.Kparams.GetSlice .Callstack = .ok cs →
          ev.Kparams .Callstack = some ⟨.Slice, .slice cs, none⟩ ∧
          f1.buckets = Function.update f.buckets r.StackID (some q)) := by
    intro fi f2 h2i h2c h2b
    generalize hf3 : (if f2.config.EnableHandleKevents = true then
        f2.call (.AddPath (Kevent.GetParamAsString env { r with WaitEnqueue := false } .FilePath))
      else f2) = f3
    have h3i : f3.irps = Function.update f.irps i none := by
      rw [← hf3, ← h2i]; split <;> rfl
    have h3c : f3.config = f.config := by
      rw [← hf3, ← h2c]; split <;> rfl
    have h3b : f3.buckets = f.buckets := by
      rw [← hf3, ← h2b]; split <;> rfl
    have h3f : f3.files = f2.files := by
      rw [← hf3]; split <;> rfl
    generalize hev4 : ((if fi.Typ ≠ .Unknown then
        (Kevent.AppendParam { r with WaitEnqueue := false } .NTStatus .Status
          (.uint32 status)).AppendEnum .FileType fi.Typ.toUint32 .FileTypes
      else Kevent.AppendParam { r with WaitEnqueue := false } .NTStatus .Status
          (.uint32 status)).AppendEnum .FileOperation (dispo % 2 ^ 32)
          .FileCreateDispositions) = ev4
    have h4s : Kevent.sameExcept [.NTStatus, .FileType, .FileOperation] ev4
        { r with WaitEnqueue := false } := by
      rw [← hev4]
      split
      · refine ⟨rfl, rfl, rfl, rfl, rfl, rfl, ?_⟩
        intro n hn
        simp at hn
        simp [Kevent.AppendParam, Kevent.AppendEnum, Function.update_apply, hn]
      · refine ⟨rfl, rfl, rfl, rfl, rfl, rfl, ?_⟩
        intro n hn
        simp at hn
        simp [Kevent.AppendParam, Kevent.AppendEnum, Function.update_apply, hn]
    have h4n : ev4.Kparams .NTStatus = some ⟨.Status, .uint32 status, none⟩ := by
      rw [← hev4]
      split <;> simp [Kevent.AppendParam, Kevent.AppendEnum, Function.update_apply]
    have h4o : ev4.Kparams .FileOperation =
        some ⟨.Enum, .uint32 (dispo % 2 ^ 32), some .FileCreateDispositions⟩ := by
      rw [← hev4]
      simp [Kevent.AppendEnum, Function.update_apply]
    have h4id : ev4.StackID = r.StackID := h4s.2.2.2.2.1
    rcases attachCallstack_cases f3 ev4 with hoff | ⟨hSE, q, s, hq⟩
    · rw [attachCallstack_off f3 ev4 hoff]
      obtain ⟨ev, f1, he, hfi, hir, hbu, hco, hsame⟩ := appendCharacteristics_spec env f3 ev4
      refine ⟨ev, f1, he, hir.trans h3i, hco.trans h3c, ?_, ?_, ?_, hfi.trans h3f, ?_, ?_⟩
      · exact Kevent.sameExcept_trans hsame h4s (by
          intro n hn; simp [enrichNames] at hn; simp [peNames, hn])
      · rw [hsame.2.2.2.2.2.2 _ (by simp [peNames]), h4n]
      · rw [hsame.2.2.2.2.2.2 _ (by simp [peNames]), h4o]
      · intro _
        refine ⟨?_, hbu.trans h3b⟩
        rw [hsame.2.2.2.2.2.2 _ (by simp [peNames]), h4s.2.2.2.2.2.2 _ (by simp)]
      · intro q s cs hSE hq _
        exfalso
        rw [h3c, h3b, h4id, hSE, hq] at hoff
        simp at hoff
    · rw [h3c] at hSE
      rw [h3b, h4id] at hq
      obtain ⟨cs, hcs⟩ := hW q s hSE hq
      rw [attachCallstack_pop f3 ev4 q s cs (h3c ▸ hSE) (by rw [h3b, h4id]; exact hq) hcs]
      obtain ⟨ev, f1, he, hfi, hir, hbu, hco, hsame⟩ := appendCharacteristics_spec env
        { f3 with buckets := Function.update f3.buckets ev4.StackID (some q) }
        (ev4.AppendParam .Callstack .Slice (.slice cs))
      have h5 := Kevent.sameExcept_append ev4 .Callstack .Slice (.slice cs)
      have h54 : Kevent.sameExcept (.Callstack :: peNames) ev ev4 :=
        Kevent.sameExcept_trans hsame h5 (by
          intro n hn; simp [peNames] at hn; simp [peNames, hn])
      refine ⟨ev, f1, he, hir.trans h3i, hco.trans h3c, ?_, ?_, ?_, hfi.trans h3f, ?_, ?_⟩
      · exact Kevent.sameExcept_trans h54 h4s (by
          intro n hn; simp [enrichNames] at hn; simp [peNames, hn])
      · rw [h54.2.2.2.2.2.2 _ (by simp [peNames]), h4n]
      · rw [h54.2.2.2.2.2.2 _ (by simp [peNames]), h4o]
      · intro hoff
        exfalso
        rw [hSE, hq] at hoff
        simp at hoff
      · intro q1 s1 cs1 _ hq1 hcs1
        rw [hq] at hq1
        have hqs := List.append_inj_left' (Option.some.inj hq1) rfl
        have hss := List.append_inj_right' (Option.some.inj hq1) rfl
        simp at hss
        subst hqs; subst hss
        rw [hcs] at hcs1
        cases hcs1
        refine ⟨?_, ?_⟩
        · rw [hsame.2.2.2.2.2.2 _ (by simp [peNames])]
          simp [Kevent.AppendParam]
        · rw [hbu]
          simp [h3b, h4id]
  cases hf : f.files o with
  | some fi =>
    obtain ⟨ev, f1, he, h1, h2, h3, h4, h5, h6, h7, h8⟩ :=
      key fi { f with irps := Function.update f.irps i none } rfl rfl rfl
    refine ⟨ev, f1, ?_, h1, h2, h3, h4, h5, fun _ _ => h6, ?_, h7, h8⟩
    · simpa [hf] using he
    · intro opts hn; simp at hn
  | none =>
    obtain ⟨opts, hopts⟩ := hC hf
    obtain ⟨ev, f1, he, h1, h2, h3, h4, h5, h6, h7, h8⟩ :=
      key (getFileInfo env (Kevent.GetParamAsString env { r with WaitEnqueue := false } .FilePath)
          (opts &&& 0xFFFFFF))
        { f with irps := Function.update f.irps i none,
                 files := Function.update f.files o (some (getFileInfo env
                  (Kevent.GetParamAsString env { r with WaitEnqueue := false } .FilePath)
                  (opts &&& 0xFFFFFF))) } rfl rfl rfl
    refine ⟨ev, f1, ?_, h1, h2, h3, h4, h5, ?_, ?_, h7, h8⟩
    · simpa [hf, hopts] using he
    · intro fi hn; simp at hn
    · intro opts1 _ hopts1
      rw [hopts] at hopts1
      cases hopts1
      exact h6

theorem fsProcessor.sameTables_refl (a : fsProcessor) : a.sameTables a := ⟨rfl, rfl, rfl, rfl⟩

theorem fsProcessor.sameTables_trans {a b c : fsProcessor} (h1 : a.sameTables b)
    (h2 : b.sameTables c) : a.sameTables c :=
  ⟨h1.1.trans h2.1, h1.2.1.trans h2.2.1, h1.2.2.1.trans h2.2.2.1, h1.2.2.2.trans h2.2.2.2⟩

theorem findFile_tables (env : Env) (f : fsProcessor) (k o : Nat) :
    (findFile env f k o).2.sameTables f := by
  unfold findFile
  split
  · exact ⟨rfl, rfl, rfl, rfl⟩
  · split
    · exact ⟨rfl, rfl, rfl, rfl⟩
    · split
      · exact ⟨rfl, rfl, rfl, rfl⟩
      · split <;> exact ⟨rfl, rfl, rfl, rfl⟩

theorem getMappedFile_tables (env : Env) (f : fsProcessor) (pid addr : Nat) :
    (getMappedFile env f pid addr).2.sameTables f := by
  unfold getMappedFile
  dsimp only
  split <;> exact ⟨rfl, rfl, rfl, rfl⟩

theorem appendMappedFile_tables (env : Env) (f : fsProcessor) (e : Kevent) :
    (stateOf (appendMappedFile env f e)).sameTables f := by
  unfold appendMappedFile
  split
  · exact ⟨rfl, rfl, rfl, rfl⟩
  · dsimp only
    split
    · split
      · exact ⟨rfl, rfl, rfl, rfl⟩
      · split
        · exact ⟨rfl, rfl, rfl, rfl⟩
        · exact fsProcessor.sameTables_trans (getMappedFile_tables _ _ _ _) ⟨rfl, rfl, rfl, rfl⟩
    · exact ⟨rfl, rfl, rfl, rfl⟩

theorem attachCallstack_irps (f : fsProcessor) (ev : Kevent) :
    (stateOf (attachCallstack f ev)).irps = f.irps ∧
    (stateOf (attachCallstack f ev)).files = f.files ∧
    (stateOf (attachCallstack f ev)).config = f.config := by
  unfold attachCallstack
  split
  · dsimp only
    split
    · exact ⟨rfl, rfl, rfl⟩
    · split
      · exact ⟨rfl, rfl, rfl⟩
      · split <;> exact ⟨rfl, rfl, rfl⟩
  · exact ⟨rfl, rfl, rfl⟩

theorem appendCharacteristics_tables (env : Env) (f : fsProcessor) (ev : Kevent) :
    (appendCharacteristics env f ev).state.sameTables f := by
  unfold appendCharacteristics
  split
  · split
    · exact ⟨rfl, rfl, rfl, rfl⟩
    · dsimp only
      split <;> exact ⟨rfl, rfl, rfl, rfl⟩
  · exact ⟨rfl, rfl, rfl, rfl⟩

theorem completeCreateFile_irps (env : Env) (f : fsProcessor) (i dispo status : Nat)
    (ev : Kevent) :
    (completeCreateFile env f i dispo status ev).state.irps = Function.update f.irps i none := by
  unfold completeCreateFile
  dsimp only
  split
  · rfl
  · split
    · rename_i fp hfp
      split at hfp
      · cases hfp
      · split at hfp
        · cases hfp; rfl
        · cases hfp
    · rename_i fileinfo f2 hf2
      have h2 : f2.irps = Function.update f.irps i none := by
        split at hf2
        · cases hf2; rfl
        · split at hf2
          · cases hf2
          · cases hf2; rfl
      generalize hf3 : (if f2.config.EnableHandleKevents = true then
            f2.call (.AddPath (Kevent.GetParamAsString env { ev with WaitEnqueue := false } .FilePath))
          else f2) = f3
      have h3 : f3.irps = f2.irps := by rw [← hf3]; split <;> rfl
      split
      · rename_i fp hfp
        obtain ⟨X, hX⟩ : ∃ X, attachCallstack f3 X = Except.error fp := ⟨_, hfp⟩
        have h := (attachCallstack_irps f3 X).1
        rw [hX] at h
        rw [Outcome.state, ← h2, ← h3, ← h]; rfl
      · rename_i ev5 f4 hfp
        obtain ⟨X, hX⟩ : ∃ X, attachCallstack f3 X = Except.ok (ev5, f4) := ⟨_, hfp⟩
        have h := (attachCallstack_irps f3 X).1
        rw [hX] at h
        rw [(appendCharacteristics_tables _ _ _).2.1, ← h2, ← h3, ← h]; rfl

theorem processEvent_irps (env : Env) (f : fsProcessor) (e : Kevent) (j : Nat)
    (h : e.Kparams.GetUint64 .FileIrpPtr ≠ .ok j ∨
      (e.Typ ≠ .CreateFile ∧ e.Typ ≠ .FileOpEnd)) :
    (processEvent env f e).state.irps j = f.irps j := by
  unfold processEvent
  split
  · -- FileRundown
    dsimp only
    split
    · rfl
    · split <;> rfl
  · -- MapFileRundown
    split
    · rfl
    · split
      · rfl
      · split
        · rename_i fp hfp
          have := (appendMappedFile_tables env f e).2.1
          rw [hfp] at this
          exact congrFun this j
        · rename_i e1 f1 hfp
          have := (appendMappedFile_tables env f e).2.1
          rw [hfp] at this
          exact congrFun this j
  · -- CreateFile
    rename_i hT
    split
    · rfl
    · rename_i irp hirp
      have hne : j ≠ irp := by
        rcases h with h | h
        · intro hj; subst hj; exact h hirp
        · exact absurd hT h.1
      simp [Outcome.state, Function.update_apply, hne]
  · -- StackWalk
    split
    · dsimp only
      split <;> rfl
    · rfl
  · -- FileOpEnd
    rename_i hT
    split
    · rfl
    · rename_i irp hirp
      have hne : j ≠ irp := by
        rcases h with h | h
        · intro hj; subst hj; exact h hirp
        · exact absurd hT h.2
      split
      · rfl
      · split
        · rfl
        · split
          · rfl
          · split
            · rfl
            · rw [completeCreateFile_irps]
              simp [Function.update_apply, hne]
  · -- ReleaseFile
    dsimp only
    split <;> rfl
  · -- UnmapViewFile
    dsimp only
    split
    · split <;> rfl
    · rfl
  · -- default
    split
    · rfl
    · rename_i fileKey _
      dsimp only
      split
      · rfl
      · rename_i fileObject _
        have hff := (findFile_tables env f fileKey fileObject).2.1
        split
        · rename_i fp hfp
          split at hfp
          · have := (appendMappedFile_tables env (findFile env f fileKey fileObject).2 e).2.1
            rw [hfp] at this
            exact congrFun (this.trans hff) j
          · cases hfp
        · rename_i e1 f1 hfp
          have h1 : f1.irps = f.irps := by
            split at hfp
            · have := (appendMappedFile_tables env (findFile env f fileKey fileObject).2 e).2.1
              rw [hfp] at this
              exact this.trans hff
            · cases hfp; exact hff
          split
          · split <;> (simp only [Outcome.state]; split <;> split <;> exact congrFun h1 j)
          · split <;> (simp only [Outcome.state]; split <;> split <;> exact congrFun h1 j)

theorem processEvent_createFile (env : Env) (f : fsProcessor) (e : Kevent) (i : Nat)
    (hT : e.Typ = .CreateFile) (hI : e.Kparams.GetUint64 .FileIrpPtr = .ok i) :
    processEvent env f e = .returned (some { e with WaitEnqueue := true }) none
      { f with irps := Function.update f.irps i (some { e with WaitEnqueue := true }) } := by
  simp [processEvent, hT, hI]

/-- While no FileOpEnd with IRP `i` is processed, the entry under `i` stays a withheld
record, and it stays the same record unless a CreateFile reuses the IRP. -/
theorem run_keeps_withheld (i : Nat) (steps : List (Env × Kevent)) :
    ∀ (f : fsProcessor) (r : Kevent), f.irps i = some r → r.WaitEnqueue = true →
    (∀ s ∈ steps, ¬ (s.2.Typ = .FileOpEnd ∧ s.2.Kparams.GetUint64 .FileIrpPtr = .ok i)) →
    ∀ o ∈ run f steps, ∃ r1, o.state.irps i = some r1 ∧ r1.WaitEnqueue = true ∧
      ((∀ s ∈ steps, ¬ (s.2.Typ = .CreateFile ∧ s.2.Kparams.GetUint64 .FileIrpPtr = .ok i)) →
        r1 = r) := by
  induction steps with
  | nil => intro f r _ _ _ o ho; simp [run] at ho
  | cons step rest ih =>
    intro f r hf hr hs o ho
    have hstep := hs step (by simp)
    have hrest : ∀ s ∈ rest,
        ¬ (s.2.Typ = .FileOpEnd ∧ s.2.Kparams.GetUint64 .FileIrpPtr = .ok i) :=
      fun s hmem => hs s (by simp [hmem])
    -- the state after the first step holds a withheld record under `i`
    have h1 : ∃ r1, (processEvent step.1 f step.2).state.irps i = some r1 ∧
        r1.WaitEnqueue = true ∧
        (¬ (step.2.Typ = .CreateFile ∧ step.2.Kparams.GetUint64 .FileIrpPtr = .ok i) →
          r1 = r) := by
      by_cases hc : step.2.Typ = .CreateFile ∧ step.2.Kparams.GetUint64 .FileIrpPtr = .ok i
      · rw [processEvent_createFile step.1 f step.2 i hc.1 hc.2]
        exact ⟨{ step.2 with WaitEnqueue := true }, by simp [Outcome.state], rfl,
          fun h => absurd hc h⟩
      · refine ⟨r, ?_, hr, fun _ => rfl⟩
        rw [processEvent_irps step.1 f step.2 i ?_, hf]
        by_cases hi : step.2.Kparams.GetUint64 .FileIrpPtr = .ok i
        · exact Or.inr ⟨fun h => hc ⟨h, hi⟩, fun h => hstep ⟨h, hi⟩⟩
        · exact Or.inl hi
    obtain ⟨r1, h1a, h1b, h1c⟩ := h1
    unfold run at ho
    cases hpe : processEvent step.1 f step.2 with
    | panicked fp =>
      rw [hpe] at ho h1a
      simp at ho
      subst ho
      exact ⟨r1, h1a, h1b, fun hn => h1c (hn step (by simp))⟩
    | returned evt err f1 =>
      rw [hpe] at ho h1a
      simp at ho
      rcases ho with ho | ho
      · subst ho
        exact ⟨r1, h1a, h1b, fun hn => h1c (hn step (by simp))⟩
      · obtain ⟨r2, h2a, h2b, h2c⟩ := ih f1 r1 h1a h1b hrest o ho
        refine ⟨r2, h2a, h2b, fun hn => ?_⟩
        rw [h2c (fun s hmem => hn s (by simp [hmem])), h1c (hn step (by simp))]

theorem processEvent_stackWalk (env : Env) (f : fsProcessor) (e : Kevent)
    (hT : e.Typ = .StackWalk) (hD : env.IsCurrentProcDropped e.PID = false) :
    processEvent env f e = .returned (some e) none
      { f with
        buckets := Function.update f.buckets e.StackID
          (some ((f.buckets e.StackID).getD [] ++ [e])) } := by
  cases hq : f.buckets e.StackID <;> simp [processEvent, hT, hD, hq]

/-- A matched FileOpEnd, as a call of `completeCreateFile`. -/
theorem processEvent_fileOpEnd_matched (env : Env) (f : fsProcessor) (e r : Kevent)
    (i dispo status : Nat)
    (hT : e.Typ = .FileOpEnd)
    (hI : e.Kparams.GetUint64 .FileIrpPtr = .ok i)
    (hD : e.Kparams.GetUint64 .FileExtraInfo = .ok dispo)
    (hS : e.Kparams.GetUint32 .NTStatus = .ok status)
    (hM : dispo ≤ FILE_MAXIMUM_DISPOSITION)
    (hP : f.irps i = some r) :
    processEvent env f e = completeCreateFile env f i dispo status r := by
  have hM1 : ¬ dispo > FILE_MAXIMUM_DISPOSITION := by omega
  simp [processEvent, hT, hI, hD, hS, hM1, hP]

/-- Completion of a pending CreateFile with stack enrichment on: the last sample of the
bucket of its stack id is popped and its callstack attached; with an empty bucket
nothing is attached. -/
theorem completion_pops_last (env : Env) (f : fsProcessor) (e r : Kevent) (i d : Nat)
    (he : e.isFileOpEndFor i) (hr : r.isCreateFileWithStack d) (hP : f.irps i = some r)
    (hSE : f.config.StackEnrichment = true) :
    (∀ q s cs, f.buckets d = some (q ++ [s]) → s.Kparams.GetSlice .Callstack = .ok cs →
      ∃ ev f1, processEvent env f e = .returned (some ev) none f1 ∧
        ev.Kparams .Callstack = some ⟨.Slice, .slice cs, none⟩ ∧
        f1.buckets = Function.update f.buckets d (some q) ∧
        f1.irps = Function.update f.irps i none ∧ f1.config = f.config) ∧
    (f.buckets d = some [] →
      ∃ ev f1, processEvent env f e = .returned (some ev) none f1 ∧
        ev.Kparams .Callstack = r.Kparams .Callstack ∧
        f1.buckets = f.buckets ∧
        f1.irps = Function.update f.irps i none ∧ f1.config = f.config) := by
  obtain ⟨hT, hI, ⟨dispo, hD, hM⟩, status, hS⟩ := he
  obtain ⟨_, hid, ⟨o, hO⟩, opts, hC⟩ := hr
  rw [processEvent_fileOpEnd_matched env f e r i dispo status hT hI hD hS hM hP]
  subst hid
  constructor
  · intro q s cs hq hcs
    obtain ⟨ev, f1, h0, h1, h2, _, _, _, _, _, _, h9⟩ :=
      completeCreateFile_spec env f i dispo status r o hO (fun _ => ⟨opts, hC⟩) (by
        intro q1 s1 _ hq1
        rw [hq] at hq1
        have hss := List.append_inj_right' (Option.some.inj hq1) rfl
        simp at hss
        subst hss
        exact ⟨cs, hcs⟩)
    obtain ⟨h9a, h9b⟩ := h9 q s cs hSE hq hcs
    exact ⟨ev, f1, h0, h9a, h9b, h1, h2⟩
  · intro hq
    obtain ⟨ev, f1, h0, h1, h2, _, _, _, _, _, h8, _⟩ :=
      completeCreateFile_spec env f i dispo status r o hO (fun _ => ⟨opts, hC⟩) (by
        intro q1 s1 _ hq1
        rw [hq] at hq1
        simp at hq1)
    obtain ⟨h8a, h8b⟩ := h8 (Or.inr (Or.inr hq))
    exact ⟨ev, f1, h0, h8a, h8b, h1, h2⟩

/-- A record of the default branch whose lookup finds nothing is handed back as it came. -/
theorem processEvent_default_miss (env : Env) (f : fsProcessor) (e : Kevent) (k x : Nat)
    (hdef : e.Typ.isDefault = true) (hmv : e.Typ ≠ .MapViewFile)
    (hK : e.Kparams.GetUint64 .FileKey = .ok k)
    (hO : e.Kparams.GetUint64 .FileObject = .ok x)
    (hk : f.files k = none) (hx : f.files x = none)
    (hh : ¬ ∃ h, env.FindByObject x = some h ∧ h.Typ = handleFile) :
    ∃ f1, processEvent env f e = .returned (some e) none f1 := by
  have hff : (findFile env f k x).1 = none := by
    unfold findFile
    simp only [hk, hx]
    cases hfo : env.FindByObject x with
    | none => rfl
    | some h =>
      have : ¬ h.Typ = handleFile := fun ht => hh ⟨h, hfo, ht⟩
      simp [this]
  cases hT : e.Typ <;> simp [hT, Ktype.isDefault] at hdef hmv <;>
    simp [processEvent, hT, hK, hO, hff, Kevent.IsMapViewFile, Kevent.IsCloseFile,
      Kevent.IsDeleteFile, Kevent.IsEnumDirectory]

/-- A record of the default branch (neither MapViewFile nor EnumDirectory) whose lookup
is answered by the handle snapshotter carries the handle name as `file_path`. -/
theorem processEvent_default_handle_hit (env : Env) (f : fsProcessor) (e : Kevent)
    (k x : Nat) (h : Handle)
    (hdef : e.Typ.isDefault = true) (hmv : e.Typ ≠ .MapViewFile)
    (hed : e.Typ ≠ .EnumDirectory)
    (hK : e.Kparams.GetUint64 .FileKey = .ok k)
    (hO : e.Kparams.GetUint64 .FileObject = .ok x)
    (hk : f.files k = none) (hx : f.files x = none)
    (hfo : env.FindByObject x = some h) (ht : h.Typ = handleFile) :
    ∃ ev f1, processEvent env f e = .returned (some ev) none f1 ∧
      ev.Kparams .FilePath = some ⟨.Path, .str h.Name, none⟩ := by
  have hff : (findFile env f k x).1 = some ⟨h.Name, env.GetFileType h.Name 0⟩ := by
    unfold findFile
    simp [hk, hx, hfo, ht]
  by_cases hu : env.GetFileType h.Name 0 = .Unknown <;>
    cases hT : e.Typ <;> simp [hT, Ktype.isDefault] at hdef hmv hed <;>
    simp [processEvent, hT, hK, hO, hff, hu, Kevent.IsMapViewFile, Kevent.IsCloseFile,
      Kevent.IsDeleteFile, Kevent.IsEnumDirectory, Kevent.AppendParam, Kevent.AppendEnum]

theorem findFile_calls (env : Env) (f : fsProcessor) (k o : Nat) :
    ∃ new, (findFile env f k o).2.calls = f.calls ++ new ∧ ∀ c ∈ new, c.isResolver = false := by
  unfold findFile
  split
  · exact ⟨[], by simp⟩
  · split
    · exact ⟨[], by simp⟩
    · split
      · exact ⟨[.FindByObject o], rfl, by simp [Call.isResolver]⟩
      · split <;> exact ⟨[.FindByObject o], rfl, by simp [Call.isResolver]⟩

/-! ## The stored stack walks stay well formed -/

theorem purgeIter_mem (now : Int) (P : Kevent → Prop) (st : List Kevent × List Kevent)
    (i : Nat) (h1 : ∀ s ∈ st.1, P s) (h2 : ∀ s ∈ st.2, P s) :
    (∀ s ∈ (purgeIter now st i).1, P s) ∧ (∀ s ∈ (purgeIter now st i).2, P s) := by
  unfold purgeIter
  split
  · exact ⟨h1, h2⟩
  · split
    · have harr : ∀ s ∈ st.1.take i ++ st.1.drop (i + 1) ++ st.1.drop (st.1.length - 1),
          P s := by
        intro s hs
        simp only [List.mem_append] at hs
        rcases hs with (hs | hs) | hs
        · exact h1 s (List.mem_of_mem_take hs)
        · exact h1 s (List.mem_of_mem_drop hs)
        · exact h1 s (List.mem_of_mem_drop hs)
      exact ⟨harr, fun s hs => harr s (List.mem_of_mem_take hs)⟩
    · exact ⟨h1, h2⟩

theorem purgeFold_mem (now : Int) (P : Kevent → Prop) (is : List Nat) :
    ∀ st : List Kevent × List Kevent, (∀ s ∈ st.1, P s) → (∀ s ∈ st.2, P s) →
      ∀ s ∈ (is.foldl (purgeIter now) st).2, P s := by
  induction is with
  | nil => intro st _ h2; exact h2
  | cons i rest ih =>
    intro st h1 h2
    have h := purgeIter_mem now P st i h1 h2
    exact ih _ h.1 h.2

/-- A sweep only keeps samples that were in the bucket. -/
theorem purgeBucket_mem (now : Int) (q : List Kevent) (s : Kevent)
    (hs : s ∈ purgeBucket now q) : s ∈ q :=
  purgeFold_mem now (fun x => x ∈ q) _ (q, q) (fun _ h => h) (fun _ h => h) s hs

/-- A sweep of the purger keeps the buckets well formed. -/
theorem purge_wellFormed (now : Int) (f : fsProcessor) (h : BucketsWellFormed f) :
    BucketsWellFormed (purge now f) := by
  intro id q s hq hs
  unfold purge at hq
  simp only [Option.map_eq_some'] at hq
  obtain ⟨q0, hq0, rfl⟩ := hq
  exact h id q0 s hq0 (purgeBucket_mem now q0 s hs)

theorem attachCallstack_buckets (f : fsProcessor) (ev : Kevent) :
    poppedFrom (stateOf (attachCallstack f ev)) f := by
  unfold attachCallstack
  split
  · dsimp only
    split
    · exact Or.inl rfl
    · rename_i q hq
      split
      · exact Or.inl rfl
      · split
        · exact Or.inr ⟨_, q, hq, rfl⟩
        · exact Or.inr ⟨_, q, hq, rfl⟩
  · exact Or.inl rfl

theorem completeCreateFile_buckets (env : Env) (f : fsProcessor) (i dispo status : Nat)
    (ev : Kevent) :
    poppedFrom (completeCreateFile env f i dispo status ev).state f := by
  unfold completeCreateFile
  dsimp only
  split
  · exact Or.inl rfl
  · split
    · rename_i fp hfp
      split at hfp
      · cases hfp
      · split at hfp
        · cases hfp; exact Or.inl rfl
        · cases hfp
    · rename_i fileinfo f2 hf2
      have h2 : f2.buckets = f.buckets := by
        split at hf2
        · cases hf2; rfl
        · split at hf2
          · cases hf2
          · cases hf2; rfl
      generalize hf3 : (if f2.config.EnableHandleKevents = true then
            f2.call (.AddPath (Kevent.GetParamAsString env { ev with WaitEnqueue := false } .FilePath))
          else f2) = f3
      have h3 : f3.buckets = f.buckets := by rw [← hf3, ← h2]; split <;> rfl
      split
      · rename_i fp hfp
        obtain ⟨X, hX⟩ : ∃ X, attachCallstack f3 X = Except.error fp := ⟨_, hfp⟩
        have h := attachCallstack_buckets f3 X
        rw [hX] at h
        unfold poppedFrom at h ⊢
        rw [h3] at h
        exact h
      · rename_i ev5 f4 hfp
        obtain ⟨X, hX⟩ : ∃ X, attachCallstack f3 X = Except.ok (ev5, f4) := ⟨_, hfp⟩
        have h := attachCallstack_buckets f3 X
        rw [hX] at h
        unfold poppedFrom at h ⊢
        rw [h3] at h
        rw [(appendCharacteristics_tables env f4 ev5).2.2.1]
        exact h

/-- What `processEvent` does to the buckets: nothing, a push of the StackWalk being
processed, or a pop. -/
theorem processEvent_buckets (env : Env) (f : fsProcessor) (e : Kevent) :
    poppedFrom (processEvent env f e).state f ∨
    (e.Typ = .StackWalk ∧ (processEvent env f e).state.buckets =
      Function.update f.buckets e.StackID (some ((f.buckets e.StackID).getD [] ++ [e]))) := by
  unfold processEvent
  split
  · -- FileRundown
    dsimp only
    split
    · exact Or.inl (Or.inl rfl)
    · split <;> exact Or.inl (Or.inl rfl)
  · -- MapFileRundown
    split
    · exact Or.inl (Or.inl rfl)
    · split
      · exact Or.inl (Or.inl rfl)
      · split
        · rename_i fp hfp
          have := (appendMappedFile_tables env f e).2.2.1
          rw [hfp] at this
          exact Or.inl (Or.inl this)
        · rename_i e1 f1 hfp
          have := (appendMappedFile_tables env f e).2.2.1
          rw [hfp] at this
          exact Or.inl (Or.inl this)
  · -- CreateFile
    split <;> exact Or.inl (Or.inl rfl)
  · -- StackWalk
    rename_i hT
    split
    · dsimp only
      split
      · rename_i hq
        exact Or.inr ⟨hT, by simp [Outcome.state, hq]⟩
      · rename_i q hq
        exact Or.inr ⟨hT, by simp [Outcome.state, hq]⟩
    · exact Or.inl (Or.inl rfl)
  · -- FileOpEnd
    split
    · exact Or.inl (Or.inl rfl)
    · split
      · exact Or.inl (Or.inl rfl)
      · split
        · exact Or.inl (Or.inl rfl)
        · split
          · exact Or.inl (Or.inl rfl)
          · split
            · exact Or.inl (Or.inl rfl)
            · exact Or.inl (completeCreateFile_buckets _ _ _ _ _ _)
  · -- ReleaseFile
    dsimp only
    split <;> exact Or.inl (Or.inl rfl)
  · -- UnmapViewFile
    dsimp only
    split
    · split <;> exact Or.inl (Or.inl rfl)
    · exact Or.inl (Or.inl rfl)
  · -- default
    split
    · exact Or.inl (Or.inl rfl)
    · rename_i fileKey _
      dsimp only
      split
      · exact Or.inl (Or.inl rfl)
      · rename_i fileObject _
        have hff := (findFile_tables env f fileKey fileObject).2.2.1
        split
        · rename_i fp hfp
          split at hfp
          · have := (appendMappedFile_tables env (findFile env f fileKey fileObject).2 e).2.2.1
            rw [hfp] at this
            exact Or.inl (Or.inl (this.trans hff))
          · cases hfp
        · rename_i e1 f1 hfp
          have h1 : f1.buckets = f.buckets := by
            split at hfp
            · have := (appendMappedFile_tables env (findFile env f fileKey fileObject).2 e).2.2.1
              rw [hfp] at this
              exact this.trans hff
            · cases hfp; exact hff
          split
          · split <;> (simp only [Outcome.state]; split <;> split <;> exact Or.inl (Or.inl h1))
          · split <;> (simp only [Outcome.state]; split <;> split <;> exact Or.inl (Or.inl h1))

/-- Processing a record keeps the buckets well formed, provided a StackWalk record
carries its callstack. -/
theorem processEvent_wellFormed (env : Env) (f : fsProcessor) (e : Kevent)
    (h : BucketsWellFormed f) (he : e.Typ = .StackWalk → e.hasCallstack = true) :
    BucketsWellFormed (processEvent env f e).state := by
  intro id q s hq hs
  rcases processEvent_buckets env f e with (hb | ⟨id0, q0, hq0, hb⟩) | ⟨hT, hb⟩
  · rw [hb] at hq
    exact h id q s hq hs
  · rw [hb] at hq
    by_cases hid : id = id0
    · subst hid
      simp at hq
      subst hq
      exact h id q0 s hq0 (List.mem_of_mem_dropLast hs)
    · rw [Function.update_noteq hid] at hq
      exact h id q s hq hs
  · rw [hb] at hq
    by_cases hid : id = e.StackID
    · subst hid
      simp at hq
      subst hq
      simp at hs
      rcases hs with hs | hs
      · cases hq0 : f.buckets e.StackID with
        | none => rw [hq0] at hs; simp at hs
        | some q0 => rw [hq0] at hs; exact h _ q0 s hq0 hs
      · subst hs; exact he hT
    · rw [Function.update_noteq hid] at hq
      exact h id q s hq hs

/-- The empty tables are well formed. -/
theorem newFsProcessor_wellFormed (config : Config) : BucketsWellFormed (newFsProcessor config) := by
  intro id q s hq
  cases hq

theorem Kevent.withFileInfo_some (e : Kevent) (fi : FileInfo) :
    (e.withFileInfo (some fi)).Kparams .FilePath = some ⟨.Path, .str fi.Name, none⟩ ∧
    (fi.Typ ≠ .Unknown → (e.withFileInfo (some fi)).Kparams .FileType =
      some ⟨.Enum, .uint32 fi.Typ.toUint32, some .FileTypes⟩) ∧
    (fi.Typ = .Unknown → (e.withFileInfo (some fi)).Kparams .FileType = e.Kparams .FileType) ∧
    Kevent.sameExcept [.FileType, .FilePath] (e.withFileInfo (some fi)) e := by
  by_cases hu : fi.Typ = .Unknown
  · have hw : e.withFileInfo (some fi) = e.AppendParam .FilePath .Path (.str fi.Name) := by
      simp [Kevent.withFileInfo, hu]
    rw [hw]
    refine ⟨?_, fun h => absurd hu h, fun _ => ?_, rfl, rfl, rfl, rfl, rfl, rfl, ?_⟩
    · simp [Kevent.AppendParam]
    · simp [Kevent.AppendParam, Function.update_apply]
    · intro n hn
      simp at hn
      simp [Kevent.AppendParam, Function.update_apply, hn]
  · have hw : e.withFileInfo (some fi) =
        (e.AppendEnum .FileType fi.Typ.toUint32 .FileTypes).AppendParam .FilePath .Path
          (.str fi.Name) := by
      simp [Kevent.withFileInfo, hu]
    rw [hw]
    refine ⟨?_, fun _ => ?_, fun h => absurd h hu, rfl, rfl, rfl, rfl, rfl, rfl, ?_⟩
    · simp [Kevent.AppendParam]
    · simp [Kevent.AppendParam, Kevent.AppendEnum, Function.update_apply]
    · intro n hn
      simp at hn
      simp [Kevent.AppendParam, Kevent.AppendEnum, Function.update_apply, hn]

/-- A record of the default branch other than MapViewFile and EnumDirectory is returned
without error, enriched from the lookup `findFile k x` made in the state it arrived
in; the file metadata table loses `x` when the record is a DeleteFile and is as before
otherwise. -/
theorem processEvent_default (env : Env) (f : fsProcessor) (e : Kevent) (k x : Nat)
    (hdef : e.Typ.isDefault = true) (hmv : e.Typ ≠ .MapViewFile)
    (hed : e.Typ ≠ .EnumDirectory)
    (hK : e.Kparams.GetUint64 .FileKey = .ok k)
    (hO : e.Kparams.GetUint64 .FileObject = .ok x) :
    ∃ f1, processEvent env f e =
        .returned (some (e.withFileInfo (findFile env f k x).1)) none f1 ∧
      f1.files = (if e.Typ = .DeleteFile then Function.update f.files x none else f.files) ∧
      f1.irps = f.irps ∧ f1.buckets = f.buckets ∧ f1.config = f.config := by
  have hft := findFile_tables env f k x
  refine ⟨(processEvent env f e).state, ?_, ?_, ?_, ?_, ?_⟩
  · cases hff : (findFile env f k x).1 with
    | none =>
      cases hT : e.Typ <;> simp [hT, Ktype.isDefault] at hdef hmv hed <;>
        simp [processEvent, hT, hK, hO, hff, Kevent.IsMapViewFile, Kevent.IsCloseFile,
          Kevent.IsDeleteFile, Kevent.IsEnumDirectory, Kevent.withFileInfo, Outcome.state]
    | some fi =>
      by_cases hu : fi.Typ = .Unknown <;>
      cases hT : e.Typ <;> simp [hT, Ktype.isDefault] at hdef hmv hed <;>
        simp [processEvent, hT, hK, hO, hff, hu, Kevent.IsMapViewFile, Kevent.IsCloseFile,
          Kevent.IsDeleteFile, Kevent.IsEnumDirectory, Kevent.withFileInfo, Outcome.state,
          Kevent.AppendParam, Kevent.AppendEnum]
  all_goals
    cases hff : (findFile env f k x).1 with
    | none =>
      cases hT : e.Typ <;> simp [hT, Ktype.isDefault] at hdef hmv hed <;>
        simp [processEvent, hT, hK, hO, hff, Kevent.IsMapViewFile, Kevent.IsCloseFile,
          Kevent.IsDeleteFile, Kevent.IsEnumDirectory, Outcome.state, hft.1, hft.2.1,
          hft.2.2.1, hft.2.2.2]
    | some fi =>
      by_cases hu : fi.Typ = .Unknown <;>
      cases hT : e.Typ <;> simp [hT, Ktype.isDefault] at hdef hmv hed <;>
        simp [processEvent, hT, hK, hO, hff, hu, Kevent.IsMapViewFile, Kevent.IsCloseFile,
          Kevent.IsDeleteFile, Kevent.IsEnumDirectory, Outcome.state, hft.1, hft.2.1,
          hft.2.2.1, hft.2.2.2, Kevent.AppendParam, Kevent.AppendEnum]

theorem attachCallstack_files (f : fsProcessor) (ev : Kevent) :
    (stateOf (attachCallstack f ev)).files = f.files := (attachCallstack_irps f ev).2.1

theorem completeCreateFile_files (env : Env) (f : fsProcessor) (i dispo status : Nat)
    (ev : Kevent) (o : Nat) :
    keptOrInserted (completeCreateFile env f i dispo status ev).state f o := by
  unfold completeCreateFile
  dsimp only
  split
  · exact Or.inl rfl
  · rename_i fileObject _
    split
    · rename_i fp hfp
      split at hfp
      · cases hfp
      · split at hfp
        · cases hfp; exact Or.inl rfl
        · cases hfp
    · rename_i fileinfo f2 hf2
      have h2 : f2.files o = f.files o ∨ f.files o = none := by
        split at hf2
        · cases hf2; exact Or.inl rfl
        · rename_i hnone
          split at hf2
          · cases hf2
          · cases hf2
            by_cases ho : o = fileObject
            · subst ho; exact Or.inr hnone
            · exact Or.inl (by simp [Function.update_apply, ho])
      generalize hf3 : (if f2.config.EnableHandleKevents = true then
            f2.call (.AddPath (Kevent.GetParamAsString env { ev with WaitEnqueue := false } .FilePath))
          else f2) = f3
      have h3 : f3.files = f2.files := by rw [← hf3]; split <;> rfl
      split
      · rename_i fp hfp
        obtain ⟨X, hX⟩ : ∃ X, attachCallstack f3 X = Except.error fp := ⟨_, hfp⟩
        have h := attachCallstack_files f3 X
        rw [hX] at h
        unfold keptOrInserted
        rw [Outcome.state]
        have : fp.files = f2.files := h.trans h3
        rw [this]
        exact h2
      · rename_i ev5 f4 hfp
        obtain ⟨X, hX⟩ : ∃ X, attachCallstack f3 X = Except.ok (ev5, f4) := ⟨_, hfp⟩
        have h := attachCallstack_files f3 X
        rw [hX] at h
        unfold keptOrInserted
        rw [(appendCharacteristics_tables env f4 ev5).1]
        have : f4.files = f2.files := h.trans h3
        rw [this]
        exact h2

theorem appendMappedFile_typ (env : Env) (f : fsProcessor) (e e1 : Kevent) (f1 : fsProcessor)
    (h : appendMappedFile env f e = .ok (e1, f1)) : e1.Typ = e.Typ := by
  unfold appendMappedFile at h
  split at h
  · cases h
  · dsimp only at h
    split at h
    · split at h
      · cases h
      · split at h
        · cases h
        · cases h; rfl
    · cases h; rfl

/-- What `processEvent` does to the entry under `o`: nothing, an insertion where there was
none, or the removal made by a ReleaseFile or DeleteFile carrying the file object `o`. -/
theorem processEvent_files (env : Env) (f : fsProcessor) (e : Kevent) (o : Nat) :
    keptOrInserted (processEvent env f e).state f o ∨
    ((e.Typ = .ReleaseFile ∨ e.Typ = .DeleteFile) ∧
      e.Kparams.GetUint64 .FileObject = .ok o) := by
  unfold processEvent
  split
  · -- FileRundown
    dsimp only
    split
    · exact Or.inl (Or.inl rfl)
    · rename_i fileObject _
      split
      · rename_i hnone
        by_cases ho : o = fileObject
        · subst ho; exact Or.inl (Or.inr hnone)
        · exact Or.inl (Or.inl (by simp [Outcome.state, Function.update_apply, ho]))
      · exact Or.inl (Or.inl rfl)
  · -- MapFileRundown
    split
    · exact Or.inl (Or.inl rfl)
    · split
      · exact Or.inl (Or.inl rfl)
      · split
        · rename_i fp hfp
          have := (appendMappedFile_tables env f e).1
          rw [hfp] at this
          exact Or.inl (Or.inl (congrFun this o))
        · rename_i e1 f1 hfp
          have := (appendMappedFile_tables env f e).1
          rw [hfp] at this
          exact Or.inl (Or.inl (congrFun this o))
  · -- CreateFile
    split <;> exact Or.inl (Or.inl rfl)
  · -- StackWalk
    split
    · dsimp only
      split <;> exact Or.inl (Or.inl rfl)
    · exact Or.inl (Or.inl rfl)
  · -- FileOpEnd
    split
    · exact Or.inl (Or.inl rfl)
    · split
      · exact Or.inl (Or.inl rfl)
      · split
        · exact Or.inl (Or.inl rfl)
        · split
          · exact Or.inl (Or.inl rfl)
          · split
            · exact Or.inl (Or.inl rfl)
            · exact Or.inl (completeCreateFile_files _ _ _ _ _ _ _)
  · -- ReleaseFile
    rename_i hT
    dsimp only
    split
    · exact Or.inl (Or.inl rfl)
    · rename_i fileObject hfo
      by_cases ho : o = fileObject
      · subst ho; exact Or.inr ⟨Or.inl hT, hfo⟩
      · exact Or.inl (Or.inl (by simp [Outcome.state, Function.update_apply, ho]))
  · -- UnmapViewFile
    dsimp only
    split
    · split <;> exact Or.inl (Or.inl rfl)
    · exact Or.inl (Or.inl rfl)
  · -- default
    split
    · exact Or.inl (Or.inl rfl)
    · rename_i fileKey _
      dsimp only
      split
      · exact Or.inl (Or.inl rfl)
      · rename_i fileObject hfo
        have hff := (findFile_tables env f fileKey fileObject).1
        split
        · rename_i fp hfp
          split at hfp
          · have := (appendMappedFile_tables env (findFile env f fileKey fileObject).2 e).1
            rw [hfp] at this
            exact Or.inl (Or.inl (congrFun (this.trans hff) o))
          · cases hfp
        · rename_i e1 f1 hfp
          have h1 : f1.files = f.files ∧ e1.Typ = e.Typ := by
            split at hfp
            · have := (appendMappedFile_tables env (findFile env f fileKey fileObject).2 e).1
              rw [hfp] at this
              exact ⟨this.trans hff, appendMappedFile_typ env _ e e1 f1 hfp⟩
            · cases hfp; exact ⟨hff, rfl⟩
          have hdelT : e1.IsDeleteFile = true → o = fileObject →
              (e.Typ = .ReleaseFile ∨ e.Typ = .DeleteFile) ∧
                e.Kparams.GetUint64 .FileObject = .ok o := by
            intro hdel ho
            have hT : e.Typ = .DeleteFile := by
              rw [← h1.2]; simpa [Kevent.IsDeleteFile] using hdel
            subst ho
            refine ⟨Or.inr hT, ?_⟩
            simpa [Kevent.IsMapViewFile, hT] using hfo
          by_cases ho : o = fileObject
          · cases hdel : e1.IsDeleteFile
            · left; left
              cases hed2 : e1.IsEnumDirectory <;>
                cases hnone : (findFile env f fileKey fileObject).1 <;>
                cases hclose : e1.IsCloseFile <;>
                cases hmv2 : (e1.Typ == Ktype.MapViewFile) <;>
                simp [apply_ite Outcome.state, Outcome.state, h1.1, fsProcessor.call,
                  apply_ite fsProcessor.files, Kevent.IsMapViewFile, Kevent.AppendParam,
                  Kevent.AppendEnum, apply_ite Kevent.Typ, hmv2]
            · exact Or.inr (hdelT hdel ho)
          · left; left
            cases hdel : e1.IsDeleteFile <;>
              cases hed2 : e1.IsEnumDirectory <;>
              cases hnone : (findFile env f fileKey fileObject).1 <;>
              cases hclose : e1.IsCloseFile <;>
              cases hmv2 : (e1.Typ == Ktype.MapViewFile) <;>
              simp [apply_ite Outcome.state, Outcome.state, h1.1, fsProcessor.call,
                apply_ite fsProcessor.files, Function.update_apply, ho, Kevent.IsMapViewFile,
                Kevent.AppendParam, Kevent.AppendEnum, apply_ite Kevent.Typ, hmv2]

/-- A matched FileOpEnd up to the PE stage: the held record `r` becomes `ev5`, with the
withhold flag cleared and status, file type, disposition and callstack set, in a state
`f4` that differs from `f` in the tables only; `appendCharacteristics` runs on them. -/
theorem completeCreateFile_decompose (env : Env) (f : fsProcessor) (i dispo status : Nat)
    (r : Kevent) (o : Nat)
    (hO : r.Kparams.GetUint64 .FileObject = .ok o)
    (hC : f.files o = none → ∃ opts, r.Kparams.GetUint32 .FileCreateOptions = .ok opts)
    (hW : ∀ q s, f.config.StackEnrichment = true → f.buckets r.StackID = some (q ++ [s]) →
      ∃ cs, s.Kparams.GetSlice .Callstack = .ok cs) :
    ∃ ev5 f4 fileinfo,
      completeCreateFile env f i dispo status r = appendCharacteristics env f4 ev5 ∧
      Kevent.sameExcept stageNames ev5 { r with WaitEnqueue := false } ∧
      ev5.Kparams .NTStatus = some ⟨.Status, .uint32 status, none⟩ ∧
      ev5.Kparams .FileOperation =
        some ⟨.Enum, .uint32 (dispo % 2 ^ 32), some .FileCreateDispositions⟩ ∧
      (fileinfo.Typ ≠ .Unknown → ev5.Kparams .FileType =
        some ⟨.Enum, .uint32 fileinfo.Typ.toUint32, some .FileTypes⟩) ∧
      (fileinfo.Typ = .Unknown → ev5.Kparams .FileType = r.Kparams .FileType) ∧
      (∀ fi, f.files o = some fi → fileinfo = fi ∧ f4.files = f.files) ∧
      (∀ opts, f.files o = none → r.Kparams.GetUint32 .FileCreateOptions = .ok opts →
        fileinfo = getFileInfo env (r.GetParamAsString env .FilePath) (opts &&& 0xFFFFFF) ∧
        f4.files = Function.update f.files o (some fileinfo)) ∧
      f4.irps = Function.update f.irps i none ∧ f4.config = f.config ∧ f4.vars = f.vars ∧
      f4.calls = f.calls ++
        (if f.config.EnableHandleKevents = true then
          [Call.AddPath (r.GetParamAsString env .FilePath)] else []) := by
  unfold completeCreateFile
  simp only [hO]
  have key : ∀ (fi : FileInfo) (f2 : fsProcessor), f2.irps = Function.update f.irps i none →
      f2.config = f.config → f2.buckets = f.buckets → f2.vars = f.vars → f2.calls = f.calls →
      ∃ ev5 f4, (match attachCallstack
            (if f2.config.EnableHandleKevents = true then
              f2.call (.AddPath (Kevent.GetParamAsString env { r with WaitEnqueue := false } .FilePath))
            else f2)
            ((if fi.Typ ≠ .Unknown then
              (Kevent.AppendParam { r with WaitEnqueue := false } .NTStatus .Status
                (.uint32 status)).AppendEnum .FileType fi.Typ.toUint32 .FileTypes
            else Kevent.AppendParam { r with WaitEnqueue := false } .NTStatus .Status
                (.uint32 status)).AppendEnum .FileOperation (dispo % 2 ^ 32)
                .FileCreateDispositions) with
          | .error fp => Outcome.panicked fp
          | .ok (ev5, f4) => appendCharacteristics env f4 ev5) =
            appendCharacteristics env f4 ev5 ∧
        Kevent.sameExcept stageNames ev5 { r with WaitEnqueue := false } ∧
        ev5.Kparams .NTStatus = some ⟨.Status, .uint32 status, none⟩ ∧
        ev5.Kparams .FileOperation =
          some ⟨.Enum, .uint32 (dispo % 2 ^ 32), some .FileCreateDispositions⟩ ∧
        (fi.Typ ≠ .Unknown → ev5.Kparams .FileType =
          some ⟨.Enum, .uint32 fi.Typ.toUint32, some .FileTypes⟩) ∧
        (fi.Typ = .Unknown → ev5.Kparams .FileType = r.Kparams .FileType) ∧
        f4.files = f2.files ∧
        f4.irps = Function.update f.irps i none ∧ f4.config = f.config ∧ f4.vars = f.vars ∧
        f4.calls = f.calls ++
          (if f.config.EnableHandleKevents = true then
            [Call.AddPath (r.GetParamAsString env .FilePath)] else []) := by
    intro fi f2 h2i h2c h2b h2v h2l
    generalize hf3 : (if f2.config.EnableHandleKevents = true then
        f2.call (.AddPath (Kevent.GetParamAsString env { r with WaitEnqueue := false } .FilePath))
      else f2) = f3
    have h3i : f3.irps = Function.update f.irps i none := by
      rw [← hf3, ← h2i]; split <;> rfl
    have h3c : f3.config = f.config := by
      rw [← hf3, ← h2c]; split <;> rfl
    have h3b : f3.buckets = f.buckets := by
      rw [← hf3, ← h2b]; split <;> rfl
    have h3f : f3.files = f2.files := by
      rw [← hf3]; split <;> rfl
    have h3v : f3.vars = f.vars := by
      rw [← hf3, ← h2v]; split <;> rfl
    have h3l : f3.calls = f.calls ++
        (if f.config.EnableHandleKevents = true then
          [Call.AddPath (r.GetParamAsString env .FilePath)] else []) := by
      rw [← hf3, ← h2l, ← h2c]
      split
      · rfl
      · simp
    generalize hev4 : ((if fi.Typ ≠ .Unknown then
        (Kevent.AppendParam { r with WaitEnqueue := false } .NTStatus .Status
          (.uint32 status)).AppendEnum .FileType fi.Typ.toUint32 .FileTypes
      else Kevent.AppendParam { r with WaitEnqueue := false } .NTStatus .Status
          (.uint32 status)).AppendEnum .FileOperation (dispo % 2 ^ 32)
          .FileCreateDispositions) = ev4
    have h4s : Kevent.sameExcept [.NTStatus, .FileType, .FileOperation] ev4
        { r with WaitEnqueue := false } := by
      rw [← hev4]
      split
      · refine ⟨rfl, rfl, rfl, rfl, rfl, rfl, ?_⟩
        intro n hn
        simp at hn
        simp [Kevent.AppendParam, Kevent.AppendEnum, Function.update_apply, hn]
      · refine ⟨rfl, rfl, rfl, rfl, rfl, rfl, ?_⟩
        intro n hn
        simp at hn
        simp [Kevent.AppendParam, Kevent.AppendEnum, Function.update_apply, hn]
    have h4n : ev4.Kparams .NTStatus = some ⟨.Status, .uint32 status, none⟩ := by
      rw [← hev4]
      split <;> simp [Kevent.AppendParam, Kevent.AppendEnum, Function.update_apply]
    have h4o : ev4.Kparams .FileOperation =
        some ⟨.Enum, .uint32 (dispo % 2 ^ 32), some .FileCreateDispositions⟩ := by
      rw [← hev4]
      simp [Kevent.AppendEnum, Function.update_apply]
    have h4t : (fi.Typ ≠ .Unknown → ev4.Kparams .FileType =
          some ⟨.Enum, .uint32 fi.Typ.toUint32, some .FileTypes⟩) ∧
        (fi.Typ = .Unknown → ev4.Kparams .FileType = r.Kparams .FileType) := by
      rw [← hev4]
      by_cases hu : fi.Typ = .Unknown
      · simp [hu, Kevent.AppendParam, Kevent.AppendEnum, Function.update_apply]
      · simp [hu, Kevent.AppendParam, Kevent.AppendEnum, Function.update_apply]
    have h4id : ev4.StackID = r.StackID := h4s.2.2.2.2.1
    rcases attachCallstack_cases f3 ev4 with hoff | ⟨hSE, q, s, hq⟩
    · rw [attachCallstack_off f3 ev4 hoff]
      refine ⟨ev4, f3, rfl, ?_, h4n, h4o, h4t.1, h4t.2, h3f, h3i, h3c, h3v, h3l⟩
      exact Kevent.sameExcept_trans
        (⟨rfl, rfl, rfl, rfl, rfl, rfl, fun _ _ => rfl⟩ : Kevent.sameExcept [] ev4 ev4) h4s (by
          intro n hn; simp [stageNames] at hn; simp [hn])
    · rw [h3c] at hSE
      rw [h3b, h4id] at hq
      obtain ⟨cs, hcs⟩ := hW q s hSE hq
      rw [attachCallstack_pop f3 ev4 q s cs (h3c ▸ hSE) (by rw [h3b, h4id]; exact hq) hcs]
      have h5 := Kevent.sameExcept_append ev4 .Callstack .Slice (.slice cs)
      refine ⟨_, _, rfl, ?_, ?_, ?_, ?_, ?_, h3f, h3i, h3c, h3v, h3l⟩
      · exact Kevent.sameExcept_trans h5 h4s (by
          intro n hn; simp [stageNames] at hn; simp [hn])
      · rw [h5.2.2.2.2.2.2 _ (by simp), h4n]
      · rw [h5.2.2.2.2.2.2 _ (by simp), h4o]
      · intro hu; rw [h5.2.2.2.2.2.2 _ (by simp), h4t.1 hu]
      · intro hu; rw [h5.2.2.2.2.2.2 _ (by simp), h4t.2 hu]
  cases hf : f.files o with
  | some fi =>
    obtain ⟨ev5, f4, he, h1, h2, h3, h4, h5, h6, h7, h8, h9, h10⟩ :=
      key fi { f with irps := Function.update f.irps i none } rfl rfl rfl rfl rfl
    refine ⟨ev5, f4, fi, ?_, h1, h2, h3, h4, h5, fun fi1 h => ⟨?_, h6⟩, ?_, h7, h8, h9, h10⟩
    · simpa [hf] using he
    · cases h; rfl
    · intro opts hn; simp at hn
  | none =>
    obtain ⟨opts, hopts⟩ := hC hf
    obtain ⟨ev5, f4, he, h1, h2, h3, h4, h5, h6, h7, h8, h9, h10⟩ :=
      key (getFileInfo env (Kevent.GetParamAsString env { r with WaitEnqueue := false } .FilePath)
          (opts &&& 0xFFFFFF))
        { f with irps := Function.update f.irps i none,
                 files := Function.update f.files o (some (getFileInfo env
                  (Kevent.GetParamAsString env { r with WaitEnqueue := false } .FilePath)
                  (opts &&& 0xFFFFFF))) } rfl rfl rfl rfl rfl
    refine ⟨ev5, f4, _, ?_, h1, h2, h3, h4, h5, ?_, ?_, h7, h8, h9, h10⟩
    · simpa [hf, hopts] using he
    · intro fi hn; simp at hn
    · intro opts1 _ hopts1
      rw [hopts] at hopts1
      cases hopts1
      exact ⟨rfl, h6⟩

/-- The PE stage, case by case: not a successful create; denied by the limiter; parser
failure; parser success. -/
theorem appendCharacteristics_cases (env : Env) (f : fsProcessor) (ev : Kevent) :
    (¬ (env.IsCreateDisposition ev = true ∧ env.IsSuccess ev = true) →
      appendCharacteristics env f ev = .returned (some ev) none f) ∧
    (env.IsCreateDisposition ev = true → env.IsSuccess ev = true → env.Allow = false →
      ∃ f1, appendCharacteristics env f ev = .returned (some ev) none f1 ∧
        f1.calls = f.calls ++ [.Allow] ∧
        f1.vars = { f.vars with fsFileCharacteristicsRateLimits :=
          f.vars.fsFileCharacteristicsRateLimits + 1 }) ∧
    (env.IsCreateDisposition ev = true → env.IsSuccess ev = true → env.Allow = true →
      env.parseImageFileCharacteristics (ev.GetParamAsString env .FilePath) = none →
      ∃ f1, appendCharacteristics env f ev = .returned (some ev) none f1 ∧
        f1.calls = f.calls ++
          [.Allow, .parseImageFileCharacteristics (ev.GetParamAsString env .FilePath)] ∧
        f1.vars = f.vars) ∧
    (∀ c, env.IsCreateDisposition ev = true → env.IsSuccess ev = true → env.Allow = true →
      env.parseImageFileCharacteristics (ev.GetParamAsString env .FilePath) = some c →
      ∃ ev1 f1, appendCharacteristics env f ev = .returned (some ev1) none f1 ∧
        ev1.hasCharacteristics c ∧ Kevent.sameExcept peNames ev1 ev ∧
        f1.calls = f.calls ++
          [.Allow, .parseImageFileCharacteristics (ev.GetParamAsString env .FilePath)] ∧
        f1.vars = f.vars) := by
  refine ⟨?_, ?_, ?_, ?_⟩
  · intro h
    unfold appendCharacteristics
    have : ¬ ((env.IsCreateDisposition ev && env.IsSuccess ev) = true) := by
      simpa using h
    simp [this]
  · intro h1 h2 h3
    refine ⟨{ f.call .Allow with vars := { (f.call .Allow).vars with
        fsFileCharacteristicsRateLimits :=
          (f.call .Allow).vars.fsFileCharacteristicsRateLimits + 1 } }, ?_, rfl, rfl⟩
    simp [appendCharacteristics, h1, h2, h3]
  · intro h1 h2 h3 h4
    refine ⟨(f.call .Allow).call
      (.parseImageFileCharacteristics (ev.GetParamAsString env .FilePath)), ?_, ?_, rfl⟩
    · simp [appendCharacteristics, h1, h2, h3, h4]
    · simp [fsProcessor.call]
  · intro c h1 h2 h3 h4
    refine ⟨(((ev.AppendParam .FileIsDLL .Bool (.bool c.isDLL)).AppendParam .FileIsDriver .Bool
        (.bool c.isDriver)).AppendParam .FileIsExecutable .Bool (.bool c.isExe)).AppendParam
        .FileIsDotnet .Bool (.bool c.isDotnet),
      (f.call .Allow).call
        (.parseImageFileCharacteristics (ev.GetParamAsString env .FilePath)), ?_, ?_, ?_, ?_, rfl⟩
    · simp [appendCharacteristics, h1, h2, h3, h4]
    · simp [Kevent.hasCharacteristics, Kevent.AppendParam, Function.update_apply]
    · refine ⟨rfl, rfl, rfl, rfl, rfl, rfl, ?_⟩
      intro n hn
      simp [peNames] at hn
      simp [Kevent.AppendParam, Function.update_apply, hn]
    · simp [fsProcessor.call]

/-- An entry of the file metadata table stays as it is along a run in which no ReleaseFile
or DeleteFile carries its file object. -/
theorem runTo_keeps_file (o : Nat) (fi : FileInfo) (steps : List (Env × Kevent)) :
    ∀ f : fsProcessor, f.files o = some fi → (∀ s ∈ steps, ¬ s.2.removes o) →
      ∀ f2, runTo f steps = some f2 → f2.files o = some fi := by
  induction steps with
  | nil =>
    intro f hf _ f2 h
    simp [runTo] at h
    subst h
    exact hf
  | cons step rest ih =>
    intro f hf hs f2 h
    have h1 : (processEvent step.1 f step.2).state.files o = some fi := by
      rcases processEvent_files step.1 f step.2 o with (hk | hk) | hk
      · rw [hk]; exact hf
      · rw [hf] at hk; cases hk
      · exact absurd hk (hs step (by simp))
    unfold runTo at h
    cases hpe : processEvent step.1 f step.2 with
    | panicked fp => rw [hpe] at h; cases h
    | returned evt err f1 =>
      rw [hpe] at h h1
      exact ih f1 h1 (fun s hmem => hs s (by simp [hmem])) f2 h

/-- With an entry under the file object and a file key that is absent or equal to the file
object, the lookup returns that entry and asks nobody. -/
theorem findFile_by_object (env : Env) (f : fsProcessor) (k o : Nat) (fi : FileInfo)
    (ho : f.files o = some fi) (hk : f.files k = none ∨ k = o) :
    findFile env f k o = (some fi, f) := by
  rcases hk with hk | hk
  · simp [findFile, hk, ho]
  · subst hk; simp [findFile, ho]

/-- A matched FileOpEnd up to the PE stage, as `completeCreateFile_decompose` has it. -/
theorem matched_decompose (env : Env) (f : fsProcessor) (e r : Kevent)
    (i dispo status o : Nat) (hm : Matched f e r i dispo status o)
    (hC : f.files o = none → ∃ opts, r.Kparams.GetUint32 .FileCreateOptions = .ok opts) :
    ∃ ev5 f4 fileinfo,
      processEvent env f e = appendCharacteristics env f4 ev5 ∧
      Kevent.sameExcept stageNames ev5 { r with WaitEnqueue := false } ∧
      ev5.Kparams .NTStatus = some ⟨.Status, .uint32 status, none⟩ ∧
      ev5.Kparams .FileOperation = some ⟨.Enum, .uint32 dispo, some .FileCreateDispositions⟩ ∧
      (fileinfo.Typ ≠ .Unknown → ev5.Kparams .FileType =
        some ⟨.Enum, .uint32 fileinfo.Typ.toUint32, some .FileTypes⟩) ∧
      (fileinfo.Typ = .Unknown → ev5.Kparams .FileType = r.Kparams .FileType) ∧
      (∀ fi, f.files o = some fi → fileinfo = fi ∧ f4.files = f.files) ∧
      (∀ opts, f.files o = none → r.Kparams.GetUint32 .FileCreateOptions = .ok opts →
        fileinfo = getFileInfo env (r.GetParamAsString env .FilePath) (opts &&& 0xFFFFFF) ∧
        f4.files = Function.update f.files o (some fileinfo)) ∧
      f4.irps = Function.update f.irps i none ∧ f4.config = f.config ∧ f4.vars = f.vars ∧
      f4.calls = f.calls ++
        (if f.config.EnableHandleKevents = true then
          [Call.AddPath (r.GetParamAsString env .FilePath)] else []) := by
  obtain ⟨hT, hI, hD, hS, hM, hP, _, hO, hW⟩ := hm
  have hW1 : ∀ q s, f.config.StackEnrichment = true → f.buckets r.StackID = some (q ++ [s]) →
      ∃ cs, s.Kparams.GetSlice .Callstack = .ok cs := by
    intro q s _ hq
    have hs := hW r.StackID (q ++ [s]) s hq (by simp)
    unfold Kevent.hasCallstack at hs
    split at hs
    · exact ⟨_, by assumption⟩
    · cases hs
  have hlt : dispo % 2 ^ 32 = dispo := by
    apply Nat.mod_eq_of_lt
    unfold FILE_MAXIMUM_DISPOSITION at hM
    omega
  rw [processEvent_fileOpEnd_matched env f e r i dispo status hT hI hD hS hM hP]
  have h := completeCreateFile_decompose env f i dispo status r o hO hC hW1
  rw [hlt] at h
  exact h

/-- The state and record a matched FileOpEnd returns, read off the PE stage. -/
theorem appendCharacteristics_returns (env : Env) (f : fsProcessor) (ev : Kevent) :
    ∃ ev1 f1, appendCharacteristics env f ev = .returned (some ev1) none f1 ∧
      f1.files = f.files ∧ f1.irps = f.irps ∧ Kevent.sameExcept peNames ev1 ev := by
  obtain ⟨ev1, f1, h, h1, h2, _, _, h5⟩ := appendCharacteristics_spec env f ev
  exact ⟨ev1, f1, h, h1, h2, h5⟩

theorem Kparams.GetUint64_none (kpars : Kparams) (name : ParamName) (h : kpars name = none) :
    kpars.GetUint64 name = .error (.kparam name) := by
  simp [Kparams.GetUint64, h]

theorem Kparams.GetUint32_none (kpars : Kparams) (name : ParamName) (h : kpars name = none) :
    kpars.GetUint32 name = .error (.kparam name) := by
  simp [Kparams.GetUint32, h]

theorem Counters.le_refl (a : Counters) : a.le a :=
  ⟨Int.le_refl _, Int.le_refl _, Int.le_refl _, Int.le_refl _, Int.le_refl _, Int.le_refl _⟩

theorem Counters.le_trans {a b c : Counters} (h1 : a.le b) (h2 : b.le c) : a.le c :=
  ⟨Int.le_trans h1.1 h2.1, Int.le_trans h1.2.1 h2.2.1, Int.le_trans h1.2.2.1 h2.2.2.1,
    Int.le_trans h1.2.2.2.1 h2.2.2.2.1, Int.le_trans h1.2.2.2.2.1 h2.2.2.2.2.1,
    Int.le_trans h1.2.2.2.2.2 h2.2.2.2.2.2⟩

theorem findFile_vars (env : Env) (f : fsProcessor) (k o : Nat) :
    f.vars.le (findFile env f k o).2.vars := by
  unfold findFile
  split
  · exact Counters.le_refl _
  · split
    · exact Counters.le_refl _
    · split
      · exact Counters.le_refl _
      · split
        · refine ⟨?_, ?_, ?_, ?_, ?_, ?_⟩ <;> simp [fsProcessor.call]
        · exact Counters.le_refl _

theorem getMappedFile_vars (env : Env) (f : fsProcessor) (pid addr : Nat) :
    (getMappedFile env f pid addr).2.vars = f.vars := by
  unfold getMappedFile
  dsimp only
  split <;> rfl

theorem appendMappedFile_vars (env : Env) (f : fsProcessor) (e : Kevent) :
    f.vars.le (stateOf (appendMappedFile env f e)).vars := by
  unfold appendMappedFile
  split
  · exact Counters.le_refl _
  · dsimp only
    split
    · split
      · refine ⟨?_, ?_, ?_, ?_, ?_, ?_⟩ <;> simp [stateOf]
      · split
        · refine ⟨?_, ?_, ?_, ?_, ?_, ?_⟩ <;> simp [stateOf]
        · simp only [stateOf, getMappedFile_vars]
          refine ⟨?_, ?_, ?_, ?_, ?_, ?_⟩ <;> simp
    · exact Counters.le_refl _

theorem attachCallstack_vars (f : fsProcessor) (ev : Kevent) :
    (stateOf (attachCallstack f ev)).vars = f.vars := by
  unfold attachCallstack
  split
  · dsimp only
    split
    · rfl
    · split
      · rfl
      · split <;> rfl
  · rfl

theorem appendCharacteristics_vars (env : Env) (f : fsProcessor) (ev : Kevent) :
    f.vars.le (appendCharacteristics env f ev).state.vars := by
  unfold appendCharacteristics
  split
  · split
    · refine ⟨?_, ?_, ?_, ?_, ?_, ?_⟩ <;> simp [Outcome.state, fsProcessor.call]
    · dsimp only
      split <;> exact Counters.le_refl _
  · exact Counters.le_refl _

theorem completeCreateFile_vars (env : Env) (f : fsProcessor) (i dispo status : Nat)
    (ev : Kevent) :
    f.vars.le (completeCreateFile env f i dispo status ev).state.vars := by
  unfold completeCreateFile
  dsimp only
  split
  · exact Counters.le_refl _
  · split
    · rename_i fp hfp
      split at hfp
      · cases hfp
      · split at hfp
        · cases hfp; exact Counters.le_refl _
        · cases hfp
    · rename_i fileinfo f2 hf2
      have h2 : f2.vars = f.vars := by
        split at hf2
        · cases hf2; rfl
        · split at hf2
          · cases hf2
          · cases hf2; rfl
      generalize hf3 : (if f2.config.EnableHandleKevents = true then
            f2.call (.AddPath (Kevent.GetParamAsString env { ev with WaitEnqueue := false } .FilePath))
          else f2) = f3
      have h3 : f3.vars = f.vars := by rw [← hf3, ← h2]; split <;> rfl
      split
      · rename_i fp hfp
        obtain ⟨X, hX⟩ : ∃ X, attachCallstack f3 X = Except.error fp := ⟨_, hfp⟩
        have h := attachCallstack_vars f3 X
        rw [hX] at h
        have : fp.vars = f.vars := h.trans h3
        rw [Outcome.state, this]
        exact Counters.le_refl _
      · rename_i ev5 f4 hfp
        obtain ⟨X, hX⟩ : ∃ X, attachCallstack f3 X = Except.ok (ev5, f4) := ⟨_, hfp⟩
        have h := attachCallstack_vars f3 X
        rw [hX] at h
        have : f4.vars = f.vars := h.trans h3
        rw [← this]
        exact appendCharacteristics_vars env f4 ev5

theorem Counters.le_step (a : Counters) :
    a.le { a with totalRundownFiles := a.totalRundownFiles + 1 } ∧
    a.le { a with totalMapRundownFiles := a.totalMapRundownFiles + 1 } ∧
    a.le { a with fileObjectMisses := a.fileObjectMisses + 1 } ∧
    a.le { a with fileReleaseCount := a.fileReleaseCount + 1 } := by
  refine ⟨?_, ?_, ?_, ?_⟩ <;> (refine ⟨?_, ?_, ?_, ?_, ?_, ?_⟩ <;> simp)

/-- What `processEvent` does to the counters: an UnmapViewFile takes one off
`totalMapRundownFiles` and leaves the others; every other record lowers none. -/
theorem processEvent_vars (env : Env) (f : fsProcessor) (e : Kevent) :
    (e.Typ ≠ .UnmapViewFile → f.vars.le (processEvent env f e).state.vars) ∧
    (e.Typ = .UnmapViewFile → (processEvent env f e).state.vars =
      { f.vars with totalMapRundownFiles := f.vars.totalMapRundownFiles - 1 }) := by
  unfold processEvent
  split
  · -- FileRundown
    rename_i hT
    refine ⟨fun _ => ?_, fun h => by rw [hT] at h; cases h⟩
    dsimp only
    split
    · exact Counters.le_refl _
    · split
      · exact (Counters.le_step f.vars).1
      · exact Counters.le_refl _
  · -- MapFileRundown
    rename_i hT
    refine ⟨fun _ => ?_, fun h => by rw [hT] at h; cases h⟩
    split
    · exact Counters.le_refl _
    · split
      · exact (Counters.le_step f.vars).2.1
      · split
        · rename_i fp hfp
          have := appendMappedFile_vars env f e
          rw [hfp] at this
          exact this
        · rename_i e1 f1 hfp
          have := appendMappedFile_vars env f e
          rw [hfp] at this
          exact this
  · -- CreateFile
    rename_i hT
    refine ⟨fun _ => ?_, fun h => by rw [hT] at h; cases h⟩
    split <;> exact Counters.le_refl _
  · -- StackWalk
    rename_i hT
    refine ⟨fun _ => ?_, fun h => by rw [hT] at h; cases h⟩
    split
    · dsimp only
      split <;> exact Counters.le_refl _
    · exact Counters.le_refl _
  · -- FileOpEnd
    rename_i hT
    refine ⟨fun _ => ?_, fun h => by rw [hT] at h; cases h⟩
    split
    · exact Counters.le_refl _
    · split
      · exact Counters.le_refl _
      · split
        · exact Counters.le_refl _
        · split
          · exact Counters.le_refl _
          · split
            · exact Counters.le_refl _
            · exact completeCreateFile_vars _ _ _ _ _ _
  · -- ReleaseFile
    rename_i hT
    refine ⟨fun _ => ?_, fun h => by rw [hT] at h; cases h⟩
    dsimp only
    split <;> exact (Counters.le_step f.vars).2.2.2
  · -- UnmapViewFile
    rename_i hT
    refine ⟨fun h => absurd hT h, fun _ => ?_⟩
    dsimp only
    split
    · split <;> simp [Outcome.state, fsProcessor.call, Int.sub_eq_add_neg]
    · simp [Outcome.state, fsProcessor.call, Int.sub_eq_add_neg]
  · -- default
    rename_i hU
    refine ⟨fun _ => ?_, fun h => absurd h hU⟩
    split
    · exact Counters.le_refl _
    · rename_i fileKey _
      dsimp only
      split
      · exact Counters.le_refl _
      · rename_i fileObject hfo
        have hff := findFile_vars env f fileKey fileObject
        split
        · rename_i fp hfp
          split at hfp
          · have := appendMappedFile_vars env (findFile env f fileKey fileObject).2 e
            rw [hfp] at this
            exact Counters.le_trans hff this
          · cases hfp
        · rename_i e1 f1 hfp
          have h1 : f.vars.le f1.vars := by
            split at hfp
            · have := appendMappedFile_vars env (findFile env f fileKey fileObject).2 e
              rw [hfp] at this
              exact Counters.le_trans hff this
            · cases hfp; exact hff
          have h2 := Counters.le_trans h1 (Counters.le_step f1.vars).2.2.1
          cases hdel : e1.IsDeleteFile <;>
            cases hed2 : e1.IsEnumDirectory <;>
            cases hnone : (findFile env f fileKey fileObject).1 <;>
            cases hclose : e1.IsCloseFile <;>
            cases hmv2 : (e1.Typ == Ktype.MapViewFile) <;>
            simp [apply_ite Outcome.state, Outcome.state, fsProcessor.call,
              apply_ite fsProcessor.vars, Kevent.IsMapViewFile, Kevent.AppendParam,
              Kevent.AppendEnum, apply_ite Kevent.Typ, hmv2] <;>
            first | exact h1 | exact h2

theorem attachCallstack_ok (f : fsProcessor) (ev ev5 : Kevent) (f4 : fsProcessor)
    (h : attachCallstack f ev = .ok (ev5, f4)) :
    Kevent.sameExcept [.Callstack] ev5 ev ∧ f4.calls = f.calls ∧ f4.vars = f.vars := by
  have hrefl : Kevent.sameExcept [.Callstack] ev ev :=
    ⟨rfl, rfl, rfl, rfl, rfl, rfl, fun _ _ => rfl⟩
  unfold attachCallstack at h
  split at h
  · dsimp only at h
    split at h
    · cases h; exact ⟨hrefl, rfl, rfl⟩
    · split at h
      · cases h; exact ⟨hrefl, rfl, rfl⟩
      · split at h
        · cases h
        · cases h
          exact ⟨Kevent.sameExcept_append ev .Callstack .Slice _, rfl, rfl⟩
  · cases h; exact ⟨hrefl, rfl, rfl⟩

/-- A completion either panics or reaches the PE stage with the held record changed in
the stage parameters only, the counters untouched and no call made but `AddPath`. -/
theorem completeCreateFile_outcome (env : Env) (f : fsProcessor) (i dispo status : Nat)
    (r : Kevent) :
    (∃ fp, completeCreateFile env f i dispo status r = .panicked fp) ∨
    ∃ ev5 f4, completeCreateFile env f i dispo status r = appendCharacteristics env f4 ev5 ∧
      Kevent.sameExcept stageNames ev5 { r with WaitEnqueue := false } ∧
      f4.calls = f.calls ++ addPathCalls env f r ∧ f4.vars = f.vars := by
  unfold completeCreateFile
  dsimp only
  split
  · exact Or.inl ⟨_, rfl⟩
  · split
    · exact Or.inl ⟨_, rfl⟩
    · rename_i fileinfo f2 hf2
      have h2 : f2.calls = f.calls ∧ f2.vars = f.vars ∧ f2.config = f.config := by
        split at hf2
        · cases hf2; exact ⟨rfl, rfl, rfl⟩
        · split at hf2
          · cases hf2
          · cases hf2; exact ⟨rfl, rfl, rfl⟩
      generalize hf3 : (if f2.config.EnableHandleKevents = true then
            f2.call (.AddPath (Kevent.GetParamAsString env { r with WaitEnqueue := false } .FilePath))
          else f2) = f3
      have h3 : f3.calls = f.calls ++ addPathCalls env f r ∧ f3.vars = f.vars := by
        rw [← hf3, ← h2.1, ← h2.2.1]
        unfold addPathCalls
        rw [← h2.2.2]
        split
        · exact ⟨rfl, rfl⟩
        · exact ⟨by simp, rfl⟩
      split
      · exact Or.inl ⟨_, rfl⟩
      · rename_i ev5 f4 hfp
        obtain ⟨X, hX, hXs⟩ : ∃ X, attachCallstack f3 X = Except.ok (ev5, f4) ∧
            Kevent.sameExcept [.NTStatus, .FileType, .FileOperation] X
              { r with WaitEnqueue := false } := ⟨_, hfp, by
          split
          · refine ⟨rfl, rfl, rfl, rfl, rfl, rfl, ?_⟩
            intro n hn
            simp at hn
            simp [Kevent.AppendParam, Kevent.AppendEnum, Function.update_apply, hn]
          · refine ⟨rfl, rfl, rfl, rfl, rfl, rfl, ?_⟩
            intro n hn
            simp at hn
            simp [Kevent.AppendParam, Kevent.AppendEnum, Function.update_apply, hn]⟩
        obtain ⟨a1, a2, a3⟩ := attachCallstack_ok f3 X ev5 f4 hX
        refine Or.inr ⟨ev5, f4, rfl, ?_, a2.trans h3.1, a3.trans h3.2⟩
        exact Kevent.sameExcept_trans a1 hXs (by
          intro n hn; simp [stageNames] at hn; simp [hn])

theorem Kevent.carriesPE_congr {ns : List ParamName} {a b : Kevent}
    (h : Kevent.sameExcept ns a b) (hns : ∀ n ∈ peNames, n ∉ ns) :
    a.carriesPE = b.carriesPE := by
  have hk := h.2.2.2.2.2.2
  unfold Kevent.carriesPE
  simp only [peNames, List.any_cons, List.any_nil, Bool.or_false]
  rw [hk .FileIsDLL (hns _ (by simp [peNames])), hk .FileIsDriver (hns _ (by simp [peNames])),
    hk .FileIsExecutable (hns _ (by simp [peNames])),
    hk .FileIsDotnet (hns _ (by simp [peNames]))]

/-- A completion whose record carries a PE parameter, the held record carrying none, has
asked the limiter and was allowed. -/
theorem completeCreateFile_pe (env : Env) (f : fsProcessor) (i dispo status : Nat)
    (r ev : Kevent) (hr : r.carriesPE = false)
    (h : (completeCreateFile env f i dispo status r).evt = some ev)
    (hc : ev.carriesPE = true) :
    env.Allow = true ∧ (completeCreateFile env f i dispo status r).consulted f = true := by
  rcases completeCreateFile_outcome env f i dispo status r with ⟨fp, hp⟩ | ⟨ev5, f4, h0, h1, h2, _⟩
  · rw [hp] at h; cases h
  · have h5 : ev5.carriesPE = false := by
      rw [Kevent.carriesPE_congr h1 (by simp [peNames, stageNames])]
      exact hr
    rw [h0] at h ⊢
    obtain ⟨c1, c2, c3, c4⟩ := appendCharacteristics_cases env f4 ev5
    by_cases hcond : env.IsCreateDisposition ev5 = true ∧ env.IsSuccess ev5 = true
    · cases hallow : env.Allow with
      | false =>
        obtain ⟨f1, hq, _, _⟩ := c2 hcond.1 hcond.2 hallow
        rw [hq] at h
        cases h
        rw [h5] at hc; cases hc
      | true =>
        cases hparse : env.parseImageFileCharacteristics (ev5.GetParamAsString env .FilePath) with
        | none =>
          obtain ⟨f1, hq, _, _⟩ := c3 hcond.1 hcond.2 hallow hparse
          rw [hq] at h
          cases h
          rw [h5] at hc; cases hc
        | some c =>
          obtain ⟨ev1, f1, hq, _, _, hcalls, _⟩ := c4 c hcond.1 hcond.2 hallow hparse
          refine ⟨rfl, ?_⟩
          rw [hq]
          simp [Outcome.consulted, Outcome.state, hcalls, h2, Call.isAllow]
    · rw [c1 hcond] at h
      cases h
      rw [h5] at hc; cases hc

theorem Kevent.carriesPE_append (e : Kevent) (name : ParamName) (typ : ParamType)
    (value : Value) (h : name ∉ peNames) :
    (e.AppendParam name typ value).carriesPE = e.carriesPE :=
  Kevent.carriesPE_congr (Kevent.sameExcept_append e name typ value) (by
    intro n hn hmem
    simp at hmem
    subst hmem
    exact h hn)

theorem Kevent.carriesPE_withFileInfo (e : Kevent) (fi : Option FileInfo) :
    (e.withFileInfo fi).carriesPE = e.carriesPE := by
  cases fi with
  | none => rfl
  | some fi =>
    exact Kevent.carriesPE_congr (Kevent.withFileInfo_some e fi).2.2.2 (by simp [peNames])

theorem appendMappedFile_pe (env : Env) (f : fsProcessor) (e e1 : Kevent) (f1 : fsProcessor)
    (h : appendMappedFile env f e = .ok (e1, f1)) : e1.carriesPE = e.carriesPE := by
  unfold appendMappedFile at h
  split at h
  · cases h
  · dsimp only at h
    split at h
    · split at h
      · cases h
      · split at h
        · cases h
        · cases h
          exact Kevent.carriesPE_append e _ _ _ (by simp [peNames])
    · cases h; rfl

/-- The record `processEvent` hands back carries PE parameters as the input record does,
unless it is a pending CreateFile completed by `completeCreateFile`. -/
theorem processEvent_evt_pe (env : Env) (f : fsProcessor) (e ev : Kevent)
    (h : (processEvent env f e).evt = some ev) :
    ev.carriesPE = e.carriesPE ∨
    ∃ i dispo status r, f.irps i = some r ∧
      processEvent env f e = completeCreateFile env f i dispo status r := by
  by_cases hFO : e.Typ = .FileOpEnd
  · -- FileOpEnd
    cases hI : e.Kparams.GetUint64 .FileIrpPtr with
    | error _ => simp [processEvent, hFO, hI, Outcome.evt] at h
    | ok irp =>
      cases hD : e.Kparams.GetUint64 .FileExtraInfo with
      | error _ => simp [processEvent, hFO, hI, hD, Outcome.evt] at h
      | ok dispo =>
        cases hS : e.Kparams.GetUint32 .NTStatus with
        | error _ => simp [processEvent, hFO, hI, hD, hS, Outcome.evt] at h
        | ok status =>
          by_cases hM : dispo > FILE_MAXIMUM_DISPOSITION
          · simp [processEvent, hFO, hI, hD, hS, hM, Outcome.evt] at h
            subst h; exact Or.inl rfl
          · cases hP : f.irps irp with
            | none =>
              simp [processEvent, hFO, hI, hD, hS, hM, hP, Outcome.evt] at h
              subst h; exact Or.inl rfl
            | some r =>
              exact Or.inr ⟨irp, dispo, status, r, hP,
                processEvent_fileOpEnd_matched env f e r irp dispo status hFO hI hD hS
                  (by omega) hP⟩
  · left
    unfold processEvent at h
    split at h
    · -- FileRundown
      dsimp only at h
      split at h
      · cases h
      · split at h <;> (cases h; rfl)
    · -- MapFileRundown
      split at h
      · cases h
      · split at h
        · cases h
          exact Kevent.carriesPE_append e _ _ _ (by simp [peNames])
        · split at h
          · cases h
          · rename_i e1 f1 hfp
            cases h
            exact appendMappedFile_pe env f e _ f1 hfp
    · -- CreateFile
      split at h
      · cases h
      · cases h; rfl
    · -- StackWalk
      split at h
      · dsimp only at h
        split at h <;> (cases h; rfl)
      · cases h; rfl
    · -- FileOpEnd
      rename_i hT
      exact absurd hT hFO
    · -- ReleaseFile
      dsimp only at h
      split at h
      · cases h
      · cases h; rfl
    · -- UnmapViewFile
      dsimp only at h
      simp only [Outcome.evt, Option.some.injEq] at h
      subst h
      split
      · split
        · exact Kevent.carriesPE_append e _ _ _ (by simp [peNames])
        · rfl
      · rfl
    · -- default
      split at h
      · cases h
      · rename_i fileKey _
        dsimp only at h
        split at h
        · cases h
        · rename_i fileObject hfo
          split at h
          · cases h
          · rename_i e1 f1 hfp
            have h1 : e1.carriesPE = e.carriesPE := by
              split at hfp
              · exact appendMappedFile_pe env _ e e1 f1 hfp
              · cases hfp; rfl
            rw [← h1]
            cases hed2 : e1.IsEnumDirectory <;>
              cases hnone : (findFile env f fileKey fileObject).1 <;>
              cases hmv2 : (e1.Typ == Ktype.MapViewFile) <;>
              simp [Outcome.evt, apply_ite Outcome.evt, hed2, hnone, Kevent.IsMapViewFile,
                Kevent.AppendParam, Kevent.AppendEnum, apply_ite Kevent.Typ, hmv2] at h <;>
              subst h <;>
              simp [Kevent.carriesPE, peNames, Function.update_apply, apply_ite Kevent.Kparams] <;>
              split <;> simp [Function.update_apply]

/-- A FileOpEnd leaves the pending-IRP table as it was or removes one entry. -/
theorem processEvent_irps_fileOpEnd (env : Env) (f : fsProcessor) (e : Kevent)
    (hT : e.Typ = .FileOpEnd) :
    (processEvent env f e).state.irps = f.irps ∨
    ∃ i, (processEvent env f e).state.irps = Function.update f.irps i none := by
  cases hI : e.Kparams.GetUint64 .FileIrpPtr with
  | error _ => left; simp [processEvent, hT, hI, Outcome.state]
  | ok irp =>
    cases hD : e.Kparams.GetUint64 .FileExtraInfo with
    | error _ => left; simp [processEvent, hT, hI, hD, Outcome.state]
    | ok dispo =>
      cases hS : e.Kparams.GetUint32 .NTStatus with
      | error _ => left; simp [processEvent, hT, hI, hD, hS, Outcome.state]
      | ok status =>
        by_cases hM : dispo > FILE_MAXIMUM_DISPOSITION
        · left; simp [processEvent, hT, hI, hD, hS, hM, Outcome.state]
        · cases hP : f.irps irp with
          | none => left; simp [processEvent, hT, hI, hD, hS, hM, hP, Outcome.state]
          | some r =>
            right
            rw [processEvent_fileOpEnd_matched env f e r irp dispo status hT hI hD hS
              (by omega) hP]
            exact ⟨irp, completeCreateFile_irps env f irp dispo status r⟩

/-- Processing a record that carries no PE parameter keeps the pending records free of
PE parameters. -/
theorem processEvent_noPendingPE (env : Env) (f : fsProcessor) (e : Kevent)
    (hP : NoPendingPE f) (he : e.carriesPE = false) :
    NoPendingPE (processEvent env f e).state := by
  intro j r hj
  by_cases hC : e.Typ = .CreateFile
  · cases hI : e.Kparams.GetUint64 .FileIrpPtr with
    | error _ =>
      rw [processEvent_irps env f e j (Or.inl (by rw [hI]; simp))] at hj
      exact hP j r hj
    | ok i =>
      rw [processEvent_createFile env f e i hC hI] at hj
      by_cases hji : j = i
      · subst hji
        simp [Outcome.state] at hj
        subst hj
        exact he
      · simp [Outcome.state, Function.update_apply, hji] at hj
        exact hP j r hj
  · by_cases hF : e.Typ = .FileOpEnd
    · rcases processEvent_irps_fileOpEnd env f e hF with h | ⟨i, h⟩
      · rw [h] at hj; exact hP j r hj
      · rw [h] at hj
        by_cases hji : j = i
        · subst hji; simp at hj
        · rw [Function.update_noteq hji] at hj
          exact hP j r hj
    · rw [processEvent_irps env f e j (Or.inr ⟨hC, hF⟩)] at hj
      exact hP j r hj

/-- A record handed back with a PE parameter, when neither the input nor a pending record
carried one, comes from a call that asked the limiter and was allowed. -/
theorem processEvent_pe_needs_permit (env : Env) (f : fsProcessor) (e : Kevent)
    (hP : NoPendingPE f) (he : e.carriesPE = false)
    (hc : (processEvent env f e).carriesPE = true) :
    env.Allow = true ∧ (processEvent env f e).consulted f = true := by
  unfold Outcome.carriesPE at hc
  cases hev : (processEvent env f e).evt with
  | none => rw [hev] at hc; cases hc
  | some ev =>
    rw [hev] at hc
    dsimp only at hc
    rcases processEvent_evt_pe env f e ev hev with h | ⟨i, dispo, status, r, hr, h⟩
    · rw [h, he] at hc; cases hc
    · rw [h] at hev ⊢
      exact completeCreateFile_pe env f i dispo status r ev (hP i r hr) hev hc

theorem Limiter.tokensAt_le (l : Limiter) (a t : Nat) (h1 : l.last ≤ a) (h2 : a ≤ t) :
    l.tokensAt t ≤ l.tokensAt a + Limiter.rate * (t - a) := by
  simp only [Limiter.tokensAt, Limiter.burst, Limiter.rate, Limiter.unit]
  omega

theorem Limiter.Allow_last (l : Limiter) (t : Nat) : (l.Allow t).2.last = t := by
  unfold Limiter.Allow
  dsimp only
  split <;> rfl

theorem Limiter.Allow_true (l : Limiter) (t : Nat) (h : (l.Allow t).1 = true) :
    (l.Allow t).2.tokensAt t + Limiter.unit ≤ l.tokensAt t := by
  unfold Limiter.Allow at h ⊢
  dsimp only at h ⊢
  split at h
  · rename_i hle
    rw [if_pos hle]
    simp only [Limiter.tokensAt, Limiter.burst, Limiter.rate, Limiter.unit] at hle ⊢
    omega
  · cases h

theorem Limiter.Allow_tokens (l : Limiter) (t : Nat) :
    (l.Allow t).2.tokensAt t ≤ l.tokensAt t := by
  unfold Limiter.Allow
  dsimp only
  split
  · simp only [Limiter.tokensAt, Limiter.burst, Limiter.rate, Limiter.unit]
    omega
  · simp only [Limiter.tokensAt, Limiter.burst, Limiter.rate, Limiter.unit]
    omega

/-- Token accounting along a timed run. When no input and no pending record carries a PE
parameter, the times are in order and lie in `[a, b]`, and the limiter was last asked no
later than `a`, the records emitted with PE parameters cost one permit each, paid from
the content of the bucket at `a` and the refill over `b - a`. -/
theorem limitedRun_bound (steps : List (Nat × Env × Kevent)) :
    ∀ (l : Limiter) (f : fsProcessor) (a b : Nat), NoPendingPE f →
      (∀ s ∈ steps, s.2.2.carriesPE = false) →
      List.Pairwise (fun x y => x ≤ y) (steps.map Prod.fst) →
      (∀ s ∈ steps, a ≤ s.1 ∧ s.1 ≤ b) → l.last ≤ a →
      countPE (limitedRun l f steps) * Limiter.unit ≤
        l.tokensAt a + Limiter.rate * (b - a) := by
  induction steps with
  | nil =>
    intro l f a b _ _ _ _ _
    simp [limitedRun, countPE]
  | cons step rest ih =>
    intro l f a b hP he hsorted hwin hlast
    obtain ⟨hat, htb⟩ := hwin step (by simp)
    have hrest_sorted : List.Pairwise (fun x y => x ≤ y) (rest.map Prod.fst) := by
      simp only [List.map_cons, List.pairwise_cons] at hsorted
      exact hsorted.2
    have hrest_win : ∀ s ∈ rest, step.1 ≤ s.1 ∧ s.1 ≤ b := by
      intro s hs
      simp only [List.map_cons, List.pairwise_cons] at hsorted
      exact ⟨hsorted.1 s.1 (List.mem_map_of_mem Prod.fst hs), (hwin s (by simp [hs])).2⟩
    have hC := Limiter.tokensAt_le l a step.1 hlast hat
    have hrate : Limiter.rate * (step.1 - a) + Limiter.rate * (b - step.1) =
        Limiter.rate * (b - a) := by
      simp only [Limiter.rate]; omega
    unfold limitedRun
    dsimp only
    generalize ho : processEvent { step.2.1 with Allow := (l.Allow step.1).1 } f step.2.2 = o
    have hstep := processEvent_pe_needs_permit
      { step.2.1 with Allow := (l.Allow step.1).1 } f step.2.2 hP (he step (by simp))
    have hnp := processEvent_noPendingPE
      { step.2.1 with Allow := (l.Allow step.1).1 } f step.2.2 hP (he step (by simp))
    rw [ho] at hstep hnp
    cases o with
    | panicked fp =>
      simp [countPE, Outcome.carriesPE, Outcome.evt]
    | returned evt err f1 =>
      dsimp only
      have hih := fun l1 (h : l1.last ≤ step.1) =>
        ih l1 f1 step.1 b hnp (fun s hs => he s (by simp [hs])) hrest_sorted hrest_win h
      simp only [countPE, List.countP_cons] at hih ⊢
      cases hcar : (Outcome.returned evt err f1).carriesPE with
      | true =>
        obtain ⟨hallow, hcons⟩ := hstep hcar
        simp only [hcons, if_true]
        have h1 := hih (l.Allow step.1).2 (by rw [Limiter.Allow_last])
        have h2 := Limiter.Allow_true l step.1 hallow
        simp only [Limiter.rate, Limiter.unit] at h1 h2 hC hrate ⊢
        omega
      | false =>
        simp only [Bool.false_eq_true, if_false, Nat.add_zero]
        cases hcons : (Outcome.returned evt err f1).consulted f with
        | true =>
          simp only [if_true]
          have h1 := hih (l.Allow step.1).2 (by rw [Limiter.Allow_last])
          have h2 := Limiter.Allow_tokens l step.1
          simp only [Limiter.rate, Limiter.unit] at h1 h2 hC hrate ⊢
          omega
        | false =>
          simp only [Bool.false_eq_true, if_false]
          have h1 := hih l (by omega)
          simp only [Limiter.rate, Limiter.unit] at h1 hC hrate ⊢
          omega

theorem pendingState_matched :
    Matched pendingState sampleFileOpEnd sampleHeld 0x100 2 0 0xB :=
  ⟨rfl, rfl, rfl, rfl, by decide, rfl, rfl, rfl, by intro id q s h; cases h⟩

theorem knownState_matched :
    Matched knownState sampleFileOpEnd sampleHeld 0x100 2 0 0xB :=
  ⟨rfl, rfl, rfl, rfl, by decide, rfl, rfl, rfl, by intro id q s h; cases h⟩

theorem manyPending_noPendingPE : NoPendingPE manyPending := by
  intro i r h
  unfold manyPending at h
  dsimp only at h
  split at h
  · cases h; rfl
  · cases h

/-- An iteration of the purger keeps a sample that is not expired, in the backing array
and in the bucket. -/
theorem purgeIter_keeps (now : Int) (x : Kevent) (st : List Kevent × List Kevent) (i : Nat)
    (hx : expired now x = false) (h1 : x ∈ st.1) (h2 : x ∈ st.2) :
    x ∈ (purgeIter now st i).1 ∧ x ∈ (purgeIter now st i).2 := by
  unfold purgeIter
  split
  · exact ⟨h1, h2⟩
  · rename_i evt hget
    split
    · rename_i hexp
      have hi : i < st.1.length := (List.getElem?_eq_some_iff.1 hget).1
      have hevt : st.1[i] = evt := (List.getElem?_eq_some_iff.1 hget).2
      have hne : x ≠ evt := by
        intro h
        rw [h, hexp] at hx
        cases hx
      have hsplit : st.1 = st.1.take i ++ evt :: st.1.drop (i + 1) := by
        rw [← hevt]
        exact (List.take_append_drop i st.1).symm.trans (by rw [List.drop_eq_getElem_cons hi])
      have hm : x ∈ st.1.take i ++ st.1.drop (i + 1) := by
        rw [hsplit] at h1
        simp only [List.mem_append, List.mem_cons] at h1
        rcases h1 with h | h | h
        · exact List.mem_append_left _ h
        · exact absurd h hne
        · exact List.mem_append_right _ h
      have hlen : (st.1.take i ++ st.1.drop (i + 1)).length = st.1.length - 1 := by
        simp only [List.length_append, List.length_take, List.length_drop]
        omega
      refine ⟨List.mem_append_left _ hm, ?_⟩
      dsimp only
      rw [List.take_left' hlen]
      exact hm
    · exact ⟨h1, h2⟩

theorem purgeFold_keeps (now : Int) (x : Kevent) (hx : expired now x = false)
    (is : List Nat) :
    ∀ st : List Kevent × List Kevent, x ∈ st.1 → x ∈ st.2 →
      x ∈ (is.foldl (purgeIter now) st).2 := by
  induction is with
  | nil => intro st _ h2; exact h2
  | cons i rest ih =>
    intro st h1 h2
    have h := purgeIter_keeps now x st i hx h1 h2
    exact ih _ h.1 h.2

/-- An iteration of the purger over a backing array without expired sample changes
nothing. -/
theorem purgeIter_fresh (now : Int) (st : List Kevent × List Kevent) (i : Nat)
    (h : ∀ s ∈ st.1, expired now s = false) : purgeIter now st i = st := by
  unfold purgeIter
  split
  · rfl
  · rename_i evt hget
    have hmem : evt ∈ st.1 := by
      obtain ⟨hi, he⟩ := List.getElem?_eq_some_iff.1 hget
      rw [← he]
      exact List.getElem_mem hi
    simp [h evt hmem]

theorem purgeFold_fresh (now : Int) (is : List Nat) (st : List Kevent × List Kevent)
    (h : ∀ s ∈ st.1, expired now s = false) : is.foldl (purgeIter now) st = st := by
  induction is with
  | nil => rfl
  | cons i rest ih => rw [List.foldl_cons, purgeIter_fresh now st i h, ih]

theorem expired_eq_false_iff (now : Int) (s : Kevent) :
    expired now s = false ↔ now - s.Timestamp ≤ 30 * 1000000000 := by
  unfold expired
  simp

theorem processEvent_pendingWithheld (env : Env) (f : fsProcessor) (e : Kevent)
    (h : PendingWithheld f) : PendingWithheld (processEvent env f e).state := by
  by_cases hC : e.Typ = .CreateFile
  · cases hI : e.Kparams.GetUint64 .FileIrpPtr with
    | error err =>
      have : processEvent env f e = .panicked f := by simp [processEvent, hC, hI]
      rw [this]
      exact h
    | ok i =>
      rw [processEvent_createFile env f e i hC hI]
      intro j r hj
      simp only [Outcome.state, Function.update_apply] at hj
      split at hj
      · rename_i hji
        cases hj
        exact ⟨rfl, hji ▸ hI, hC⟩
      · exact h j r hj
  · by_cases hF : e.Typ = .FileOpEnd
    · rcases processEvent_irps_fileOpEnd env f e hF with hs | ⟨i, hs⟩
      · intro j r hj
        rw [hs] at hj
        exact h j r hj
      · intro j r hj
        rw [hs] at hj
        simp only [Function.update_apply] at hj
        split at hj
        · cases hj
        · exact h j r hj
    · intro j r hj
      rw [processEvent_irps env f e j (Or.inr ⟨hC, hF⟩)] at hj
      exact h j r hj

theorem run_pendingWithheld (steps : List (Env × Kevent)) :
    ∀ f : fsProcessor, PendingWithheld f → ∀ o ∈ run f steps, PendingWithheld o.state := by
  induction steps with
  | nil => intro f _ o ho; cases ho
  | cons step rest ih =>
    intro f hf o ho
    have hstep := processEvent_pendingWithheld step.1 f step.2 hf
    unfold run at ho
    split at ho
    · rename_i evt err f1 heq
      rw [heq] at hstep
      rcases List.mem_cons.1 ho with h | h
      · rw [h]; exact hstep
      · exact ih f1 hstep o h
    · rename_i fp heq
      rw [heq] at hstep
      rcases List.mem_cons.1 ho with h | h
      · rw [h]; exact hstep
      · cases h

theorem statesOf_pendingWithheld (config : Config) (steps : List (Env × Kevent))
    (f : fsProcessor) (hf : f ∈ statesOf config steps) : PendingWithheld f := by
  have h0 : PendingWithheld (newFsProcessor config) := by
    intro i r h
    cases h
  unfold statesOf at hf
  rcases List.mem_cons.1 hf with h | h
  · rw [h]; exact h0
  · obtain ⟨o, ho, rfl⟩ := List.mem_map.1 h
    exact run_pendingWithheld steps _ h0 o ho

/-- The record handed back by the completion of a pending CreateFile has its withhold
flag cleared. -/
theorem completeCreateFile_evt (env : Env) (f : fsProcessor) (i dispo status : Nat)
    (r ev : Kevent) (h : (completeCreateFile env f i dispo status r).evt = some ev) :
    ev.WaitEnqueue = false := by
  rcases completeCreateFile_outcome env f i dispo status r with ⟨fp, hp⟩ | ⟨ev5, f4, hc, hs, _⟩
  · rw [hp] at h
    cases h
  · obtain ⟨ev1, f1, ha, _, _, hpe⟩ := appendCharacteristics_returns env f4 ev5
    rw [hc, ha] at h
    cases h
    exact hpe.2.2.2.2.2.1.trans hs.2.2.2.2.2.1

/-! ## Claims -/

/-- C1. Matched FileOpEnd. In every state whose stored stack walks carry their callstack
and whose pending-IRP table holds a CreateFile record `r` under IRP `i`, with `r` carrying
`file_object` and `create_options`, processing a FileOpEnd with IRP `i`, a disposition
not above the maximum and NT status `status` returns, without error, exactly one record
`ev`: it is `r` (a CreateFile, not the FileOpEnd) with the withhold flag cleared, it
differs from `r` in no parameter other than the enrichment parameters, and it carries
the NT status and the disposition. Afterwards `i` is no longer in the pending-IRP table
and every other pending entry is as before. -/
theorem fileOpEnd_completes_pending_createFile (env : Env) (f : fsProcessor)
    (e r : Kevent) (i dispo status o opts : Nat)
    (hT : e.Typ = .FileOpEnd)
    (hI : e.Kparams.GetUint64 .FileIrpPtr = .ok i)
    (hD : e.Kparams.GetUint64 .FileExtraInfo = .ok dispo)
    (hS : e.Kparams.GetUint32 .NTStatus = .ok status)
    (hM : dispo ≤ FILE_MAXIMUM_DISPOSITION)
    (hP : f.irps i = some r)
    (hr : r.Typ = .CreateFile)
    (hO : r.Kparams.GetUint64 .FileObject = .ok o)
    (hC : r.Kparams.GetUint32 .FileCreateOptions = .ok opts)
    (hW : BucketsWellFormed f) :
    ∃ ev f1, processEvent env f e = .returned (some ev) none f1 ∧
      ev.Typ = .CreateFile ∧
      ev.WaitEnqueue = false ∧
      Kevent.sameExcept enrichNames ev { r with WaitEnqueue := false } ∧
      ev.Kparams .NTStatus = some ⟨.Status, .uint32 status, none⟩ ∧
      ev.Kparams .FileOperation = some ⟨.Enum, .uint32 dispo, some .FileCreateDispositions⟩ ∧
      f1.irps i = none ∧ ∀ j, j ≠ i → f1.irps j = f.irps j := by
  have hW1 : ∀ q s, f.config.StackEnrichment = true → f.buckets r.StackID = some (q ++ [s]) →
      ∃ cs, s.Kparams.GetSlice .Callstack = .ok cs := by
    intro q s _ hq
    have hs := hW r.StackID (q ++ [s]) s hq (by simp)
    unfold Kevent.hasCallstack at hs
    split at hs
    · exact ⟨_, by assumption⟩
    · cases hs
  obtain ⟨ev, f1, he, h1, _, h3, h4, h5, _⟩ :=
    completeCreateFile_spec env f i dispo status r o hO (fun _ => ⟨opts, hC⟩) hW1
  have hlt : dispo % 2 ^ 32 = dispo := by
    apply Nat.mod_eq_of_lt
    unfold FILE_MAXIMUM_DISPOSITION at hM
    omega
  rw [hlt] at h5
  refine ⟨ev, f1, ?_, h3.1.trans hr, h3.2.2.2.2.2.1, h3, h4, h5, ?_, ?_⟩
  · have hM1 : ¬ dispo > FILE_MAXIMUM_DISPOSITION := by omega
    simp [processEvent, hT, hI, hD, hS, hM1, hP, he]
  · rw [h1]; simp
  · intro j hj; rw [h1]; simp [Function.update_apply, hj]

theorem fileOpEnd_completes_pending_createFile_witness :
    ∃ ev f1, processEvent quietEnv pendingState sampleFileOpEnd = .returned (some ev) none f1 ∧
      ev.Typ = .CreateFile ∧
      ev.WaitEnqueue = false ∧
      Kevent.sameExcept enrichNames ev { sampleHeld with WaitEnqueue := false } ∧
      ev.Kparams .NTStatus = some ⟨.Status, .uint32 0, none⟩ ∧
      ev.Kparams .FileOperation = some ⟨.Enum, .uint32 2, some .FileCreateDispositions⟩ ∧
      f1.irps 0x100 = none ∧ ∀ j, j ≠ 0x100 → f1.irps j = pendingState.irps j :=
  fileOpEnd_completes_pending_createFile quietEnv pendingState sampleFileOpEnd sampleHeld
    0x100 2 0 0xB 1 rfl rfl rfl rfl (by decide) rfl rfl rfl rfl
    (by intro id q s h; cases h)

/-- C2. Processing a CreateFile record `e` with IRP `i` returns `e` with its withhold flag
set and no parameter appended, stores it in the pending-IRP table under `i` and changes
nothing else: the file metadata table, the stack-walk buckets and every other pending
entry are as before. The record stays withheld until a FileOpEnd with IRP `i` is
processed: along every run in which no FileOpEnd carries IRP `i`, the entry under `i`
holds a record whose withhold flag is set, and it is `e` itself as long as no other
CreateFile reuses IRP `i`. -/
theorem createFile_is_withheld (env : Env) (f : fsProcessor) (e : Kevent) (i : Nat)
    (hT : e.Typ = .CreateFile) (hI : e.Kparams.GetUint64 .FileIrpPtr = .ok i) :
    processEvent env f e = .returned (some { e with WaitEnqueue := true }) none
      { f with irps := Function.update f.irps i (some { e with WaitEnqueue := true }) } ∧
    ∀ steps : List (Env × Kevent),
      (∀ s ∈ steps, ¬ (s.2.Typ = .FileOpEnd ∧ s.2.Kparams.GetUint64 .FileIrpPtr = .ok i)) →
      ∀ o ∈ run (processEvent env f e).state steps,
        ∃ r, o.state.irps i = some r ∧ r.WaitEnqueue = true ∧
          ((∀ s ∈ steps,
              ¬ (s.2.Typ = .CreateFile ∧ s.2.Kparams.GetUint64 .FileIrpPtr = .ok i)) →
            r = { e with WaitEnqueue := true }) := by
  refine ⟨processEvent_createFile env f e i hT hI, ?_⟩
  intro steps hs o ho
  rw [processEvent_createFile env f e i hT hI] at ho
  exact run_keeps_withheld i steps _ { e with WaitEnqueue := true }
    (Function.update_same _ _ _) rfl hs o ho

theorem createFile_is_withheld_witness :
    processEvent quietEnv (newFsProcessor configOn) sampleCreateFile =
      .returned (some sampleHeld) none
        { newFsProcessor configOn with
          irps := Function.update (newFsProcessor configOn).irps 0x100 (some sampleHeld) } ∧
    ∀ steps : List (Env × Kevent),
      (∀ s ∈ steps,
        ¬ (s.2.Typ = .FileOpEnd ∧ s.2.Kparams.GetUint64 .FileIrpPtr = .ok 0x100)) →
      ∀ o ∈ run (processEvent quietEnv (newFsProcessor configOn) sampleCreateFile).state steps,
        ∃ r, o.state.irps 0x100 = some r ∧ r.WaitEnqueue = true ∧
          ((∀ s ∈ steps,
              ¬ (s.2.Typ = .CreateFile ∧ s.2.Kparams.GetUint64 .FileIrpPtr = .ok 0x100)) →
            r = sampleHeld) :=
  createFile_is_withheld quietEnv (newFsProcessor configOn) sampleCreateFile 0x100 rfl rfl

/-- C3. Unmatched FileOpEnd. For every state and every FileOpEnd record (carrying its IRP,
disposition and NT status) whose IRP is not in the pending-IRP table, `processEvent`
returns the same record, with no parameter added, the withhold flag untouched and no
error, in an unchanged state: file metadata table, pending-IRP table and stack-walk
buckets are as before. -/
theorem unmatched_fileOpEnd_passes_through (env : Env) (f : fsProcessor) (e : Kevent)
    (irp dispo status : Nat)
    (hT : e.Typ = .FileOpEnd)
    (hI : e.Kparams.GetUint64 .FileIrpPtr = .ok irp)
    (hD : e.Kparams.GetUint64 .FileExtraInfo = .ok dispo)
    (hS : e.Kparams.GetUint32 .NTStatus = .ok status)
    (hP : f.irps irp = none) :
    processEvent env f e = .returned (some e) none f := by
  simp [processEvent, hT, hI, hD, hS, hP]

theorem unmatched_fileOpEnd_passes_through_witness :
    processEvent quietEnv pendingState unmatchedFileOpEnd =
      .returned (some unmatchedFileOpEnd) none pendingState :=
  unmatched_fileOpEnd_passes_through quietEnv pendingState unmatchedFileOpEnd 0xDEAD 1 0
    rfl rfl rfl rfl rfl

/-- C4. Disposition out of range. For every state and every FileOpEnd record (carrying its
IRP, disposition and NT status) whose disposition exceeds `FILE_MAXIMUM_DISPOSITION`,
`processEvent` returns the same record unmodified, with no error, in an unchanged
state; in particular a CreateFile pending under the same IRP is still in the pending-IRP
table, still withheld. -/
theorem malformed_disposition_passes_through (env : Env) (f : fsProcessor) (e : Kevent)
    (irp dispo status : Nat)
    (hT : e.Typ = .FileOpEnd)
    (hI : e.Kparams.GetUint64 .FileIrpPtr = .ok irp)
    (hD : e.Kparams.GetUint64 .FileExtraInfo = .ok dispo)
    (hS : e.Kparams.GetUint32 .NTStatus = .ok status)
    (hM : dispo > FILE_MAXIMUM_DISPOSITION) :
    processEvent env f e = .returned (some e) none f ∧
    ∀ r, f.irps irp = some r → r.WaitEnqueue = true →
      (processEvent env f e).state.irps irp = some r ∧ r.WaitEnqueue = true := by
  have h : processEvent env f e = .returned (some e) none f := by
    simp [processEvent, hT, hI, hD, hS, hM]
  refine ⟨h, fun r hr hw => ⟨?_, hw⟩⟩
  rw [h]
  exact hr

theorem malformed_disposition_passes_through_witness :
    processEvent quietEnv pendingState malformedFileOpEnd =
      .returned (some malformedFileOpEnd) none pendingState ∧
    (processEvent quietEnv pendingState malformedFileOpEnd).state.irps 0x100 =
      some sampleHeld ∧ sampleHeld.WaitEnqueue = true :=
  have h := malformed_disposition_passes_through quietEnv pendingState malformedFileOpEnd
    0x100 6 0 rfl rfl rfl rfl (by decide)
  ⟨h.1, h.2 sampleHeld rfl rfl⟩

/-- C5. File key precedence. For every file metadata table with an entry `a` under the file
key `k` and another entry `b` under a different file object `o`, `findFile k o` returns
the entry `a` stored under `k` and leaves the state, the log of collaborator calls
included, untouched: the handle snapshotter is not consulted. -/
theorem findFile_prefers_file_key (env : Env) (f : fsProcessor) (k o : Nat) (a b : FileInfo)
    (hk : f.files k = some a) (_ho : f.files o = some b) (_hne : k ≠ o) :
    findFile env f k o = (some a, f) ∧
    (findFile env f k o).2.calls = f.calls := by
  have h : findFile env f k o = (some a, f) := by simp [findFile, hk]
  exact ⟨h, by rw [h]⟩

theorem findFile_prefers_file_key_witness :
    findFile quietEnv twoFiles 1 2 = (some ⟨"by-key", .Regular⟩, twoFiles) ∧
    (findFile quietEnv twoFiles 1 2).2.calls = twoFiles.calls :=
  findFile_prefers_file_key quietEnv twoFiles 1 2 ⟨"by-key", .Regular⟩
    ⟨"by-object", .Directory⟩ rfl rfl (by decide)

/-- C6. Ephemeral handle fallback. For every state, `findFile k o` leaves the file metadata
table unchanged. When neither `k` nor `o` is in the table, the handle snapshotter is
asked for `o`; the lookup returns the file info made of the handle name and
`GetFileType name 0` exactly when the snapshotter finds a handle of type File, and
nothing otherwise. Since nothing is inserted, a second identical lookup asks the
snapshotter again and returns the same answer. -/
theorem findFile_snapshot_hit_is_ephemeral (env : Env) (f : fsProcessor) (k o : Nat) :
    (findFile env f k o).2.files = f.files ∧
    (f.files k = none → f.files o = none →
      (∀ r, (findFile env f k o).1 = some r ↔
        ∃ h, env.FindByObject o = some h ∧ h.Typ = handleFile ∧
          r = ⟨h.Name, env.GetFileType h.Name 0⟩) ∧
      (findFile env f k o).2.calls = f.calls ++ [.FindByObject o] ∧
      (findFile env (findFile env f k o).2 k o).1 = (findFile env f k o).1 ∧
      (findFile env (findFile env f k o).2 k o).2.calls =
        f.calls ++ [.FindByObject o, .FindByObject o]) := by
  refine ⟨(findFile_tables env f k o).1, ?_⟩
  intro hk ho
  have hk2 : (findFile env f k o).2.files k = none := by
    rw [(findFile_tables env f k o).1]; exact hk
  have ho2 : (findFile env f k o).2.files o = none := by
    rw [(findFile_tables env f k o).1]; exact ho
  have key : ∀ g : fsProcessor, g.files k = none → g.files o = none →
      (∀ r, (findFile env g k o).1 = some r ↔
        ∃ h, env.FindByObject o = some h ∧ h.Typ = handleFile ∧
          r = ⟨h.Name, env.GetFileType h.Name 0⟩) ∧
      (findFile env g k o).2.calls = g.calls ++ [.FindByObject o] ∧
      (findFile env g k o).1 = (findFile env f k o).1 := by
    intro g gk go
    unfold findFile
    simp only [gk, go, hk, ho]
    cases hh : env.FindByObject o with
    | none => simp [fsProcessor.call]
    | some h =>
      by_cases ht : h.Typ = handleFile
      · simp [ht, fsProcessor.call, eq_comm]
      · simp [ht, fsProcessor.call]
  obtain ⟨h1, h2, _⟩ := key f hk ho
  obtain ⟨_, h4, h5⟩ := key _ hk2 ho2
  refine ⟨h1, h2, h5, ?_⟩
  rw [h4, h2]
  simp

theorem findFile_snapshot_hit_is_ephemeral_witness :
    (findFile handleEnv (newFsProcessor configOn) 5 0xB).1 = some ⟨"x.exe", .Regular⟩ ∧
    (findFile handleEnv (findFile handleEnv (newFsProcessor configOn) 5 0xB).2 5 0xB).2.calls =
      [.FindByObject 0xB, .FindByObject 0xB] :=
  have h := (findFile_snapshot_hit_is_ephemeral handleEnv (newFsProcessor configOn) 5 0xB).2
    rfl rfl
  ⟨(h.1 _).2 ⟨⟨"File", "x.exe"⟩, rfl, rfl, rfl⟩, h.2.2.2⟩

/-- C7. Stack LIFO. With stack enrichment enabled and an empty bucket for stack id `d`,
process the StackWalk samples `A` then `B` with stack id `d` (neither from a dropped
process), then complete three pending CreateFile records with stack id `d`. The
first is emitted with the callstack of `B`, the second with the callstack of `A`, the
third with no callstack attached (its callstack parameter is the one it came with).
Each pop removes exactly the last element of the bucket of `d`, and no other bucket
changes. -/
theorem stack_walks_pop_lifo (envA envB env1 env2 env3 : Env) (f : fsProcessor)
    (A B e1 e2 e3 r1 r2 r3 : Kevent) (d i1 i2 i3 : Nat) (ca cb : List Nat)
    (hSE : f.config.StackEnrichment = true)
    (hEmpty : f.buckets d = none ∨ f.buckets d = some [])
    (hA : A.isStackWalkOf d ca) (hAd : envA.IsCurrentProcDropped A.PID = false)
    (hB : B.isStackWalkOf d cb) (hBd : envB.IsCurrentProcDropped B.PID = false)
    (h1 : f.irps i1 = some r1 ∧ r1.isCreateFileWithStack d ∧ e1.isFileOpEndFor i1)
    (h2 : f.irps i2 = some r2 ∧ r2.isCreateFileWithStack d ∧ e2.isFileOpEndFor i2)
    (h3 : f.irps i3 = some r3 ∧ r3.isCreateFileWithStack d ∧ e3.isFileOpEndFor i3)
    (hne : i1 ≠ i2 ∧ i1 ≠ i3 ∧ i2 ≠ i3) :
    let sA := (processEvent envA f A).state
    let sB := (processEvent envB sA B).state
    let o1 := processEvent env1 sB e1
    let o2 := processEvent env2 o1.state e2
    let o3 := processEvent env3 o2.state e3
    sA.buckets = Function.update f.buckets d (some [A]) ∧
    sB.buckets = Function.update f.buckets d (some [A, B]) ∧
    (∃ v1, o1.evt = some v1 ∧ v1.Kparams .Callstack = some ⟨.Slice, .slice cb, none⟩) ∧
    o1.state.buckets = Function.update f.buckets d (some [A]) ∧
    (∃ v2, o2.evt = some v2 ∧ v2.Kparams .Callstack = some ⟨.Slice, .slice ca, none⟩) ∧
    o2.state.buckets = Function.update f.buckets d (some []) ∧
    (∃ v3, o3.evt = some v3 ∧ v3.Kparams .Callstack = r3.Kparams .Callstack) ∧
    o3.state.buckets = Function.update f.buckets d (some []) := by
  intro sA sB o1 o2 o3
  obtain ⟨hAT, hAid, hAcs⟩ := hA
  obtain ⟨hBT, hBid, hBcs⟩ := hB
  obtain ⟨hn12, hn13, hn23⟩ := hne
  -- the two pushes
  have hsA : sA = { f with buckets := Function.update f.buckets d (some [A]) } := by
    show (processEvent envA f A).state = _
    rw [processEvent_stackWalk envA f A hAT hAd, hAid]
    rcases hEmpty with h | h <;> simp [Outcome.state, h]
  have hsB : sB = { f with buckets := Function.update f.buckets d (some [A, B]) } := by
    show (processEvent envB sA B).state = _
    rw [processEvent_stackWalk envB sA B hBT hBd, hBid, hsA]
    simp [Outcome.state]
  -- first completion pops B
  obtain ⟨v1, g1, ho1, hv1, hb1, hi1, hc1⟩ :=
    (completion_pops_last env1 sB e1 r1 i1 d h1.2.2 h1.2.1 (by rw [hsB]; exact h1.1)
      (by rw [hsB]; exact hSE)).1 [A] B cb (by rw [hsB]; simp) hBcs
  have ho1s : o1.state = g1 := by
    show (processEvent env1 sB e1).state = _
    rw [ho1]; rfl
  have hb1f : g1.buckets = Function.update f.buckets d (some [A]) := by
    rw [hb1, hsB]; simp
  -- second completion pops A
  obtain ⟨v2, g2, ho2, hv2, hb2, hi2, hc2⟩ :=
    (completion_pops_last env2 g1 e2 r2 i2 d h2.2.2 h2.2.1
      (by rw [hi1, hsB]; simp [Function.update_apply, Ne.symm hn12, h2.1])
      (by rw [hc1, hsB]; exact hSE)).1 [] A ca (by rw [hb1f]; simp) hAcs
  have ho2s : o2.state = g2 := by
    show (processEvent env2 o1.state e2).state = _
    rw [ho1s, ho2]; rfl
  have hb2f : g2.buckets = Function.update f.buckets d (some []) := by
    rw [hb2, hb1f]; simp
  -- third completion finds the bucket empty
  obtain ⟨v3, g3, ho3, hv3, hb3, _, _⟩ :=
    (completion_pops_last env3 g2 e3 r3 i3 d h3.2.2 h3.2.1
      (by rw [hi2, hi1, hsB]
          simp [Function.update_apply, Ne.symm hn13, Ne.symm hn23, h3.1])
      (by rw [hc2, hc1, hsB]; exact hSE)).2 (by rw [hb2f]; simp)
  have ho3s : o3.state = g3 := by
    show (processEvent env3 o2.state e3).state = _
    rw [ho2s, ho3]; rfl
  refine ⟨by rw [hsA], by rw [hsB], ⟨v1, ?_, hv1⟩, by rw [ho1s, hb1f], ⟨v2, ?_, hv2⟩,
    by rw [ho2s, hb2f], ⟨v3, ?_, hv3⟩, by rw [ho3s, hb3, hb2f]⟩
  · show (processEvent env1 sB e1).evt = _
    rw [ho1]; rfl
  · show (processEvent env2 o1.state e2).evt = _
    rw [ho1s, ho2]; rfl
  · show (processEvent env3 o2.state e3).evt = _
    rw [ho2s, ho3]; rfl

theorem stack_walks_pop_lifo_witness :
    (∃ v1, (processEvent quietEnv
        (processEvent quietEnv (processEvent quietEnv threePending walkA).state walkB).state
        (opEndFor 0x100)).evt = some v1 ∧
      v1.Kparams .Callstack = some (addrs [0x3000])) :=
  (stack_walks_pop_lifo quietEnv quietEnv quietEnv quietEnv quietEnv threePending walkA walkB
    (opEndFor 0x100) (opEndFor 0x101) (opEndFor 0x102)
    { createWith 0x100 0xB with WaitEnqueue := true }
    { createWith 0x101 0xC with WaitEnqueue := true }
    { createWith 0x102 0xD with WaitEnqueue := true }
    7 0x100 0x101 0x102 [0x1000, 0x2000] [0x3000]
    rfl (Or.inl rfl) ⟨rfl, rfl, rfl⟩ rfl ⟨rfl, rfl, rfl⟩ rfl
    ⟨rfl, ⟨rfl, rfl, ⟨0xB, rfl⟩, 1, rfl⟩, rfl, rfl, ⟨2, rfl, by decide⟩, 0, rfl⟩
    ⟨rfl, ⟨rfl, rfl, ⟨0xC, rfl⟩, 1, rfl⟩, rfl, rfl, ⟨2, rfl, by decide⟩, 0, rfl⟩
    ⟨rfl, ⟨rfl, rfl, ⟨0xD, rfl⟩, 1, rfl⟩, rfl, rfl, ⟨2, rfl, by decide⟩, 0, rfl⟩
    ⟨by decide, by decide, by decide⟩).2.2.1

/-- C8. One sweep at 31 s over a bucket holding two samples stamped at 0 s, both older than
30 s, leaves the second sample in the bucket: the loop removes slot 0, moves the second
sample down, and then tests slot 1 of the ranged slice, which still holds the second
sample, and stores the first `len(q)-1` slots again. -/
theorem purge_leaves_expired_sample :
    staleState.buckets 1 = some [staleA, staleB] ∧
    expired 31000000000 staleA = true ∧ expired 31000000000 staleB = true ∧
    (purge 31000000000 staleState).buckets 1 = some [staleB] :=
  ⟨rfl, rfl, rfl, rfl⟩

/-- C9. ReleaseFile. For every state, processing a ReleaseFile with file object `x` returns
the record unchanged, without error, and removes `x` from the file metadata table while
every other entry, the pending-IRP table and the buckets stay as they were. A record of
the default kind other than MapViewFile that comes next with file object `x` and a
file key that is not in the table is handed back exactly as it came, hence with no
`file_path` added, when the handle snapshotter does not resolve `x` to a File handle;
when it does, the record (unless an EnumDirectory) carries the handle name as
`file_path`. -/
theorem releaseFile_removes_entry (env1 env2 : Env) (f : fsProcessor) (e : Kevent) (x : Nat)
    (hT : e.Typ = .ReleaseFile) (hO : e.Kparams.GetUint64 .FileObject = .ok x) :
    (∃ f1, processEvent env1 f e = .returned (some e) none f1) ∧
    (processEvent env1 f e).state.files = Function.update f.files x none ∧
    (processEvent env1 f e).state.irps = f.irps ∧
    (processEvent env1 f e).state.buckets = f.buckets ∧
    ∀ (e2 : Kevent) (k : Nat), e2.Typ.isDefault = true → e2.Typ ≠ .MapViewFile →
      e2.Kparams.GetUint64 .FileKey = .ok k → e2.Kparams.GetUint64 .FileObject = .ok x →
      (processEvent env1 f e).state.files k = none →
      ((¬ ∃ h, env2.FindByObject x = some h ∧ h.Typ = handleFile) →
        ∃ f2, processEvent env2 (processEvent env1 f e).state e2 =
          .returned (some e2) none f2) ∧
      (∀ h, env2.FindByObject x = some h → h.Typ = handleFile → e2.Typ ≠ .EnumDirectory →
        ∃ ev f2, processEvent env2 (processEvent env1 f e).state e2 =
            .returned (some ev) none f2 ∧
          ev.Kparams .FilePath = some ⟨.Path, .str h.Name, none⟩) := by
  have h1 : processEvent env1 f e = .returned (some e) none
      { f with
        vars := { f.vars with fileReleaseCount := f.vars.fileReleaseCount + 1 }
        files := Function.update f.files x none } := by
    simp [processEvent, hT, hO]
  rw [h1]
  refine ⟨⟨_, rfl⟩, rfl, rfl, rfl, ?_⟩
  intro e2 k hdef hmv hK hO2 hk
  have hx : (Function.update f.files x none) x = none := Function.update_same _ _ _
  exact ⟨fun hh => processEvent_default_miss env2 _ e2 k x hdef hmv hK hO2 hk hx hh,
    fun h hfo ht hed =>
      processEvent_default_handle_hit env2 _ e2 k x h hdef hmv hed hK hO2 hk hx hfo ht⟩

theorem releaseFile_removes_entry_witness :
    rundownState.files 0xA = some ⟨"a.txt", .Regular⟩ ∧
    (processEvent quietEnv rundownState releaseA).state.files 0xA = none ∧
    ∃ f2, processEvent quietEnv (processEvent quietEnv rundownState releaseA).state closeA =
      .returned (some closeA) none f2 :=
  have h := releaseFile_removes_entry quietEnv quietEnv rundownState releaseA 0xA rfl rfl
  ⟨rfl, by rw [h.2.1]; rfl,
    (h.2.2.2.2 closeA 0x77 rfl (by decide) rfl rfl rfl).1 (by rintro ⟨h, hh, _⟩; cases hh)⟩

/-- C10. After a FileRundown of file object 0, a pagefile-backed MapViewFile whose file
key 7 is not in the table is returned with the `file_path` of the entry under key 0:
the default branch leaves the file object of a MapViewFile at its zero value and still
hands it to `findFile`. The MapFileRundown case, which looks up by file key only,
returns a record with the same parameters in the same state without `file_path`. -/
theorem pagefile_view_takes_path_of_object_zero :
    pagefileView.Typ = .MapViewFile ∧
    pagefileView.Kparams.GetUint32 .FileViewSectionType = .ok quietEnv.SectionPagefile ∧
    pagefileView.Kparams.GetUint64 .FileKey = .ok 7 ∧
    zeroState.files 7 = none ∧
    (∃ ev, (processEvent quietEnv zeroState pagefileView).evt = some ev ∧
      ev.Kparams .FilePath = some (path "zero.txt")) ∧
    pagefileMapRundown.Typ = .MapFileRundown ∧
    pagefileMapRundown.Kparams = pagefileView.Kparams ∧
    ∃ ev, (processEvent quietEnv zeroState pagefileMapRundown).evt = some ev ∧
      ev.Kparams .FilePath = none :=
  ⟨rfl, rfl, rfl, rfl, ⟨_, rfl, rfl⟩, rfl, rfl, _, rfl, rfl⟩

/-- For every state and every MapViewFile record whose section type is pagefile or
physical, the mapped-view resolver is not invoked, whatever the lookup finds; and the
record is handed back as it came, so with no `file_path` added, when neither its file
key nor key 0 is in the file metadata table and the handle snapshotter does not resolve
object 0 to a File handle. -/
theorem pagefile_view_skips_resolver (env : Env) (f : fsProcessor) (e : Kevent)
    (k sec : Nat)
    (hT : e.Typ = .MapViewFile)
    (hK : e.Kparams.GetUint64 .FileKey = .ok k)
    (hS : e.Kparams.GetUint32 .FileViewSectionType = .ok sec)
    (hsec : sec = env.SectionPagefile ∨ sec = env.SectionPhysical) :
    (∃ ev, (processEvent env f e).evt = some ev) ∧
    (∃ new, (processEvent env f e).state.calls = f.calls ++ new ∧
      ∀ c ∈ new, c.isResolver = false) ∧
    (f.files k = none → f.files 0 = none →
      (¬ ∃ h, env.FindByObject 0 = some h ∧ h.Typ = handleFile) →
      ∃ f1, processEvent env f e = .returned (some e) (env.AddMmap e) f1) := by
  have hnm : ¬ (sec ≠ env.SectionPagefile ∧ sec ≠ env.SectionPhysical) := by
    rcases hsec with h | h <;> simp [h]
  have ham : appendMappedFile env (findFile env f k 0).2 e = .ok (e, (findFile env f k 0).2) := by
    unfold appendMappedFile
    simp only [hS]
    simp [hnm]
  obtain ⟨new, hnew, hres⟩ := findFile_calls env f k 0
  have hmem : ∀ (x : Kevent) (c : Call), c ∈ new ++ [.AddMmap x] → c.isResolver = false := by
    intro x c hc
    simp at hc
    rcases hc with hc | hc
    · exact hres c hc
    · subst hc; rfl
  refine ⟨?_, ?_, ?_⟩
  · cases hff : (findFile env f k 0).1 with
    | none =>
      simp [processEvent, hT, hK, hff, ham, Kevent.IsMapViewFile, Kevent.IsCloseFile,
        Kevent.IsDeleteFile, Kevent.IsEnumDirectory, Outcome.evt]
    | some fi =>
      by_cases hu : fi.Typ = .Unknown <;>
        simp [processEvent, hT, hK, hff, hu, Kevent.IsMapViewFile, Kevent.IsCloseFile,
          Kevent.IsDeleteFile, Kevent.IsEnumDirectory, Kevent.AppendParam, Kevent.AppendEnum,
          Outcome.evt]
  · cases hff : (findFile env f k 0).1 with
    | none =>
      refine ⟨new ++ [.AddMmap e], ?_, hmem e⟩
      simp [processEvent, hT, hK, hff, ham, Kevent.IsMapViewFile, Kevent.IsCloseFile,
        Kevent.IsDeleteFile, Kevent.IsEnumDirectory, Outcome.state, fsProcessor.call, hnew]
    | some fi =>
      by_cases hu : fi.Typ = .Unknown
      · refine ⟨new ++ [.AddMmap (e.AppendParam .FilePath .Path (.str fi.Name))], ?_, hmem _⟩
        simp [processEvent, hT, hK, hff, hu, Kevent.IsMapViewFile, Kevent.IsCloseFile,
          Kevent.IsDeleteFile, Kevent.IsEnumDirectory, Kevent.AppendParam, Kevent.AppendEnum,
          Outcome.state, fsProcessor.call, hnew]
      · refine ⟨new ++ [.AddMmap ((e.AppendEnum .FileType fi.Typ.toUint32
            .FileTypes).AppendParam .FilePath .Path (.str fi.Name))], ?_, hmem _⟩
        simp [processEvent, hT, hK, hff, hu, Kevent.IsMapViewFile, Kevent.IsCloseFile,
          Kevent.IsDeleteFile, Kevent.IsEnumDirectory, Kevent.AppendParam, Kevent.AppendEnum,
          Outcome.state, fsProcessor.call, hnew]
  · intro hk h0 hh
    have hff : (findFile env f k 0).1 = none := by
      unfold findFile
      simp only [hk, h0]
      cases hfo : env.FindByObject 0 with
      | none => rfl
      | some h =>
        have : ¬ h.Typ = handleFile := fun ht => hh ⟨h, hfo, ht⟩
        simp [this]
    simp [processEvent, hT, hK, hff, ham, Kevent.IsMapViewFile, Kevent.IsCloseFile,
      Kevent.IsDeleteFile, Kevent.IsEnumDirectory]

theorem pagefile_view_skips_resolver_witness :
    ∃ f1, processEvent quietEnv pendingState pagefileView =
      .returned (some pagefileView) (quietEnv.AddMmap pagefileView) f1 :=
  (pagefile_view_skips_resolver quietEnv pendingState pagefileView 7 0 rfl rfl rfl
    (Or.inl rfl)).2.2 rfl rfl (by rintro ⟨h, hh, _⟩; cases hh)

/-- C11. Rundown then event. Let `o` be absent from the file metadata table and process a
FileRundown with file object `o` and file path `p`. After any run of records in which
no ReleaseFile or DeleteFile carries the file object `o`, a record of the default kind
(neither MapViewFile nor EnumDirectory) with file object `o` and a file key that is
absent from the table or equal to `o` is returned, without error, with
`file_path = p` and, when `GetFileType p 0` is not Unknown, with
`file_type = GetFileType p 0`; nothing else of the record changes. -/
theorem rundown_enriches_later_record (env1 env2 : Env) (f f2 : fsProcessor)
    (e e2 : Kevent) (o k : Nat) (p : String) (steps : List (Env × Kevent))
    (hT : e.Typ = .FileRundown)
    (hO : e.Kparams.GetUint64 .FileObject = .ok o)
    (hp : e.GetParamAsString env1 .FilePath = p)
    (habs : f.files o = none)
    (hsteps : ∀ s ∈ steps, ¬ s.2.removes o)
    (hrun : runTo (processEvent env1 f e).state steps = some f2)
    (hdef : e2.Typ.isDefault = true) (hmv : e2.Typ ≠ .MapViewFile)
    (hed : e2.Typ ≠ .EnumDirectory)
    (hK : e2.Kparams.GetUint64 .FileKey = .ok k)
    (hO2 : e2.Kparams.GetUint64 .FileObject = .ok o)
    (hk : f2.files k = none ∨ k = o) :
    ∃ ev f3, processEvent env2 f2 e2 = .returned (some ev) none f3 ∧
      ev.Kparams .FilePath = some ⟨.Path, .str p, none⟩ ∧
      (env1.GetFileType p 0 ≠ .Unknown → ev.Kparams .FileType =
        some ⟨.Enum, .uint32 (env1.GetFileType p 0).toUint32, some .FileTypes⟩) ∧
      Kevent.sameExcept [.FileType, .FilePath] ev e2 := by
  have h1 : (processEvent env1 f e).state.files o = some ⟨p, env1.GetFileType p 0⟩ := by
    simp [processEvent, hT, hO, habs, Outcome.state, hp]
  have h2 := runTo_keeps_file o _ steps _ h1 hsteps f2 hrun
  obtain ⟨f3, h3, _⟩ := processEvent_default env2 f2 e2 k o hdef hmv hed hK hO2
  rw [findFile_by_object env2 f2 k o _ h2 hk] at h3
  obtain ⟨w1, w2, _, w4⟩ := Kevent.withFileInfo_some e2 ⟨p, env1.GetFileType p 0⟩
  exact ⟨_, f3, h3, w1, w2, w4⟩

theorem rundown_enriches_later_record_witness :
    ∃ ev f3, processEvent quietEnv (processEvent quietEnv rundownState sampleCreateFile).state
        closeA = .returned (some ev) none f3 ∧
      ev.Kparams .FilePath = some (path "a.txt") ∧
      ev.Kparams .FileType = some ⟨.Enum, .uint32 1, some .FileTypes⟩ :=
  let ⟨ev, f3, h0, h1, h2, _⟩ := rundown_enriches_later_record quietEnv quietEnv
    (newFsProcessor configOn) (processEvent quietEnv rundownState sampleCreateFile).state
    rundownA closeA 0xA 0x77 "a.txt" [(quietEnv, sampleCreateFile)] rfl rfl rfl rfl
    (by
      intro s hs
      simp only [List.mem_singleton] at hs
      subst hs
      rintro ⟨h | h, _⟩ <;> cases h)
    rfl rfl (by decide) (by decide) rfl rfl (Or.inl rfl)
  ⟨ev, f3, h0, h1, h2 (by decide)⟩

/-- C12. FileRundown. For every state and every FileRundown record with file object `o`
and file path `p` (the rendering of its `file_path` parameter), the record is returned
unchanged without error. If `o` is absent from the file metadata table, the table gains
exactly the entry `o ↦ {Name = p, Typ = GetFileType p 0}`; if `o` is present, the state
is left as it was and the existing entry is not overwritten. In both cases the
pending-IRP table and the stack-walk buckets are unchanged. -/
theorem fileRundown_inserts_when_absent (env : Env) (f : fsProcessor) (e : Kevent) (o : Nat)
    (hT : e.Typ = .FileRundown) (hO : e.Kparams.GetUint64 .FileObject = .ok o) :
    (processEvent env f e).evt = some e ∧
    (∃ f1, processEvent env f e = .returned (some e) none f1) ∧
    (f.files o = none →
      (processEvent env f e).state.files = Function.update f.files o
        (some ⟨e.GetParamAsString env .FilePath,
          env.GetFileType (e.GetParamAsString env .FilePath) 0⟩)) ∧
    (∀ fi, f.files o = some fi → processEvent env f e = .returned (some e) none f) ∧
    (processEvent env f e).state.irps = f.irps ∧
    (processEvent env f e).state.buckets = f.buckets := by
  cases hf : f.files o with
  | none =>
    have h : processEvent env f e = .returned (some e) none
        { f with
          vars := { f.vars with totalRundownFiles := f.vars.totalRundownFiles + 1 }
          files := Function.update f.files o
            (some ⟨e.GetParamAsString env .FilePath,
              env.GetFileType (e.GetParamAsString env .FilePath) 0⟩) } := by
      simp [processEvent, hT, hO, hf]
    rw [h]
    exact ⟨rfl, ⟨_, rfl⟩, fun _ => rfl, fun fi hfi => (by cases hfi), rfl, rfl⟩
  | some fi0 =>
    have h : processEvent env f e = .returned (some e) none f := by
      simp [processEvent, hT, hO, hf]
    rw [h]
    exact ⟨rfl, ⟨_, rfl⟩, fun hn => (by cases hn), fun _ _ => rfl, rfl, rfl⟩

theorem fileRundown_inserts_when_absent_witness :
    (processEvent quietEnv (newFsProcessor configOn) rundownA).state.files 0xA =
      some ⟨"a.txt", .Regular⟩ ∧
    processEvent quietEnv rundownState rundownA = .returned (some rundownA) none rundownState :=
  ⟨by rw [(fileRundown_inserts_when_absent quietEnv (newFsProcessor configOn) rundownA 0xA
      rfl rfl).2.2.1 rfl]; rfl,
    (fileRundown_inserts_when_absent quietEnv rundownState rundownA 0xA rfl rfl).2.2.2.1
      ⟨"a.txt", .Regular⟩ rfl⟩

/-- C13. Rate-limited PE parse. For every matched FileOpEnd processed while the limiter
denies, the held record is returned without error, with the withhold flag cleared,
carrying NT status and disposition and differing from the held record in no parameter
other than status, file type, disposition and callstack: none of the four PE
parameters is added. When the returned (held) record has a creating disposition and a
success status, the limiter was consulted, the PE parser was not called and the counter
`fs.file.characteristics.rate.limits` went up by exactly one. -/
theorem limiter_deny_skips_parse (env : Env) (f : fsProcessor) (e r : Kevent)
    (i dispo status o : Nat) (hm : Matched f e r i dispo status o)
    (hC : f.files o = none → ∃ opts, r.Kparams.GetUint32 .FileCreateOptions = .ok opts)
    (hdeny : env.Allow = false) :
    ∃ ev f1, processEvent env f e = .returned (some ev) none f1 ∧
      ev.WaitEnqueue = false ∧
      Kevent.sameExcept stageNames ev { r with WaitEnqueue := false } ∧
      ev.Kparams .NTStatus = some ⟨.Status, .uint32 status, none⟩ ∧
      ev.Kparams .FileOperation = some ⟨.Enum, .uint32 dispo, some .FileCreateDispositions⟩ ∧
      (∀ n ∈ peNames, ev.Kparams n = r.Kparams n) ∧
      (env.IsCreateDisposition ev = true → env.IsSuccess ev = true →
        f1.vars.fsFileCharacteristicsRateLimits =
          f.vars.fsFileCharacteristicsRateLimits + 1 ∧
        f1.calls = f.calls ++ (addPathCalls env f r ++ [.Allow]) ∧
        ∀ p, Call.parseImageFileCharacteristics p ∉ addPathCalls env f r ++ [.Allow]) := by
  obtain ⟨ev5, f4, _, h0, h1, h2, h3, _, _, _, _, _, _, hv, hc⟩ :=
    matched_decompose env f e r i dispo status o hm hC
  have hpe : ∀ n ∈ peNames, ev5.Kparams n = r.Kparams n := by
    intro n hn
    simp [peNames] at hn
    exact h1.2.2.2.2.2.2 n (by rcases hn with h | h | h | h <;> simp [h, stageNames])
  have hnp : ∀ p, Call.parseImageFileCharacteristics p ∉ addPathCalls env f r ++ [.Allow] := by
    intro p
    unfold addPathCalls
    split <;> simp
  by_cases hcond : env.IsCreateDisposition ev5 = true ∧ env.IsSuccess ev5 = true
  · obtain ⟨f1, h, hcalls, hvars⟩ :=
      (appendCharacteristics_cases env f4 ev5).2.1 hcond.1 hcond.2 hdeny
    refine ⟨ev5, f1, h0.trans h, h1.2.2.2.2.2.1, h1, h2, h3, hpe, fun _ _ => ⟨?_, ?_, hnp⟩⟩
    · rw [hvars, hv]
    · rw [hcalls, hc]; simp [addPathCalls]
  · have h := (appendCharacteristics_cases env f4 ev5).1 hcond
    exact ⟨ev5, f4, h0.trans h, h1.2.2.2.2.2.1, h1, h2, h3, hpe,
      fun a b => absurd ⟨a, b⟩ hcond⟩

theorem limiter_deny_skips_parse_witness :
    ∃ ev f1, processEvent denyEnv pendingState sampleFileOpEnd = .returned (some ev) none f1 ∧
      ev.WaitEnqueue = false ∧ (∀ n ∈ peNames, ev.Kparams n = sampleHeld.Kparams n) ∧
      f1.vars.fsFileCharacteristicsRateLimits =
        pendingState.vars.fsFileCharacteristicsRateLimits + 1 :=
  let ⟨ev, f1, h0, h1, h2, h3, h4, h5, h6⟩ := limiter_deny_skips_parse denyEnv pendingState
    sampleFileOpEnd sampleHeld 0x100 2 0 0xB pendingState_matched (fun _ => ⟨1, rfl⟩) rfl
  have hT : ev.Typ = .CreateFile := h2.1
  ⟨ev, f1, h0, h1, h5,
    (h6 (by simp [denyEnv, peEnv, hT, h4, Kparams.GetUint32])
      (by simp [denyEnv, peEnv, h3, Kparams.GetUint32])).1⟩

/-- C14 fails as stated. After a burst of N = 1 at time 0, the thirty-one creates
completed one nanosecond later, all within the next second, all carry PE parameters. And
after a burst of N = 41 at time 0, of which 40 carry PE parameters and which leaves the
bucket empty, nothing happens for two seconds: the thirty-two creates completed at that
instant, within any window of one second around it, all carry PE parameters. -/
theorem later_window_exceeds_thirty :
    (countPE ((limitedRun Limiter.full manyPending smallBurst).take 1) = 1 ∧
      countPE ((limitedRun Limiter.full manyPending smallBurst).drop 1) = 31) ∧
    (countPE ((limitedRun Limiter.full morePending drainingBurst).take 41) = 40 ∧
      countPE ((limitedRun Limiter.full morePending drainingBurst).drop 41) = 32) := by
  set_option maxRecDepth 100000 in decide

/-- C14 (as the token bucket has it). With the limiter modelled as a token bucket of rate
30 permits per second and burst 40, and no pending or incoming record carrying a PE
parameter of its own: whatever records are processed at the instant 0 with the bucket
full, at most 40 of the emitted records carry PE parameters. Over a window of one
second starting at a time `a`, whatever the content of the bucket then, the emitted
records carrying PE parameters number at most 30 plus the permits in the bucket at
`a`, hence at most 70, and at most 30 when the bucket holds less than one permit at
`a`, as it does after a burst that drained it. -/
theorem pe_parse_rate_limit (f : fsProcessor) (hP : NoPendingPE f) :
    (∀ steps : List (Nat × Env × Kevent),
      (∀ s ∈ steps, s.1 = 0 ∧ s.2.2.carriesPE = false) →
      countPE (limitedRun Limiter.full f steps) ≤ 40) ∧
    (∀ (l : Limiter) (a : Nat) (steps : List (Nat × Env × Kevent)), l.last ≤ a →
      (∀ s ∈ steps, a ≤ s.1 ∧ s.1 ≤ a + Limiter.unit ∧ s.2.2.carriesPE = false) →
      List.Pairwise (fun x y => x ≤ y) (steps.map Prod.fst) →
      countPE (limitedRun l f steps) ≤ l.tokensAt a / Limiter.unit + 30 ∧
      countPE (limitedRun l f steps) ≤ 70 ∧
      (l.tokensAt a < Limiter.unit → countPE (limitedRun l f steps) ≤ 30)) := by
  constructor
  · intro steps hs
    have hsorted : List.Pairwise (fun x y => x ≤ y) (steps.map Prod.fst) := by
      apply List.pairwise_of_forall_mem_list
      intro x hx y hy
      obtain ⟨s, hs1, rfl⟩ := List.mem_map.1 hx
      obtain ⟨t, ht1, rfl⟩ := List.mem_map.1 hy
      rw [(hs s hs1).1, (hs t ht1).1]
    have h := limitedRun_bound steps Limiter.full f 0 0 hP (fun s h => (hs s h).2) hsorted
      (fun s h => by rw [(hs s h).1]; exact ⟨Nat.le_refl _, Nat.le_refl _⟩) (Nat.le_refl _)
    have ht : Limiter.full.tokensAt 0 + Limiter.rate * (0 - 0) = 40 * Limiter.unit := by
      decide
    rw [ht] at h
    simp only [Limiter.unit] at h
    omega
  · intro l a steps hlast hs hsorted
    have h := limitedRun_bound steps l f a (a + Limiter.unit) hP (fun s h => (hs s h).2.2)
      hsorted (fun s h => ⟨(hs s h).1, (hs s h).2.1⟩) hlast
    have hcap : l.tokensAt a ≤ Limiter.burst := by
      unfold Limiter.tokensAt
      exact Nat.min_le_left _ _
    have hdiv : l.tokensAt a / Limiter.unit * Limiter.unit + l.tokensAt a % Limiter.unit =
        l.tokensAt a := Nat.div_add_mod' _ _
    have hmod : l.tokensAt a % Limiter.unit < Limiter.unit :=
      Nat.mod_lt _ (by unfold Limiter.unit; omega)
    simp only [Limiter.burst, Limiter.rate, Limiter.unit] at h hcap hdiv hmod ⊢
    refine ⟨by omega, by omega, fun hlt => by omega⟩

theorem pe_parse_rate_limit_witness :
    countPE (limitedRun Limiter.full manyPending sameInstant) ≤ 40 :=
  (pe_parse_rate_limit manyPending manyPending_noPendingPE).1 sameInstant (by decide)

/-- C15 fails as stated: a CreateFile record lacking the IRP pointer makes `processEvent`
panic; no error is returned. -/
theorem createFile_without_irp_panics :
    bareCreateFile.Typ = .CreateFile ∧ bareCreateFile.Kparams .FileIrpPtr = none ∧
    processEvent quietEnv (newFsProcessor configOn) bareCreateFile =
      .panicked (newFsProcessor configOn) :=
  ⟨rfl, rfl, rfl⟩

/-- C15 (as the code has it). Only the FileRundown case reads its required parameter with
an accessor that returns an error: a FileRundown lacking `file_object` never panics,
`processEvent` returns the error with no record and leaves the state unchanged. An
UnmapViewFile has no required parameter and always returns a record. Every other
handled type reads its parameters with `Must*` accessors, which leave no error to
return: a MapFileRundown or a record of the default branch lacking `file_key`, a
CreateFile lacking the IRP pointer, a FileOpEnd lacking the IRP pointer, the
disposition or the NT status, a ReleaseFile or a record of the default branch other
than MapViewFile lacking `file_object`, and a matched FileOpEnd whose held record lacks
`file_object` all make `processEvent` panic. -/
theorem missing_parameter_outcomes (env : Env) (f : fsProcessor) (e : Kevent) :
    (e.Typ = .FileRundown → e.Kparams .FileObject = none →
      processEvent env f e = .returned none (some (.kparam .FileObject)) f) ∧
    (e.Typ = .UnmapViewFile → ∃ ev err f1, processEvent env f e = .returned (some ev) err f1) ∧
    (e.Typ = .MapFileRundown → e.Kparams .FileKey = none →
      processEvent env f e = .panicked f) ∧
    (e.Typ = .CreateFile → e.Kparams .FileIrpPtr = none →
      processEvent env f e = .panicked f) ∧
    (e.Typ = .FileOpEnd →
      (e.Kparams .FileIrpPtr = none ∨ e.Kparams .FileExtraInfo = none ∨
        e.Kparams .NTStatus = none) →
      processEvent env f e = .panicked f) ∧
    (e.Typ = .ReleaseFile → e.Kparams .FileObject = none →
      ∃ fp, processEvent env f e = .panicked fp) ∧
    (e.Typ.isDefault = true → e.Kparams .FileKey = none →
      processEvent env f e = .panicked f) ∧
    (e.Typ.isDefault = true → e.Typ ≠ .MapViewFile → e.Kparams .FileObject = none →
      processEvent env f e = .panicked f) ∧
    (∀ r i dispo status, e.Typ = .FileOpEnd → e.Kparams.GetUint64 .FileIrpPtr = .ok i →
      e.Kparams.GetUint64 .FileExtraInfo = .ok dispo →
      e.Kparams.GetUint32 .NTStatus = .ok status → dispo ≤ FILE_MAXIMUM_DISPOSITION →
      f.irps i = some r → r.Kparams .FileObject = none →
      ∃ fp, processEvent env f e = .panicked fp ∧ fp.irps i = none) := by
  refine ⟨?_, ?_, ?_, ?_, ?_, ?_, ?_, ?_, ?_⟩
  · intro hT h
    simp [processEvent, hT, Kparams.GetUint64_none _ _ h]
  · intro hT
    cases hF : env.Find e.PID with
    | none => exact ⟨_, _, _, by simp [processEvent, hT, hF]; exact ⟨rfl, rfl, rfl⟩⟩
    | some proc =>
      cases hM : proc.FindMmap (e.Kparams.TryGetAddress .FileViewBase) with
      | none => exact ⟨_, _, _, by simp [processEvent, hT, hF, hM]; exact ⟨rfl, rfl, rfl⟩⟩
      | some file => exact ⟨_, _, _, by simp [processEvent, hT, hF, hM]; exact ⟨rfl, rfl, rfl⟩⟩
  · intro hT h
    simp [processEvent, hT, Kparams.GetUint64_none _ _ h]
  · intro hT h
    simp [processEvent, hT, Kparams.GetUint64_none _ _ h]
  · intro hT h
    cases hI : e.Kparams.GetUint64 .FileIrpPtr with
    | error _ => simp [processEvent, hT, hI]
    | ok irp =>
      cases hD : e.Kparams.GetUint64 .FileExtraInfo with
      | error _ => simp [processEvent, hT, hI, hD]
      | ok dispo =>
        cases hS : e.Kparams.GetUint32 .NTStatus with
        | error _ => simp [processEvent, hT, hI, hD, hS]
        | ok status =>
          rcases h with h | h | h
          · rw [Kparams.GetUint64_none _ _ h] at hI; cases hI
          · rw [Kparams.GetUint64_none _ _ h] at hD; cases hD
          · rw [Kparams.GetUint32_none _ _ h] at hS; cases hS
  · intro hT h
    exact ⟨_, by simp [processEvent, hT, Kparams.GetUint64_none _ _ h]; rfl⟩
  · intro hdef h
    cases hT : e.Typ <;> simp [hT, Ktype.isDefault] at hdef <;>
      simp [processEvent, hT, Kparams.GetUint64_none _ _ h]
  · intro hdef hmv h
    cases hK : e.Kparams.GetUint64 .FileKey <;>
      cases hT : e.Typ <;> simp [hT, Ktype.isDefault] at hdef hmv <;>
      simp [processEvent, hT, hK, Kparams.GetUint64_none _ _ h, Kevent.IsMapViewFile]
  · intro r i dispo status hT hI hD hS hM hP h
    rw [processEvent_fileOpEnd_matched env f e r i dispo status hT hI hD hS hM hP]
    refine ⟨{ f with irps := Function.update f.irps i none }, ?_, Function.update_same _ _ _⟩
    have : Kparams.GetUint64 r.Kparams .FileObject = .error (.kparam .FileObject) :=
      Kparams.GetUint64_none _ _ h
    simp [completeCreateFile, this]

theorem missing_parameter_outcomes_witness :
    processEvent quietEnv pendingState bareRundown =
      .returned none (some (.kparam .FileObject)) pendingState ∧
    processEvent quietEnv pendingState bareCreateFile = .panicked pendingState :=
  ⟨(missing_parameter_outcomes quietEnv pendingState bareRundown).1 rfl rfl,
    (missing_parameter_outcomes quietEnv pendingState bareCreateFile).2.2.2.1 rfl rfl⟩

/-- C16 fails as stated: processing an UnmapViewFile lowers `fs.total.map.rundown.files`. -/
theorem unmapViewFile_lowers_map_rundown_counter :
    unmapView.Typ = .UnmapViewFile ∧
    (processEvent quietEnv (newFsProcessor configOn) unmapView).state.vars.totalMapRundownFiles <
      (newFsProcessor configOn).vars.totalMapRundownFiles :=
  ⟨rfl, by decide⟩

/-- C16 (as the code has it). For every state and every record, the counters
`fs.total.rundown.files`, `fs.file.objects.misses`, `fs.file.object.handle.hits`,
`fs.file.releases` and `fs.file.characteristics.rate.limits` are, after the record is
processed, greater than or equal to what they were. So is `fs.total.map.rundown.files`
for every record that is not an UnmapViewFile; an UnmapViewFile lowers it by exactly
one. -/
theorem counters_monotonic_but_map_rundown (env : Env) (f : fsProcessor) (e : Kevent) :
    f.vars.totalRundownFiles ≤ (processEvent env f e).state.vars.totalRundownFiles ∧
    f.vars.fileObjectMisses ≤ (processEvent env f e).state.vars.fileObjectMisses ∧
    f.vars.fileObjectHandleHits ≤ (processEvent env f e).state.vars.fileObjectHandleHits ∧
    f.vars.fileReleaseCount ≤ (processEvent env f e).state.vars.fileReleaseCount ∧
    f.vars.fsFileCharacteristicsRateLimits ≤
      (processEvent env f e).state.vars.fsFileCharacteristicsRateLimits ∧
    (e.Typ ≠ .UnmapViewFile →
      f.vars.totalMapRundownFiles ≤ (processEvent env f e).state.vars.totalMapRundownFiles) ∧
    (e.Typ = .UnmapViewFile →
      (processEvent env f e).state.vars.totalMapRundownFiles =
        f.vars.totalMapRundownFiles - 1) := by
  obtain ⟨h1, h2⟩ := processEvent_vars env f e
  by_cases hT : e.Typ = .UnmapViewFile
  · have h := h2 hT
    rw [h]
    exact ⟨Int.le_refl _, Int.le_refl _, Int.le_refl _, Int.le_refl _, Int.le_refl _,
      fun hn => absurd hT hn, fun _ => rfl⟩
  · obtain ⟨a, b, c, d, e1, g⟩ := h1 hT
    exact ⟨a, c, d, e1, g, fun _ => b, fun h => absurd h hT⟩

theorem counters_monotonic_but_map_rundown_witness :
    (newFsProcessor configOn).vars.fileReleaseCount ≤
      (processEvent quietEnv (newFsProcessor configOn) releaseA).state.vars.fileReleaseCount ∧
    (newFsProcessor configOn).vars.totalMapRundownFiles ≤
      (processEvent quietEnv (newFsProcessor configOn) releaseA).state.vars.totalMapRundownFiles ∧
    (processEvent quietEnv (newFsProcessor configOn) unmapView).state.vars.totalMapRundownFiles =
      (newFsProcessor configOn).vars.totalMapRundownFiles - 1 :=
  ⟨(counters_monotonic_but_map_rundown quietEnv (newFsProcessor configOn) releaseA).2.2.2.1,
    (counters_monotonic_but_map_rundown quietEnv (newFsProcessor configOn) releaseA).2.2.2.2.2.1
      (by decide),
    (counters_monotonic_but_map_rundown quietEnv (newFsProcessor configOn) unmapView).2.2.2.2.2.2
      rfl⟩

/-- C17. For every matched FileOpEnd whose held CreateFile `r` has a file object `o`
absent from the file metadata table and the create options `opts`, the table gains
exactly the entry `o ↦ {Name = file_path of r, Typ = GetFileType file_path
(opts mod 2^24)}`: only the low 24 bits of the create options are used. The emitted
record carries that type as `file_type` when it is not Unknown, and gains no
`file_type` when it is Unknown. -/
theorem completion_inserts_file_info (env : Env) (f : fsProcessor) (e r : Kevent)
    (i dispo status o opts : Nat) (hm : Matched f e r i dispo status o)
    (habs : f.files o = none)
    (hC : r.Kparams.GetUint32 .FileCreateOptions = .ok opts) :
    ∃ ev f1, processEvent env f e = .returned (some ev) none f1 ∧
      f1.files = Function.update f.files o
        (some ⟨r.GetParamAsString env .FilePath,
          env.GetFileType (r.GetParamAsString env .FilePath) (opts % 2 ^ 24)⟩) ∧
      (env.GetFileType (r.GetParamAsString env .FilePath) (opts % 2 ^ 24) ≠ .Unknown →
        ev.Kparams .FileType = some ⟨.Enum,
          .uint32 (env.GetFileType (r.GetParamAsString env .FilePath) (opts % 2 ^ 24)).toUint32,
          some .FileTypes⟩) ∧
      (env.GetFileType (r.GetParamAsString env .FilePath) (opts % 2 ^ 24) = .Unknown →
        ev.Kparams .FileType = r.Kparams .FileType) := by
  obtain ⟨ev5, f4, fileinfo, h0, _, _, _, h4, h5, _, h7, _⟩ :=
    matched_decompose env f e r i dispo status o hm (fun _ => ⟨opts, hC⟩)
  obtain ⟨hfi, hfiles⟩ := h7 opts habs hC
  have hmask : opts &&& 0xFFFFFF = opts % 2 ^ 24 :=
    Nat.and_pow_two_sub_one_eq_mod opts 24
  rw [hmask] at hfi
  obtain ⟨ev, f1, h, hf, _, hs⟩ := appendCharacteristics_returns env f4 ev5
  have hft : ev.Kparams .FileType = ev5.Kparams .FileType :=
    hs.2.2.2.2.2.2 _ (by simp [peNames])
  refine ⟨ev, f1, h0.trans h, ?_, ?_, ?_⟩
  · rw [hf, hfiles, hfi]; rfl
  · intro hu
    rw [hft, h4 (by rw [hfi]; exact hu), hfi]; rfl
  · intro hu
    rw [hft, h5 (by rw [hfi]; exact hu)]

theorem completion_inserts_file_info_witness :
    ∃ ev f1, processEvent quietEnv pendingState sampleFileOpEnd =
        .returned (some ev) none f1 ∧
      f1.files 0xB = some ⟨"x.exe", .Regular⟩ ∧
      ev.Kparams .FileType = some ⟨.Enum, .uint32 1, some .FileTypes⟩ :=
  let ⟨ev, f1, h0, h1, h2, _⟩ := completion_inserts_file_info quietEnv pendingState
    sampleFileOpEnd sampleHeld 0x100 2 0 0xB 1 pendingState_matched rfl rfl
  ⟨ev, f1, h0, by rw [h1]; rfl, h2 (by decide)⟩

/-- C18. For every matched FileOpEnd whose held CreateFile `r` has a file object `o`
that is already in the file metadata table, with entry `fi`, the entry is reused: the
table is left unchanged and the `file_type` of the emitted record is that of `fi`
(none is appended when it is Unknown), whatever the `file_path` and `create_options` of
`r` are. Along every later run in which no ReleaseFile or DeleteFile carries the file
object `o`, the entry under `o` is still `fi`, and a lookup by `o` with a file key that
is absent or equal to `o` returns `fi`. -/
theorem completion_reuses_file_info (env : Env) (f : fsProcessor) (e r : Kevent)
    (i dispo status o : Nat) (fi : FileInfo) (hm : Matched f e r i dispo status o)
    (hpres : f.files o = some fi) :
    ∃ ev f1, processEvent env f e = .returned (some ev) none f1 ∧
      f1.files = f.files ∧
      (fi.Typ ≠ .Unknown → ev.Kparams .FileType =
        some ⟨.Enum, .uint32 fi.Typ.toUint32, some .FileTypes⟩) ∧
      (fi.Typ = .Unknown → ev.Kparams .FileType = r.Kparams .FileType) ∧
      ∀ (steps : List (Env × Kevent)) (f2 : fsProcessor), (∀ s ∈ steps, ¬ s.2.removes o) →
        runTo f1 steps = some f2 →
        f2.files o = some fi ∧
        ∀ (env2 : Env) (k : Nat), (f2.files k = none ∨ k = o) →
          findFile env2 f2 k o = (some fi, f2) := by
  obtain ⟨ev5, f4, fileinfo, h0, _, _, _, h4, h5, h6, _⟩ :=
    matched_decompose env f e r i dispo status o hm (fun h => by rw [hpres] at h; cases h)
  obtain ⟨hfi, hfiles⟩ := h6 fi hpres
  subst hfi
  obtain ⟨ev, f1, h, hf, _, hs⟩ := appendCharacteristics_returns env f4 ev5
  have hft : ev.Kparams .FileType = ev5.Kparams .FileType :=
    hs.2.2.2.2.2.2 _ (by simp [peNames])
  refine ⟨ev, f1, h0.trans h, hf.trans hfiles, fun hu => by rw [hft, h4 hu],
    fun hu => by rw [hft, h5 hu], ?_⟩
  intro steps f2 hsteps hrun
  have h1 : f1.files o = some fileinfo := by rw [hf, hfiles]; exact hpres
  have h2 := runTo_keeps_file o fileinfo steps f1 h1 hsteps f2 hrun
  exact ⟨h2, fun env2 k hk => findFile_by_object env2 f2 k o fileinfo h2 hk⟩

theorem completion_reuses_file_info_witness :
    ∃ ev f1, processEvent quietEnv knownState sampleFileOpEnd =
        .returned (some ev) none f1 ∧
      f1.files = knownState.files ∧
      ev.Kparams .FileType = some ⟨.Enum, .uint32 2, some .FileTypes⟩ :=
  let ⟨ev, f1, h0, h1, h2, _⟩ := completion_reuses_file_info quietEnv knownState
    sampleFileOpEnd sampleHeld 0x100 2 0 0xB ⟨"old", .Directory⟩ knownState_matched rfl
  ⟨ev, f1, h0, h1, h2 (by decide)⟩

/-- C19. For every matched FileOpEnd whose held CreateFile carries none of the four PE
parameters, let `ev5` be the held record as it stands when the PE stage begins (flag
cleared, status, file type, disposition and callstack set). The emitted record `ev`
carries all four PE parameters if and only if `ev5` has a creating disposition, its
status is a success, the limiter allows and the PE parser succeeds on its path, and
then they hold the parsed characteristics; as soon as it carries one of them it carries
all four. When the disposition is not creating or the status is a failure the limiter
is not consulted: the call log gains no `Allow` and the counters are unchanged. -/
theorem pe_parameters_iff (env : Env) (f : fsProcessor) (e r : Kevent)
    (i dispo status o : Nat) (hm : Matched f e r i dispo status o)
    (hC : f.files o = none → ∃ opts, r.Kparams.GetUint32 .FileCreateOptions = .ok opts)
    (hnope : ∀ n ∈ peNames, r.Kparams n = none) :
    ∃ ev5 ev f1, processEvent env f e = .returned (some ev) none f1 ∧
      Kevent.sameExcept stageNames ev5 { r with WaitEnqueue := false } ∧
      Kevent.sameExcept peNames ev ev5 ∧
      ((∀ n ∈ peNames, ev.Kparams n ≠ none) ↔
        (env.IsCreateDisposition ev5 = true ∧ env.IsSuccess ev5 = true ∧ env.Allow = true ∧
          ∃ c, env.parseImageFileCharacteristics (ev5.GetParamAsString env .FilePath) =
            some c)) ∧
      ((∃ n ∈ peNames, ev.Kparams n ≠ none) → ∀ n ∈ peNames, ev.Kparams n ≠ none) ∧
      (∀ c, (∀ n ∈ peNames, ev.Kparams n ≠ none) →
        env.parseImageFileCharacteristics (ev5.GetParamAsString env .FilePath) = some c →
        ev.hasCharacteristics c) ∧
      (¬ (env.IsCreateDisposition ev5 = true ∧ env.IsSuccess ev5 = true) →
        f1.vars = f.vars ∧ f1.calls = f.calls ++ addPathCalls env f r ∧
        Call.Allow ∉ addPathCalls env f r) := by
  obtain ⟨ev5, f4, _, h0, h1, _, _, _, _, _, _, _, _, hv, hc⟩ :=
    matched_decompose env f e r i dispo status o hm hC
  have hpe5 : ∀ n ∈ peNames, ev5.Kparams n = none := by
    intro n hn
    rw [← hnope n hn]
    simp [peNames] at hn
    exact h1.2.2.2.2.2.2 n (by rcases hn with h | h | h | h <;> simp [h, stageNames])
  have hna : Call.Allow ∉ addPathCalls env f r := by
    unfold addPathCalls
    split <;> simp
  have hsame : Kevent.sameExcept peNames ev5 ev5 := ⟨rfl, rfl, rfl, rfl, rfl, rfl, fun _ _ => rfl⟩
  -- when the record comes back as `ev5`, it carries no PE parameter
  have hnone : ¬ (∀ n ∈ peNames, ev5.Kparams n ≠ none) := by
    intro h
    exact h .FileIsDLL (by simp [peNames]) (hpe5 _ (by simp [peNames]))
  have hnone1 : ¬ (∃ n ∈ peNames, ev5.Kparams n ≠ none) := by
    rintro ⟨n, hn, h⟩
    exact h (hpe5 n hn)
  by_cases hcond : env.IsCreateDisposition ev5 = true ∧ env.IsSuccess ev5 = true
  · cases hallow : env.Allow with
    | false =>
      obtain ⟨f1, h, _, _⟩ :=
        (appendCharacteristics_cases env f4 ev5).2.1 hcond.1 hcond.2 hallow
      refine ⟨ev5, ev5, f1, h0.trans h, h1, hsame, ⟨fun a => absurd a hnone, ?_⟩,
        fun a => absurd a hnone1, fun _ a _ => absurd a hnone, fun a => absurd hcond a⟩
      rintro ⟨_, _, h3, _⟩
      cases h3
    | true =>
      cases hparse : env.parseImageFileCharacteristics (ev5.GetParamAsString env .FilePath) with
      | none =>
        obtain ⟨f1, h, _, _⟩ :=
          (appendCharacteristics_cases env f4 ev5).2.2.1 hcond.1 hcond.2 hallow hparse
        refine ⟨ev5, ev5, f1, h0.trans h, h1, hsame, ⟨fun a => absurd a hnone, ?_⟩,
          fun a => absurd a hnone1, fun _ a _ => absurd a hnone, fun a => absurd hcond a⟩
        rintro ⟨_, _, _, c, hc⟩
        rw [hparse] at hc
        cases hc
      | some c =>
        obtain ⟨ev, f1, h, hchar, hs, _, _⟩ :=
          (appendCharacteristics_cases env f4 ev5).2.2.2 c hcond.1 hcond.2 hallow hparse
        have hall : ∀ n ∈ peNames, ev.Kparams n ≠ none := by
          intro n hn
          obtain ⟨c1, c2, c3, c4⟩ := hchar
          simp [peNames] at hn
          rcases hn with h | h | h | h <;> subst h <;> simp [c1, c2, c3, c4]
        refine ⟨ev5, ev, f1, h0.trans h, h1, hs,
          ⟨fun _ => ⟨hcond.1, hcond.2, rfl, c, hparse⟩, fun _ => hall⟩, fun _ => hall, ?_,
          fun a => absurd hcond a⟩
        intro c1 _ hc1
        rw [hparse] at hc1
        cases hc1
        exact hchar
  · have h := (appendCharacteristics_cases env f4 ev5).1 hcond
    refine ⟨ev5, ev5, f4, h0.trans h, h1, hsame, ⟨fun a => absurd a hnone, ?_⟩,
      fun a => absurd a hnone1, fun _ a _ => absurd a hnone, fun _ => ⟨hv, ?_, hna⟩⟩
    · rintro ⟨a, b, _⟩
      exact absurd ⟨a, b⟩ hcond
    · rw [hc]; rfl

theorem pe_parameters_iff_witness :
    ∃ ev f1, processEvent peEnv pendingState sampleFileOpEnd =
        .returned (some ev) none f1 ∧
      ev.hasCharacteristics ⟨false, false, true, false⟩ := by
  obtain ⟨ev5, ev, f1, h0, h1, h2, h3, _, h5, _⟩ := pe_parameters_iff peEnv pendingState
    sampleFileOpEnd sampleHeld 0x100 2 0 0xB pendingState_matched (fun _ => ⟨1, rfl⟩)
    (by decide)
  have hev : (processEvent peEnv pendingState sampleFileOpEnd).evt = some ev := by
    rw [h0]; rfl
  have hop : (processEvent peEnv pendingState sampleFileOpEnd).evt.map
      (fun x => (x.Kparams .FileOperation, x.Kparams .NTStatus)) =
      some (some ⟨.Enum, .uint32 2, some .FileCreateDispositions⟩,
        some ⟨.Status, .uint32 0, none⟩) := by
    decide
  rw [hev] at hop
  simp only [Option.map_some', Option.some.injEq, Prod.mk.injEq] at hop
  have hF : ev5.Kparams .FileOperation =
      some ⟨.Enum, .uint32 2, some .FileCreateDispositions⟩ := by
    rw [← h2.2.2.2.2.2.2 .FileOperation (by decide)]; exact hop.1
  have hS : ev5.Kparams .NTStatus = some ⟨.Status, .uint32 0, none⟩ := by
    rw [← h2.2.2.2.2.2.2 .NTStatus (by decide)]; exact hop.2
  have hT : ev5.Typ = .CreateFile := h1.1
  exact ⟨ev, f1, h0, h5 _ (h3.2 ⟨by simp [peEnv, hT, hF, Kparams.GetUint32],
    by simp [peEnv, hS, Kparams.GetUint32], rfl, ⟨_, rfl⟩⟩) rfl⟩

/-- C20. DeleteFile. For every state and every DeleteFile record with file key `k` and
file object `x`, the record is returned without error; afterwards `x` is absent from
the file metadata table and every other key (`k` included when `k ≠ x`) keeps its
entry. The returned record is enriched from the lookup made before the removal: when
`findFile k x` resolves a file info it carries its name as `file_path` and, when the
type is known, its type as `file_type`, and differs from the input in nothing else;
in particular an entry under `x` that this very call removes still enriches the
record. When the lookup resolves nothing the record is returned as it came. -/
theorem deleteFile_enriches_then_removes (env : Env) (f : fsProcessor) (e : Kevent)
    (k x : Nat)
    (hT : e.Typ = .DeleteFile)
    (hK : e.Kparams.GetUint64 .FileKey = .ok k)
    (hO : e.Kparams.GetUint64 .FileObject = .ok x) :
    ∃ ev f1, processEvent env f e = .returned (some ev) none f1 ∧
      f1.files x = none ∧ (∀ j, j ≠ x → f1.files j = f.files j) ∧
      (∀ fi, (findFile env f k x).1 = some fi →
        ev.Kparams .FilePath = some ⟨.Path, .str fi.Name, none⟩ ∧
        (fi.Typ ≠ .Unknown →
          ev.Kparams .FileType = some ⟨.Enum, .uint32 fi.Typ.toUint32, some .FileTypes⟩) ∧
        Kevent.sameExcept [.FileType, .FilePath] ev e) ∧
      ((findFile env f k x).1 = none → ev = e) ∧
      (∀ fi, f.files k = none → f.files x = some fi →
        ev.Kparams .FilePath = some ⟨.Path, .str fi.Name, none⟩) := by
  obtain ⟨f1, h1, h2, _⟩ := processEvent_default env f e k x (by simp [hT, Ktype.isDefault])
    (by simp [hT]) (by simp [hT]) hK hO
  simp only [hT, if_true] at h2
  have hfi : ∀ fi, (findFile env f k x).1 = some fi →
      (e.withFileInfo (findFile env f k x).1).Kparams .FilePath =
        some ⟨.Path, .str fi.Name, none⟩ ∧
      (fi.Typ ≠ .Unknown → (e.withFileInfo (findFile env f k x).1).Kparams .FileType =
        some ⟨.Enum, .uint32 fi.Typ.toUint32, some .FileTypes⟩) ∧
      Kevent.sameExcept [.FileType, .FilePath] (e.withFileInfo (findFile env f k x).1) e := by
    intro fi h
    rw [h]
    obtain ⟨w1, w2, _, w4⟩ := Kevent.withFileInfo_some e fi
    exact ⟨w1, w2, w4⟩
  refine ⟨_, f1, h1, ?_, ?_, hfi, ?_, ?_⟩
  · rw [h2]; exact Function.update_same _ _ _
  · intro j hj; rw [h2]; exact Function.update_noteq hj _ _
  · intro h; rw [h]; rfl
  · intro fi hk hx
    exact (hfi fi (by rw [findFile_by_object env f k x fi hx (Or.inl hk)])).1

theorem deleteFile_enriches_then_removes_witness :
    ∃ ev f1, processEvent quietEnv rundownState deleteA = .returned (some ev) none f1 ∧
      f1.files 0xA = none ∧
      ev.Kparams .FilePath = some (path "a.txt") :=
  let ⟨ev, f1, h0, h1, _, _, _, h5⟩ := deleteFile_enriches_then_removes quietEnv
    rundownState deleteA 0x77 0xA rfl rfl rfl
  ⟨ev, f1, h0, h1, h5 ⟨"a.txt", .Regular⟩ rfl rfl⟩

/-- C21. EnumDirectory. For every state and every EnumDirectory record with file key `k`
and file object `x`, the record is returned without error and the file metadata table
is unchanged. If the three-stage lookup `findFile k x` resolves a FileInfo, the returned
record is the record with the single parameter `file_directory` set to the resolved
name; if it resolves nothing, the record is returned as it came. In neither case does
`file_path` or `file_type` change. -/
theorem enumDirectory_appends_directory_only (env : Env) (f : fsProcessor) (e : Kevent)
    (k x : Nat)
    (hT : e.Typ = .EnumDirectory)
    (hK : e.Kparams.GetUint64 .FileKey = .ok k)
    (hO : e.Kparams.GetUint64 .FileObject = .ok x) :
    ∃ ev f1, processEvent env f e = .returned (some ev) none f1 ∧
      f1.files = f.files ∧
      (∀ fi, (findFile env f k x).1 = some fi →
        ev = e.AppendParam .FileDirectory .Path (.str fi.Name) ∧
        ev.Kparams .FileDirectory = some ⟨.Path, .str fi.Name, none⟩ ∧
        Kevent.sameExcept [.FileDirectory] ev e) ∧
      ((findFile env f k x).1 = none → ev = e) ∧
      ev.Kparams .FilePath = e.Kparams .FilePath ∧
      ev.Kparams .FileType = e.Kparams .FileType := by
  have hfiles : (findFile env f k x).2.files = f.files := (findFile_tables env f k x).1
  cases hff : (findFile env f k x).1 with
  | none =>
    refine ⟨e, (processEvent env f e).state, ?_, ?_, ?_, fun _ => rfl, rfl, rfl⟩
    · simp [processEvent, hT, hK, hO, hff, Kevent.IsMapViewFile, Kevent.IsCloseFile,
        Kevent.IsDeleteFile, Kevent.IsEnumDirectory, Outcome.state]
    · simp [processEvent, hT, hK, hO, hff, Kevent.IsMapViewFile, Kevent.IsCloseFile,
        Kevent.IsDeleteFile, Kevent.IsEnumDirectory, Outcome.state, hfiles]
    · intro fi h; cases h
  | some fi =>
    refine ⟨e.AppendParam .FileDirectory .Path (.str fi.Name), (processEvent env f e).state,
      ?_, ?_, ?_, fun h => (by cases h), ?_, ?_⟩
    · simp [processEvent, hT, hK, hO, hff, Kevent.IsMapViewFile, Kevent.IsCloseFile,
        Kevent.IsDeleteFile, Kevent.IsEnumDirectory, Outcome.state]
    · simp [processEvent, hT, hK, hO, hff, Kevent.IsMapViewFile, Kevent.IsCloseFile,
        Kevent.IsDeleteFile, Kevent.IsEnumDirectory, Outcome.state, hfiles]
    · intro fi1 h
      cases h
      refine ⟨rfl, by simp [Kevent.AppendParam], rfl, rfl, rfl, rfl, rfl, rfl, ?_⟩
      intro n hn
      have : n ≠ .FileDirectory := by simpa using hn
      simp [Kevent.AppendParam, Function.update_apply, this]
    · simp [Kevent.AppendParam, Function.update_apply]
    · simp [Kevent.AppendParam, Function.update_apply]

theorem enumDirectory_appends_directory_only_witness :
    ∃ ev f1, processEvent quietEnv rundownState enumA = .returned (some ev) none f1 ∧
      f1.files = rundownState.files ∧
      ev.Kparams .FileDirectory = some (path "a.txt") ∧
      ev.Kparams .FilePath = none :=
  let ⟨ev, f1, h0, h1, h2, _, h4, _⟩ := enumDirectory_appends_directory_only quietEnv
    rundownState enumA 0x77 0xA rfl rfl rfl
  ⟨ev, f1, h0, h1, (h2 ⟨"a.txt", .Regular⟩ rfl).2.1, by rw [h4]; rfl⟩

/-- C22. For every bucket map and every time `now`, a sweep of the purger leaves the set
of stack ids that have a bucket as it is and never drops a sample that is not older
than 30 s: every sample of a bucket with `now - timestamp ≤ 30 s` is still in that
bucket after the sweep, and a bucket that contains no sample older than 30 s is left
exactly as it was. -/
theorem purge_keeps_fresh_samples (now : Int) (f : fsProcessor) (id : Nat) :
    (f.buckets id = none → (purge now f).buckets id = none) ∧
    ∀ q, f.buckets id = some q →
      ∃ q1, (purge now f).buckets id = some q1 ∧
        (∀ s ∈ q, now - s.Timestamp ≤ 30 * 1000000000 → s ∈ q1) ∧
        ((∀ s ∈ q, now - s.Timestamp ≤ 30 * 1000000000) → q1 = q) := by
  constructor
  · intro h
    simp [purge, h]
  · intro q hq
    refine ⟨purgeBucket now q, by simp [purge, hq], ?_, ?_⟩
    · intro s hs hfresh
      exact purgeFold_keeps now s ((expired_eq_false_iff now s).2 hfresh) _ (q, q) hs hs
    · intro hall
      unfold purgeBucket
      rw [purgeFold_fresh now _ (q, q)
        (fun s hs => (expired_eq_false_iff now s).2 (hall s hs))]

theorem purge_keeps_fresh_samples_witness :
    mixedState.buckets 1 = some [staleA, freshB] ∧
    ∃ q1, (purge 31000000000 mixedState).buckets 1 = some q1 ∧ freshB ∈ q1 :=
  ⟨rfl,
    let ⟨q1, h0, h1, _⟩ := (purge_keeps_fresh_samples 31000000000 mixedState 1).2
      [staleA, freshB] rfl
    ⟨q1, h0, h1 freshB (by simp) (by decide)⟩⟩

/-- C23 fails on four expired samples: the sweep leaves `[B, D, D]` in the bucket
`[A, B, C, D]`. The sample `D` occurs twice where it occurred once, so that the bucket
after the sweep is no subsequence of the bucket before it. -/
theorem purge_duplicates_sample :
    staleFour.buckets 1 = some [staleA, staleB, staleC, staleD] ∧
    (purge 31000000000 staleFour).buckets 1 = some [staleB, staleD, staleD] ∧
    ¬ List.Sublist [staleB, staleD, staleD] [staleA, staleB, staleC, staleD] := by
  refine ⟨rfl, rfl, ?_⟩
  intro h
  have h2 := h.map (fun s => s.Kparams .Callstack)
  revert h2
  decide

/-- C24. Invariant of the states the correlator goes through from the empty tables, under
every sequence of processed records: every record stored in the pending-IRP table has
its withhold flag set and is stored under the IRP pointer carried by its own
parameters. When a FileOpEnd with a disposition within range meets in such a state the
record `r` pending under its IRP pointer, the entry is removed and `r` is under no key
of the table any more; a record handed back by that call has the flag cleared and is
not in the table; and a record is handed back, without error, whenever `r` carries its
file object (and its create options if the file object is unknown) and the stored stack
walks are well formed. -/
theorem pending_records_stay_withheld (config : Config) (steps : List (Env × Kevent))
    (f : fsProcessor) (hf : f ∈ statesOf config steps) :
    (∀ i r, f.irps i = some r →
      r.WaitEnqueue = true ∧ r.Kparams.GetUint64 .FileIrpPtr = .ok i) ∧
    ∀ (env : Env) (e r : Kevent) (i dispo status : Nat),
      e.Typ = .FileOpEnd → e.Kparams.GetUint64 .FileIrpPtr = .ok i →
      e.Kparams.GetUint64 .FileExtraInfo = .ok dispo →
      e.Kparams.GetUint32 .NTStatus = .ok status →
      dispo ≤ FILE_MAXIMUM_DISPOSITION → f.irps i = some r →
      (processEvent env f e).state.irps i = none ∧
      (∀ j, (processEvent env f e).state.irps j ≠ some r) ∧
      (∀ ev, (processEvent env f e).evt = some ev →
        ev.WaitEnqueue = false ∧ ∀ j, (processEvent env f e).state.irps j ≠ some ev) ∧
      (∀ o, r.Kparams.GetUint64 .FileObject = .ok o →
        (f.files o = none → ∃ opts, r.Kparams.GetUint32 .FileCreateOptions = .ok opts) →
        BucketsWellFormed f →
        ∃ ev f1, processEvent env f e = .returned (some ev) none f1 ∧
          Kevent.sameExcept enrichNames ev { r with WaitEnqueue := false }) := by
  have hinv := statesOf_pendingWithheld config steps f hf
  refine ⟨fun i r h => ⟨(hinv i r h).1, (hinv i r h).2.1⟩, ?_⟩
  intro env e r i dispo status hT hI hD hS hM hP
  have hpe := processEvent_fileOpEnd_matched env f e r i dispo status hT hI hD hS hM hP
  have hirps : (processEvent env f e).state.irps = Function.update f.irps i none := by
    rw [hpe]
    exact completeCreateFile_irps env f i dispo status r
  have hflag : ∀ j ev, ev.WaitEnqueue = false →
      (processEvent env f e).state.irps j ≠ some ev := by
    intro j ev hw hj
    rw [hirps] at hj
    simp only [Function.update_apply] at hj
    split at hj
    · cases hj
    · rw [(hinv j ev hj).1] at hw
      cases hw
  refine ⟨by rw [hirps]; simp, ?_, ?_, ?_⟩
  · intro j hj
    rw [hirps] at hj
    simp only [Function.update_apply] at hj
    split at hj
    · cases hj
    · rename_i hji
      have h1 := (hinv j r hj).2.1
      rw [(hinv i r hP).2.1] at h1
      cases h1
      exact hji rfl
  · intro ev hev
    rw [hpe] at hev
    have hw := completeCreateFile_evt env f i dispo status r ev hev
    exact ⟨hw, fun j => hflag j ev hw⟩
  · intro o hO hC hW
    have hW1 : ∀ q s, f.config.StackEnrichment = true →
        f.buckets r.StackID = some (q ++ [s]) →
        ∃ cs, s.Kparams.GetSlice .Callstack = .ok cs := by
      intro q s _ hq
      have hs := hW r.StackID (q ++ [s]) s hq (by simp)
      unfold Kevent.hasCallstack at hs
      split at hs
      · exact ⟨_, by assumption⟩
      · cases hs
    obtain ⟨ev, f1, he, _, _, h3, _⟩ :=
      completeCreateFile_spec env f i dispo status r o hO hC hW1
    exact ⟨ev, f1, by rw [hpe, he], h3⟩

theorem pending_records_stay_withheld_witness :
    twoPending ∈ statesOf configOn twoCreates ∧
    (∃ r, twoPending.irps 0x101 = some r ∧ r.WaitEnqueue = true) ∧
    (processEvent quietEnv twoPending (opEndFor 0x100)).state.irps 0x100 = none ∧
    ∃ ev f1, processEvent quietEnv twoPending (opEndFor 0x100) = .returned (some ev) none f1 ∧
      ev.WaitEnqueue = false :=
  have hmem : twoPending ∈ statesOf configOn twoCreates :=
    List.mem_cons_of_mem _ (List.mem_cons_of_mem _ (List.mem_cons_self _ _))
  have h := pending_records_stay_withheld configOn twoCreates twoPending hmem
  have hm := h.2 quietEnv (opEndFor 0x100) { createWith 0x100 0xB with WaitEnqueue := true }
    0x100 2 0 rfl rfl rfl rfl (by decide) rfl
  let ⟨ev, f1, h0, _⟩ := hm.2.2.2 0xB rfl (fun _ => ⟨1, rfl⟩)
    (by intro id q s hq; cases hq)
  ⟨hmem, ⟨_, rfl, (h.1 0x101 _ rfl).1⟩, hm.1, ev, f1, h0,
    (hm.2.2.1 ev (by rw [h0]; rfl)).1⟩

end Fs
